import Mathlib

/-!
# GameTrainerApp: combat state machine and trajectory tracker

A shallow embedding of `CombatAnalyzer.cpp` and `PositionTracker.cpp`.

Conventions of the embedding.

* `double` and `float` values are exact rationals (`ℚ`): rounding, infinities and NaN are
  not modelled.
* `cv::norm` belongs to OpenCV, not to this repository.  Every function that calls it
  takes the norm as its first argument `nrm : Point2f → ℚ`; `cvNorm` is the concrete
  Euclidean instance used at examples (exact whenever the distance is rational).
* `std::vector` is `List`; `std::map<std::string, _>` is an association list kept in the
  key order of `std::string`, so that iteration order is list order.
* A member function that mutates the object returns the new object.
-/

namespace GameTrainer

/-! ## Geometry -/

/-- The type `cv::Point2f`. -/
structure Point2f where
  x : ℚ
  y : ℚ
deriving DecidableEq, Repr

instance : Sub Point2f := ⟨fun a b => ⟨a.x - b.x, a.y - b.y⟩⟩
instance : Add Point2f := ⟨fun a b => ⟨a.x + b.x, a.y + b.y⟩⟩

/-- Scaling of a point, `p * k` and `p *= k` in OpenCV. -/
def Point2f.scale (p : Point2f) (k : ℚ) : Point2f := ⟨p.x * k, p.y * k⟩

/-- The type `cv::Rect` (integer rectangle). -/
structure Rect where
  x : Int
  y : Int
  width : Int
  height : Int
deriving DecidableEq, Repr

/-- The area `width * height` of a rectangle, the concrete instance of `cv::Rect::area`
used at examples. -/
def rectArea (r : Rect) : Int := r.width * r.height

/-- The intersection of two rectangles, the concrete instance of the `&` operator of
`cv::Rect` used at examples: the common part, or the empty rectangle `(0, 0, 0, 0)` when
its width or height would not be positive. -/
def rectInter (a b : Rect) : Rect :=
  let x1 := max a.x b.x
  let y1 := max a.y b.y
  let width := min (a.x + a.width) (b.x + b.width) - x1
  let height := min (a.y + a.height) (b.y + b.height) - y1
  if width ≤ 0 ∨ height ≤ 0 then ⟨0, 0, 0, 0⟩ else ⟨x1, y1, width, height⟩

/-- Search loop of the integer square root: the largest `r` with `r * r ≤ n`, counting up
from the start value, with `fuel` bounding the number of steps. -/
def natSqrtAux (n : Nat) : Nat → Nat → Nat
  | 0, r => r
  | fuel + 1, r => if (r + 1) * (r + 1) ≤ n then natSqrtAux n fuel (r + 1) else r

/-- Integer square root, rounded down. -/
def natSqrt (n : Nat) : Nat := natSqrtAux n n 0

/-- Euclidean norm `sqrt (x*x + y*y)`, the concrete instance of `cv::norm` used at
examples: exact whenever the distance is rational (theorem `cvNorm_eq_of_sq`), rounded
down to a multiple of `1 / q.den` otherwise. -/
def cvNorm (p : Point2f) : ℚ :=
  let q := p.x * p.x + p.y * p.y
  (natSqrt (q.num.toNat * q.den) : ℚ) / (q.den : ℚ)

/-! ## Integer conversions of C++ -/

/-- Conversion of an integer value to a 32-bit `int` (two's complement wrap). -/
def toInt32 (n : Int) : Int := (n + 2 ^ 31) % 2 ^ 32 - 2 ^ 31

/-- The comparison `size >= m` of a `size_t` with an `int`: the `int` is converted to the
unsigned 64-bit type first. -/
def sizeGeInt (size : Nat) (m : Int) : Bool := decide ((m % 2 ^ 64).toNat ≤ size)

/-- The comparison `size > m` of a `size_t` with an `int`: the `int` is converted to the
unsigned 64-bit type first. -/
def sizeGtInt (size : Nat) (m : Int) : Bool := decide ((m % 2 ^ 64).toNat < size)

/-- Value of a string of decimal digits, most significant digit first (the inverse of
printing a natural number). -/
def decVal : List Char → Nat
  | [] => 0
  | c :: cs => (c.toNat - 48) * 10 ^ cs.length + decVal cs

/-! ## Text streams of C++ -/

/-- The function `std::getline (stream, field, delim)` on the characters a stream has
left: the characters before the first delimiter and the characters after it, or `none`
(the stream goes bad) when nothing is left. -/
def getline (delim : Char) : List Char → Option (List Char × List Char)
  | [] => none
  | c :: cs =>
    some ((c :: cs).takeWhile (fun ch => ch != delim),
      ((c :: cs).dropWhile (fun ch => ch != delim)).tail)

/-- The lines that successive calls of `std::getline (file, line)` return; `cur` holds the
characters of the current line, last one first. -/
def fileLines : List Char → List Char → List (List Char)
  | [], [] => []
  | [], c :: cur => [(c :: cur).reverse]
  | ch :: rest, cur =>
    if ch = '\n' then cur.reverse :: fileLines rest [] else fileLines rest (ch :: cur)

/-- The largest `k`, counting up from the start value, with `10 ^ k ≤ v`. -/
def decExpUp (v : ℚ) : Nat → Nat → Nat
  | 0, k => k
  | fuel + 1, k => if ((10 ^ (k + 1) : Nat) : ℚ) ≤ v then decExpUp v fuel (k + 1) else k

/-- The smallest `k`, counting up from the start value, with `1 ≤ v * 10 ^ k`. -/
def decExpDown (v : ℚ) : Nat → Nat → Nat
  | 0, k => k
  | fuel + 1, k => if v * ((10 ^ k : Nat) : ℚ) < 1 then decExpDown v fuel (k + 1) else k

/-- The decimal exponent of a positive number: the `e` with `10 ^ e ≤ v < 10 ^ (e + 1)`. -/
def decExp (v : ℚ) : Int :=
  if 1 ≤ v then (decExpUp v v.num.natAbs 0 : Int) else -(decExpDown v v.den 1 : Int)

/-- Rounding of a non-negative number to the nearest natural number, ties to even. -/
def roundHalfEven (q : ℚ) : Nat :=
  let f := q.num.toNat / q.den
  let r := q.num.toNat % q.den
  if 2 * r < q.den then f
  else if q.den < 2 * r then f + 1
  else if f % 2 = 0 then f else f + 1

/-- The decimal digits of `n`, padded with zeros on the left to at least `width` digits. -/
def padDigits (width n : Nat) : List Char :=
  List.replicate (width - (Nat.toDigits 10 n).length) '0' ++ Nat.toDigits 10 n

/-- Removal of the trailing zeros of a digit string. -/
def stripZeros (ds : List Char) : List Char :=
  (ds.reverse.dropWhile (fun ch => ch = '0')).reverse

/-- The text that `stream << v` writes for a floating-point value in a stream with the
default format: the conversion `%g` with precision 6, the concrete instance used at
examples.  The value is rounded to six significant digits; with decimal exponent `X` of
the rounded value, fixed notation is used when `-4 ≤ X < 6` and scientific notation
otherwise, and trailing zeros are removed. -/
def putDefault (v : ℚ) : String :=
  if v = 0 then "0"
  else
    let a := |v|
    let sign := if v < 0 then "-" else ""
    let e0 := decExp a
    let m0 := roundHalfEven
      (if e0 ≤ 5 then a * ((10 ^ (5 - e0).toNat : Nat) : ℚ)
       else a / ((10 ^ (e0 - 5).toNat : Nat) : ℚ))
    let m := if m0 = 10 ^ 6 then 10 ^ 5 else m0
    let X := if m0 = 10 ^ 6 then e0 + 1 else e0
    if -4 ≤ X ∧ X < 6 then
      let decimals := (5 - X).toNat
      let frac := stripZeros (padDigits decimals (m % 10 ^ decimals))
      sign ++ String.mk (Nat.toDigits 10 (m / 10 ^ decimals))
        ++ (if frac = [] then "" else "." ++ String.mk frac)
    else
      let frac := stripZeros (padDigits 5 (m % 10 ^ 5))
      sign ++ String.mk (Nat.toDigits 10 (m / 10 ^ 5))
        ++ (if frac = [] then "" else "." ++ String.mk frac)
        ++ "e" ++ (if X < 0 then "-" else "+") ++ String.mk (padDigits 2 X.natAbs)

/-- Whether a character is a decimal digit. -/
def isDigit (ch : Char) : Bool := decide (48 ≤ ch.toNat ∧ ch.toNat ≤ 57)

/-- The exponent part `e±dd` of a decimal number, as a power of ten to multiply with; 1
when there is no well-formed exponent part. -/
def parseExponent : List Char → ℚ
  | ch :: rest =>
    if ch = 'e' ∨ ch = 'E' then
      let negative := rest.head? = some '-'
      let digits := ((if rest.head? = some '-' ∨ rest.head? = some '+' then rest.tail
        else rest).takeWhile isDigit)
      if digits = [] then 1
      else if negative then 1 / ((10 ^ decVal digits : Nat) : ℚ)
      else ((10 ^ decVal digits : Nat) : ℚ)
    else 1
  | [] => 1

/-- The functions `std::stod` and `std::stof` on decimal numbers, the concrete instance
used at examples: leading blanks, an optional sign, digits with an optional fraction, an
optional exponent; `none` (the function throws `std::invalid_argument`) when there is no
digit.  The value is exact: rounding to the floating-point type is not modelled. -/
def stodDecimal (text : String) : Option ℚ :=
  let cs := text.toList.dropWhile (fun ch => ch = ' ')
  let negative := cs.head? = some '-'
  let cs1 := if cs.head? = some '-' ∨ cs.head? = some '+' then cs.tail else cs
  let intDigits := cs1.takeWhile isDigit
  let cs2 := cs1.dropWhile isDigit
  let fracDigits := if cs2.head? = some '.' then cs2.tail.takeWhile isDigit else []
  let cs3 := if cs2.head? = some '.' then cs2.tail.dropWhile isDigit else cs2
  if intDigits = [] ∧ fracDigits = [] then none
  else
    let magnitude := ((decVal intDigits : ℚ)
      + (decVal fracDigits : ℚ) / ((10 ^ fracDigits.length : Nat) : ℚ)) * parseExponent cs3
    some (if negative then -magnitude else magnitude)

/-! ## Detections (EnemyDetector.h) -/

/-- The struct `EnemyDetection`. -/
structure EnemyDetection where
  boundingBox : Rect
  confidence : ℚ
  enemyType : String
  center : Point2f
  timestamp : ℚ
deriving DecidableEq, Repr

/-! ## EnemyDetector -/

/-- The data members of class `EnemyDetector`.  The members `playerCascade` and `hog`
(OpenCV objects) are left out: no function modelled here reads them. -/
structure EnemyDetector where
  isInitialized : Bool
  detectionThreshold : ℚ
  recentDetections : List EnemyDetection
  minDetectionConfidence : ℚ
  maxDetectionsPerFrame : Int
  detectionCooldown : ℚ
deriving DecidableEq, Repr

namespace EnemyDetector

/-- The constructor `EnemyDetector::EnemyDetector`. -/
def new : EnemyDetector :=
  { isInitialized := false,
    detectionThreshold := 1 / 2,
    recentDetections := [],
    minDetectionConfidence := 3 / 10,
    maxDetectionsPerFrame := 10,
    detectionCooldown := 1 / 10 }

/-- The member function `Initialize`. -/
def Initialize (det : EnemyDetector) : EnemyDetector := { det with isInitialized := true }

/-- The member function `Reset`. -/
def Reset (det : EnemyDetector) : EnemyDetector :=
  { det with recentDetections := [], isInitialized := false }

/-- The setter `SetDetectionThreshold`. -/
def SetDetectionThreshold (det : EnemyDetector) (threshold : ℚ) : EnemyDetector :=
  { det with detectionThreshold := max 0 (min 1 threshold) }

/-- The setter `SetMinConfidence`. -/
def SetMinConfidence (det : EnemyDetector) (confidence : ℚ) : EnemyDetector :=
  { det with minDetectionConfidence := max 0 (min 1 confidence) }

/-- The setter `SetMaxDetections`. -/
def SetMaxDetections (det : EnemyDetector) (maxDetections : Int) : EnemyDetector :=
  { det with maxDetectionsPerFrame := max 1 maxDetections }

/-- The value `overlap` computed in the inner loop of `FilterDetections`; `area` is
`cv::Rect::area` and `inter` is the operator `&` of `cv::Rect`. -/
def overlap (area : Rect → Int) (inter : Rect → Rect → Rect)
    (detection existing : EnemyDetection) : ℚ :=
  let intersection := inter detection.boundingBox existing.boundingBox
  ((area intersection : Int) : ℚ) /
    ((area detection.boundingBox + area existing.boundingBox - area intersection : Int) : ℚ)

/-- The inner loop of `FilterDetections`: the value of `isDuplicate` after the loop over
the detections kept so far. -/
def isDuplicate (area : Rect → Int) (inter : Rect → Rect → Rect) (detection : EnemyDetection) :
    List EnemyDetection → Bool
  | [] => false
  | existing :: rest =>
    if overlap area inter detection existing > 1 / 2 then true
    else isDuplicate area inter detection rest

/-- The body of the outer loop of `FilterDetections`, for one detection. -/
def filterStep (area : Rect → Int) (inter : Rect → Rect → Rect) (det : EnemyDetector)
    (filteredDetections : List EnemyDetection) (detection : EnemyDetection) :
    List EnemyDetection :=
  if detection.confidence < det.minDetectionConfidence then filteredDetections
  else if area detection.boundingBox < 1000 ∨ area detection.boundingBox > 50000 then
    filteredDetections
  else if isDuplicate area inter detection filteredDetections then filteredDetections
  else filteredDetections ++ [detection]

/-- The outer loop of `FilterDetections`: the detections that survive the confidence
floor, the area check and the de-duplication. -/
def filterLoop (area : Rect → Int) (inter : Rect → Rect → Rect) (det : EnemyDetector)
    (detections : List EnemyDetection) : List EnemyDetection :=
  detections.foldl (filterStep area inter det) []

/-- The member function `FilterDetections`; `sortFn` is `std::sort` with the comparator
`a.confidence > b.confidence`. -/
def FilterDetections (area : Rect → Int) (inter : Rect → Rect → Rect)
    (sortFn : List EnemyDetection → List EnemyDetection) (det : EnemyDetector)
    (detections : List EnemyDetection) : List EnemyDetection :=
  let filteredDetections := filterLoop area inter det detections
  if sizeGtInt filteredDetections.length det.maxDetectionsPerFrame then
    (sortFn filteredDetections).take (det.maxDetectionsPerFrame % 2 ^ 64).toNat
  else filteredDetections

/-- The detectors reached from the constructor through the member functions that write
data members.  The argument of `SetMaxDetections` is a C++ `int`; `DetectEnemies` writes
`recentDetections` only. -/
inductive Reachable : EnemyDetector → Prop
  | construct : Reachable new
  | ready (det : EnemyDetector) : Reachable det → Reachable (Initialize det)
  | reset (det : EnemyDetector) : Reachable det → Reachable (Reset det)
  | setDetectionThreshold (det : EnemyDetector) (v : ℚ) :
      Reachable det → Reachable (SetDetectionThreshold det v)
  | setMinConfidence (det : EnemyDetector) (v : ℚ) :
      Reachable det → Reachable (SetMinConfidence det v)
  | setMaxDetections (det : EnemyDetector) (m : Int) :
      -(2 ^ 31) ≤ m → m < 2 ^ 31 → Reachable det → Reachable (SetMaxDetections det m)
  | detectEnemies (det : EnemyDetector) (detections : List EnemyDetection) :
      Reachable det → Reachable { det with recentDetections := detections }

end EnemyDetector

/-! ## CombatAnalyzer -/

/-- The struct `CombatState`. -/
structure CombatState where
  isActive : Bool
  startTime : ℚ
  lastEnemySeen : ℚ
  enemyCount : Int
  combatIntensity : ℚ
  activeEnemies : List EnemyDetection
deriving DecidableEq, Repr

/-- The struct `CombatClip`. -/
structure CombatClip where
  clipId : String
  startTime : ℚ
  endTime : ℚ
  triggerReason : String
  enemies : List EnemyDetection
  playerDied : Bool
  enemyKilled : Bool
  combatIntensity : ℚ
  filename : String
deriving DecidableEq, Repr

/-- The data members of class `CombatAnalyzer`.  The member `enemyDetector` is left out:
the list it detects in a frame is an argument of `AnalyzeFrame`. -/
structure CombatAnalyzer where
  currentCombatState : CombatState
  recordedClips : List CombatClip
  isRecording : Bool
  combatThreshold : ℚ
  clipDuration : ℚ
  enemyDetectionCooldown : ℚ
  combatTimeout : ℚ
  minEnemiesForCombat : Int
deriving DecidableEq, Repr

namespace CombatAnalyzer

/-- The member function `ResetCombatState`. -/
def ResetCombatState (a : CombatAnalyzer) : CombatAnalyzer :=
  { a with currentCombatState :=
      { isActive := false, startTime := 0, lastEnemySeen := 0, enemyCount := 0,
        combatIntensity := 0, activeEnemies := [] } }

/-- The constructor `CombatAnalyzer::CombatAnalyzer`. -/
def new : CombatAnalyzer :=
  ResetCombatState
    { currentCombatState :=
        { isActive := false, startTime := 0, lastEnemySeen := 0, enemyCount := 0,
          combatIntensity := 0, activeEnemies := [] },
      recordedClips := [],
      isRecording := false,
      combatThreshold := 1 / 2,
      clipDuration := 10,
      enemyDetectionCooldown := 1 / 10,
      combatTimeout := 3,
      minEnemiesForCombat := 1 }

/-- The setter `SetCombatThreshold`. -/
def SetCombatThreshold (a : CombatAnalyzer) (threshold : ℚ) : CombatAnalyzer :=
  { a with combatThreshold := max 0 (min 1 threshold) }

/-- The setter `SetClipDuration`. -/
def SetClipDuration (a : CombatAnalyzer) (duration : ℚ) : CombatAnalyzer :=
  { a with clipDuration := max 1 duration }

/-- The setter `SetEnemyDetectionCooldown`. -/
def SetEnemyDetectionCooldown (a : CombatAnalyzer) (cooldown : ℚ) : CombatAnalyzer :=
  { a with enemyDetectionCooldown := max 0 cooldown }

/-- The setter `SetCombatTimeout`. -/
def SetCombatTimeout (a : CombatAnalyzer) (timeout : ℚ) : CombatAnalyzer :=
  { a with combatTimeout := max (1 / 2) timeout }

/-- The setter `SetMinEnemiesForCombat`. -/
def SetMinEnemiesForCombat (a : CombatAnalyzer) (minEnemies : Int) : CombatAnalyzer :=
  { a with minEnemiesForCombat := max 1 minEnemies }

/-- One iteration of the loop of `CalculateCombatIntensity`; the accumulator is the pair
`(totalConfidence, proximityFactor)`. -/
def intensityStep (nrm : Point2f → ℚ) (acc : ℚ × ℚ) (enemy : EnemyDetection) : ℚ × ℚ :=
  let screenCenter : Point2f := ⟨640, 360⟩
  let distance := nrm (enemy.center - screenCenter)
  let normalizedDistance := max 0 (1 - distance / 500)
  (acc.1 + enemy.confidence, acc.2 + normalizedDistance)

/-- The member function `CalculateCombatIntensity`. -/
def CalculateCombatIntensity (nrm : Point2f → ℚ) (enemies : List EnemyDetection) : ℚ :=
  if enemies.isEmpty then 0
  else
    let acc := enemies.foldl (intensityStep nrm) (0, 0)
    let avgConfidence := acc.1 / (enemies.length : ℚ)
    let avgProximity := acc.2 / (enemies.length : ℚ)
    avgConfidence * (7 / 10) + avgProximity * (3 / 10)

/-- The member function `AnalyzeFrame`.  `frameEmpty` is `frame.empty()` and `enemies` is
the value of `enemyDetector.DetectEnemies(frame)`.  The function returns
`currentCombatState` of the resulting analyzer. -/
def AnalyzeFrame (nrm : Point2f → ℚ) (a : CombatAnalyzer) (frameEmpty : Bool)
    (enemies : List EnemyDetection) (timestamp : ℚ) : CombatAnalyzer :=
  if frameEmpty then a
  else if !enemies.isEmpty then
    let st : CombatState :=
      { a.currentCombatState with
        lastEnemySeen := timestamp,
        enemyCount := toInt32 enemies.length,
        activeEnemies := enemies,
        combatIntensity := CalculateCombatIntensity nrm enemies }
    if !st.isActive then
      if sizeGeInt enemies.length a.minEnemiesForCombat
          && decide (st.combatIntensity ≥ a.combatThreshold) then
        { a with currentCombatState := { st with isActive := true, startTime := timestamp } }
      else { a with currentCombatState := st }
    else { a with currentCombatState := st }
  else
    let st : CombatState :=
      { a.currentCombatState with
        enemyCount := 0,
        activeEnemies := [],
        combatIntensity := 0 }
    if st.isActive then
      let timeSinceLastEnemy := timestamp - st.lastEnemySeen
      if timeSinceLastEnemy > a.combatTimeout then
        { a with currentCombatState := { st with isActive := false } }
      else { a with currentCombatState := st }
    else { a with currentCombatState := st }

/-- The member function `ShouldStartRecording`. -/
def ShouldStartRecording (a : CombatAnalyzer) (state : CombatState) : Bool :=
  state.isActive && !a.isRecording && decide (state.combatIntensity ≥ a.combatThreshold)

/-- The member function `ShouldStopRecording`. -/
def ShouldStopRecording (a : CombatAnalyzer) (state : CombatState) : Bool :=
  if !state.isActive && a.isRecording then true
  else if a.isRecording
      && decide (state.lastEnemySeen + a.combatTimeout < state.startTime + a.clipDuration) then
    true
  else false

/-- The member function `DetectPlayerDeath` (the frame argument is unused). -/
def DetectPlayerDeath (a : CombatAnalyzer) : Bool :=
  decide (a.currentCombatState.combatIntensity > 8 / 10)
    && decide (a.currentCombatState.enemyCount > 0)

/-- The member function `DetectEnemyKill` (the frame argument is unused). -/
def DetectEnemyKill (a : CombatAnalyzer) : Bool :=
  decide (a.currentCombatState.combatIntensity > 6 / 10)
    && decide (a.currentCombatState.enemyCount = 0)

/-- The member function `StartRecording`.  `clipId` is the value of
`GenerateClipId(timestamp)`, which reads the system clock.  Returns the clip and the new
analyzer. -/
def StartRecording (a : CombatAnalyzer) (clipId : String) (reason : String) (timestamp : ℚ) :
    CombatClip × CombatAnalyzer :=
  ({ clipId := clipId,
     startTime := timestamp,
     endTime := timestamp + a.clipDuration,
     triggerReason := reason,
     enemies := a.currentCombatState.activeEnemies,
     playerDied := false,
     enemyKilled := false,
     combatIntensity := a.currentCombatState.combatIntensity,
     filename := clipId ++ ".mp4" },
   { a with isRecording := true })

/-- The member function `StopRecording`.  Returns the sealed clip and the new analyzer;
writing the metadata file does not touch the object. -/
def StopRecording (a : CombatAnalyzer) (clip : CombatClip) (timestamp : ℚ) :
    CombatClip × CombatAnalyzer :=
  let clip1 : CombatClip :=
    { clip with
      endTime := timestamp,
      enemies := a.currentCombatState.activeEnemies,
      combatIntensity := a.currentCombatState.combatIntensity,
      playerDied := DetectPlayerDeath a,
      enemyKilled := DetectEnemyKill a }
  (clip1, { a with recordedClips := a.recordedClips ++ [clip1], isRecording := false })

/-- The member function `GetRecordedClips`. -/
def GetRecordedClips (a : CombatAnalyzer) : List CombatClip := a.recordedClips

/-- The analyzers reached from the constructor through the public member functions.  The
argument of `SetMinEnemiesForCombat` is a C++ `int`. -/
inductive Reachable (nrm : Point2f → ℚ) : CombatAnalyzer → Prop
  | construct : Reachable nrm new
  | setCombatThreshold (a : CombatAnalyzer) (v : ℚ) :
      Reachable nrm a → Reachable nrm (SetCombatThreshold a v)
  | setClipDuration (a : CombatAnalyzer) (v : ℚ) :
      Reachable nrm a → Reachable nrm (SetClipDuration a v)
  | setEnemyDetectionCooldown (a : CombatAnalyzer) (v : ℚ) :
      Reachable nrm a → Reachable nrm (SetEnemyDetectionCooldown a v)
  | setCombatTimeout (a : CombatAnalyzer) (v : ℚ) :
      Reachable nrm a → Reachable nrm (SetCombatTimeout a v)
  | setMinEnemiesForCombat (a : CombatAnalyzer) (m : Int) :
      -(2 ^ 31) ≤ m → m < 2 ^ 31 → Reachable nrm a → Reachable nrm (SetMinEnemiesForCombat a m)
  | resetCombatState (a : CombatAnalyzer) :
      Reachable nrm a → Reachable nrm (ResetCombatState a)
  | analyzeFrame (a : CombatAnalyzer) (frameEmpty : Bool) (enemies : List EnemyDetection)
      (timestamp : ℚ) :
      Reachable nrm a → Reachable nrm (AnalyzeFrame nrm a frameEmpty enemies timestamp)
  | startRecording (a : CombatAnalyzer) (clipId reason : String) (timestamp : ℚ) :
      Reachable nrm a → Reachable nrm (StartRecording a clipId reason timestamp).2
  | stopRecording (a : CombatAnalyzer) (clip : CombatClip) (timestamp : ℚ) :
      Reachable nrm a → Reachable nrm (StopRecording a clip timestamp).2

/-- The analyzers in operation: reached from `ResetCombatState` through `AnalyzeFrame`
calls, with setter and recording calls in between.  The list detected in a frame is the
result of `FilterDetections`, whose size is bounded by the `int`
`maxDetectionsPerFrame`; hence the bound on its length.  The argument of
`SetMinEnemiesForCombat` is a C++ `int`. -/
inductive Operating (nrm : Point2f → ℚ) : CombatAnalyzer → Prop
  | resetCombatState (a : CombatAnalyzer) : Operating nrm (ResetCombatState a)
  | analyzeFrame (a : CombatAnalyzer) (frameEmpty : Bool) (enemies : List EnemyDetection)
      (timestamp : ℚ) :
      (enemies.length : Int) < 2 ^ 31 → Operating nrm a →
      Operating nrm (AnalyzeFrame nrm a frameEmpty enemies timestamp)
  | setCombatThreshold (a : CombatAnalyzer) (v : ℚ) :
      Operating nrm a → Operating nrm (SetCombatThreshold a v)
  | setClipDuration (a : CombatAnalyzer) (v : ℚ) :
      Operating nrm a → Operating nrm (SetClipDuration a v)
  | setEnemyDetectionCooldown (a : CombatAnalyzer) (v : ℚ) :
      Operating nrm a → Operating nrm (SetEnemyDetectionCooldown a v)
  | setCombatTimeout (a : CombatAnalyzer) (v : ℚ) :
      Operating nrm a → Operating nrm (SetCombatTimeout a v)
  | setMinEnemiesForCombat (a : CombatAnalyzer) (m : Int) :
      -(2 ^ 31) ≤ m → m < 2 ^ 31 → Operating nrm a → Operating nrm (SetMinEnemiesForCombat a m)
  | startRecording (a : CombatAnalyzer) (clipId reason : String) (timestamp : ℚ) :
      Operating nrm a → Operating nrm (StartRecording a clipId reason timestamp).2
  | stopRecording (a : CombatAnalyzer) (clip : CombatClip) (timestamp : ℚ) :
      Operating nrm a → Operating nrm (StopRecording a clip timestamp).2

end CombatAnalyzer

/-! ## PositionTracker -/

/-- The struct `EnemyPosition`. -/
structure EnemyPosition where
  position : Point2f
  timestamp : ℚ
  confidence : ℚ
  enemyId : String
  isVisible : Bool
deriving DecidableEq, Repr

/-- The struct `EnemyTrajectory`. -/
structure EnemyTrajectory where
  enemyId : String
  positions : List EnemyPosition
  firstSeen : ℚ
  lastSeen : ℚ
  isActive : Bool
  predictedNextPosition : Point2f
  movementSpeed : ℚ
  movementPattern : String
deriving DecidableEq, Repr

/-- The struct `DeathAnalysis`. -/
structure DeathAnalysis where
  deathTime : ℚ
  deathPosition : Point2f
  nearbyEnemies : List EnemyPosition
  deathCause : String
  enemyDistance : ℚ
  enemyWeapon : String
  enemyWasVisible : Bool
deriving DecidableEq, Repr

/-- The assignment `m[k] = v` on a `std::map<std::string, V>` held as a key-ordered
association list: an existing entry is overwritten, a new one is put at its place in
key order. -/
def mapInsert {V : Type} (k : String) (v : V) : List (String × V) → List (String × V)
  | [] => [(k, v)]
  | (k1, v1) :: rest =>
    if k < k1 then (k, v) :: (k1, v1) :: rest
    else if k1 < k then (k1, v1) :: mapInsert k v rest
    else (k, v) :: rest

/-- The data members of class `PositionTracker`.  A pointer into `enemyTrajectories` is
the index of the entry in iteration order.  The counter `nextEnemyId` is an unbounded
integer: overflow of the C++ `int` is undefined behaviour and is not modelled. -/
structure PositionTracker where
  enemyTrajectories : List (String × EnemyTrajectory)
  deathAnalyses : List DeathAnalysis
  nextEnemyId : Int
  maxTrackingDistance : ℚ
  trajectoryTimeout : ℚ
  minPositionsForTrajectory : Int
  deathAnalysisRadius : ℚ
  visibilityThreshold : ℚ
deriving DecidableEq, Repr

namespace PositionTracker

/-- The constructor `PositionTracker::PositionTracker`. -/
def new : PositionTracker :=
  { enemyTrajectories := [],
    deathAnalyses := [],
    nextEnemyId := 1,
    maxTrackingDistance := 100,
    trajectoryTimeout := 5,
    minPositionsForTrajectory := 3,
    deathAnalysisRadius := 200,
    visibilityThreshold := 1 / 2 }

/-- The member function `Reset`. -/
def Reset (s : PositionTracker) : PositionTracker :=
  { s with enemyTrajectories := [], deathAnalyses := [], nextEnemyId := 1 }

/-- The setter `SetTrackingDistance`. -/
def SetTrackingDistance (s : PositionTracker) (distance : ℚ) : PositionTracker :=
  { s with maxTrackingDistance := max 10 distance }

/-- The setter `SetTrajectoryTimeout`. -/
def SetTrajectoryTimeout (s : PositionTracker) (timeout : ℚ) : PositionTracker :=
  { s with trajectoryTimeout := max (1 / 2) timeout }

/-- The setter `SetMinPositionsForTrajectory`. -/
def SetMinPositionsForTrajectory (s : PositionTracker) (minPositions : Int) : PositionTracker :=
  { s with minPositionsForTrajectory := max 1 minPositions }

/-- The member function `CleanupOldTrajectories`. -/
def CleanupOldTrajectories (s : PositionTracker) (currentTimestamp : ℚ) : PositionTracker :=
  { s with enemyTrajectories :=
      s.enemyTrajectories.map (fun kv =>
        if currentTimestamp - kv.2.lastSeen > s.trajectoryTimeout then
          (kv.1, { kv.2 with isActive := false })
        else kv) }

/-- The inner loop of `FindEnemyTrajectory` over the positions of the trajectory at
index `i`; `best` is the pair `(closestTrajectory, closestDistance)`. -/
def scanPositions (nrm : Point2f → ℚ) (position : Point2f) (i : Nat)
    (ps : List EnemyPosition) (best : Option Nat × ℚ) : Option Nat × ℚ :=
  ps.foldl (fun b pos =>
    let distance := nrm (position - pos.position)
    if distance < b.2 then (some i, distance) else b) best

/-- The outer loop of `FindEnemyTrajectory`, from the entry of index `i` on.  Returns the
entries as the loop leaves them and the final `(closestTrajectory, closestDistance)`. -/
def findLoop (nrm : Point2f → ℚ) (trajectoryTimeout : ℚ) (position : Point2f) (timestamp : ℚ) :
    Nat → List (String × EnemyTrajectory) → Option Nat × ℚ →
      List (String × EnemyTrajectory) × (Option Nat × ℚ)
  | _, [], best => ([], best)
  | i, (k, trajectory) :: rest, best =>
    if !trajectory.isActive then
      let r := findLoop nrm trajectoryTimeout position timestamp (i + 1) rest best
      ((k, trajectory) :: r.1, r.2)
    else if timestamp - trajectory.lastSeen > trajectoryTimeout then
      let r := findLoop nrm trajectoryTimeout position timestamp (i + 1) rest best
      ((k, { trajectory with isActive := false }) :: r.1, r.2)
    else
      let r := findLoop nrm trajectoryTimeout position timestamp (i + 1) rest
        (scanPositions nrm position i trajectory.positions best)
      ((k, trajectory) :: r.1, r.2)

/-- The member function `FindEnemyTrajectory`: the new tracker (timed-out trajectories met
by the loop are deactivated) and the trajectory found, as an index, or `none` for
`nullptr`. -/
def FindEnemyTrajectory (nrm : Point2f → ℚ) (s : PositionTracker) (position : Point2f)
    (timestamp : ℚ) : PositionTracker × Option Nat :=
  let r := findLoop nrm s.trajectoryTimeout position timestamp 0 s.enemyTrajectories
    (none, s.maxTrackingDistance)
  ({ s with enemyTrajectories := r.1 }, r.2.1)

/-- The member function `AssignEnemyId` (its arguments are unused): the id and the new
tracker. -/
def AssignEnemyId (s : PositionTracker) : String × PositionTracker :=
  ("enemy_" ++ toString s.nextEnemyId, { s with nextEnemyId := s.nextEnemyId + 1 })

/-- The member function `UpdateTrajectory`. -/
def UpdateTrajectory (trajectory : EnemyTrajectory) (position : EnemyPosition) :
    EnemyTrajectory :=
  let cutoffTime := position.timestamp - 10
  { trajectory with
    positions := (trajectory.positions ++ [position]).filter
      (fun pos => !decide (pos.timestamp < cutoffTime)),
    lastSeen := position.timestamp }

/-- The loop of `CalculateMovementSpeed` over consecutive positions; the accumulator is
`(totalDistance, totalTime)`. -/
def speedLoop (nrm : Point2f → ℚ) : List EnemyPosition → ℚ × ℚ → ℚ × ℚ
  | prev :: curr :: rest, acc =>
    let distance := nrm (curr.position - prev.position)
    let timeDiff := curr.timestamp - prev.timestamp
    speedLoop nrm (curr :: rest)
      (if timeDiff > 0 then (acc.1 + distance, acc.2 + timeDiff) else acc)
  | _, acc => acc

/-- The member function `CalculateMovementSpeed`. -/
def CalculateMovementSpeed (nrm : Point2f → ℚ) (trajectory : EnemyTrajectory) :
    EnemyTrajectory :=
  if trajectory.positions.length < 2 then { trajectory with movementSpeed := 0 }
  else
    let acc := speedLoop nrm trajectory.positions (0, 0)
    { trajectory with movementSpeed := if acc.2 > 0 then acc.1 / acc.2 else 0 }

/-- The member function `PredictNextPosition`. -/
def PredictNextPosition (trajectory : EnemyTrajectory) : EnemyTrajectory :=
  match trajectory.positions.reverse with
  | [] => { trajectory with predictedNextPosition := ⟨0, 0⟩ }
  | [last] => { trajectory with predictedNextPosition := last.position }
  | lastPos :: secondLastPos :: _ =>
    let velocity := lastPos.position - secondLastPos.position
    let timeDiff := lastPos.timestamp - secondLastPos.timestamp
    if timeDiff > 0 then
      let velocity1 := velocity.scale (1 / timeDiff)
      { trajectory with predictedNextPosition := lastPos.position + velocity1.scale (1 / 10) }
    else { trajectory with predictedNextPosition := lastPos.position }

/-- The member function `AnalyzeMovementPattern`. -/
def AnalyzeMovementPattern (nrm : Point2f → ℚ) (s : PositionTracker)
    (trajectory : EnemyTrajectory) : String :=
  if !sizeGeInt trajectory.positions.length s.minPositionsForTrajectory then
    "insufficient_data"
  else
    let sumPosition := trajectory.positions.foldl (fun acc pos => acc + pos.position)
      (⟨0, 0⟩ : Point2f)
    let avgPosition := sumPosition.scale (1 / (trajectory.positions.length : ℚ))
    let sumVariance := trajectory.positions.foldl
      (fun acc pos => acc + nrm (pos.position - avgPosition)) (0 : ℚ)
    let totalVariance := sumVariance / (trajectory.positions.length : ℚ)
    if trajectory.movementSpeed < 5 then "stationary"
    else if totalVariance < 20 then "moving_straight"
    else if totalVariance > 50 then "erratic"
    else "moving"

/-- The body of the first loop of `UpdateEnemyPositions`, for one detection. -/
def processDetection (nrm : Point2f → ℚ) (timestamp : ℚ) (s : PositionTracker)
    (detection : EnemyDetection) : PositionTracker :=
  let r := FindEnemyTrajectory nrm s detection.center timestamp
  match r.2 with
  | some i =>
    { r.1 with enemyTrajectories :=
        r.1.enemyTrajectories.modify (fun kv =>
          (kv.1, UpdateTrajectory kv.2
            { position := detection.center, timestamp := timestamp,
              confidence := detection.confidence, enemyId := kv.2.enemyId,
              isVisible := true })) i }
  | none =>
    let a := AssignEnemyId r.1
    let position : EnemyPosition :=
      { position := detection.center, timestamp := timestamp,
        confidence := detection.confidence, enemyId := a.1, isVisible := true }
    let newTrajectory : EnemyTrajectory :=
      { enemyId := position.enemyId,
        positions := [position],
        firstSeen := timestamp,
        lastSeen := timestamp,
        isActive := true,
        predictedNextPosition := ⟨0, 0⟩,
        movementSpeed := 0,
        movementPattern := "stationary" }
    { a.2 with enemyTrajectories := mapInsert position.enemyId newTrajectory a.2.enemyTrajectories }

/-- The body of the second loop of `UpdateEnemyPositions`, for one trajectory. -/
def refreshTrajectory (nrm : Point2f → ℚ) (s : PositionTracker) (trajectory : EnemyTrajectory) :
    EnemyTrajectory :=
  if trajectory.isActive
      && sizeGeInt trajectory.positions.length s.minPositionsForTrajectory then
    let t1 := CalculateMovementSpeed nrm trajectory
    let t2 := { t1 with movementPattern := AnalyzeMovementPattern nrm s t1 }
    PredictNextPosition t2
  else trajectory

/-- The member function `UpdateEnemyPositions`. -/
def UpdateEnemyPositions (nrm : Point2f → ℚ) (s : PositionTracker)
    (detections : List EnemyDetection) (timestamp : ℚ) : PositionTracker :=
  let s1 := CleanupOldTrajectories s timestamp
  let s2 := detections.foldl (processDetection nrm timestamp) s1
  { s2 with enemyTrajectories :=
      s2.enemyTrajectories.map (fun kv => (kv.1, refreshTrajectory nrm s2 kv.2)) }

/-- The member function `GetAllTrajectories`. -/
def GetAllTrajectories (s : PositionTracker) : List EnemyTrajectory :=
  s.enemyTrajectories.map (fun kv => kv.2)

/-- The member function `GetActiveTrajectories`. -/
def GetActiveTrajectories (s : PositionTracker) : List EnemyTrajectory :=
  (s.enemyTrajectories.map (fun kv => kv.2)).filter (fun trajectory => trajectory.isActive)

/-- The setter `SetDeathAnalysisRadius`. -/
def SetDeathAnalysisRadius (s : PositionTracker) (radius : ℚ) : PositionTracker :=
  { s with deathAnalysisRadius := max 10 radius }

/-- The setter `SetVisibilityThreshold`. -/
def SetVisibilityThreshold (s : PositionTracker) (threshold : ℚ) : PositionTracker :=
  { s with visibilityThreshold := max 0 (min 1 threshold) }

/-- The member function `GetEnemiesNearPosition`: the two nested loops, `push_back` is
appending at the end. -/
def GetEnemiesNearPosition (nrm : Point2f → ℚ) (s : PositionTracker) (position : Point2f)
    (radius : ℚ) (timestamp : ℚ) : List EnemyPosition :=
  s.enemyTrajectories.foldl (fun nearbyEnemies kv =>
    kv.2.positions.foldl (fun nearbyEnemies pos =>
      if |pos.timestamp - timestamp| < 1 then
        let distance := nrm (position - pos.position)
        if distance ≤ radius then nearbyEnemies ++ [pos] else nearbyEnemies
      else nearbyEnemies) nearbyEnemies) []

/-- The constant `std::numeric_limits<double>::max()`, the largest finite `double`. -/
def dblMax : ℚ := 2 ^ 1024 - 2 ^ 971

/-- The loop of `AnalyzeDeath` over the nearby positions; the accumulator is the pair
`(minDistance, closestEnemy)`. -/
def closestLoop (nrm : Point2f → ℚ) (deathPosition : Point2f) (nearbyEnemies : List EnemyPosition)
    (start : ℚ × EnemyPosition) : ℚ × EnemyPosition :=
  nearbyEnemies.foldl (fun b enemy =>
    let distance := nrm (deathPosition - enemy.position)
    if distance < b.1 then (distance, enemy) else b) start

/-- The member function `AnalyzeDeath`.  The local variable `closestEnemy` is declared
without an initial value; `uninit` is what it holds before the loop. -/
def AnalyzeDeath (nrm : Point2f → ℚ) (uninit : EnemyPosition) (s : PositionTracker)
    (deathPosition : Point2f) (timestamp : ℚ) : PositionTracker :=
  let analysis0 : DeathAnalysis :=
    { deathTime := timestamp,
      deathPosition := deathPosition,
      nearbyEnemies :=
        GetEnemiesNearPosition nrm s deathPosition s.deathAnalysisRadius timestamp,
      deathCause := "unknown",
      enemyDistance := -1,
      enemyWeapon := "unknown",
      enemyWasVisible := false }
  let analysis : DeathAnalysis :=
    if !analysis0.nearbyEnemies.isEmpty then
      let best := closestLoop nrm deathPosition analysis0.nearbyEnemies (dblMax, uninit)
      let analysis1 : DeathAnalysis :=
        { analysis0 with enemyDistance := best.1, enemyWasVisible := best.2.isVisible }
      if analysis1.enemyWasVisible && decide (analysis1.enemyDistance < 100) then
        { analysis1 with deathCause := "enemy_shot", enemyWeapon := "unknown" }
      else if analysis1.enemyDistance < 200 then
        { analysis1 with deathCause := "enemy_shot_unseen" }
      else analysis1
    else analysis0
  { s with deathAnalyses := s.deathAnalyses ++ [analysis] }

/-- The member function `GetDeathAnalyses`. -/
def GetDeathAnalyses (s : PositionTracker) : List DeathAnalysis := s.deathAnalyses

/-- The loop of `FindDeathAnalysis`, from the record of index `i` on. -/
def findDeathLoop (timestamp : ℚ) : Nat → List DeathAnalysis → Option Nat
  | _, [] => none
  | i, analysis :: rest =>
    if |analysis.deathTime - timestamp| < 1 then some i
    else findDeathLoop timestamp (i + 1) rest

/-- The member function `FindDeathAnalysis`: the record found, as an index into
`deathAnalyses`, or `none` for `nullptr`. -/
def FindDeathAnalysis (s : PositionTracker) (timestamp : ℚ) : Option Nat :=
  findDeathLoop timestamp 0 s.deathAnalyses

/-- One row of the file written by `SaveTrajectoryData`; `put` is the text that
`file << v` writes for a floating-point value. -/
def trajectoryRow (put : ℚ → String) (enemyId : String) (pos : EnemyPosition) : String :=
  enemyId ++ "," ++ put pos.timestamp ++ "," ++ put pos.position.x ++ ","
    ++ put pos.position.y ++ "," ++ put pos.confidence ++ ","
    ++ (if pos.isVisible then "true" else "false") ++ "\n"

/-- The member function `SaveTrajectoryData`: the contents of the file it writes, when
the file can be opened. -/
def SaveTrajectoryData (put : ℚ → String) (s : PositionTracker) : String :=
  "enemy_id,timestamp,x,y,confidence,is_visible\n" ++
    String.join (s.enemyTrajectories.flatMap
      (fun kv => kv.2.positions.map (trajectoryRow put kv.1)))

/-- The six fields that `LoadTrajectoryData` reads from a line, or `none` when one of the
`std::getline` calls fails. -/
def rowFields (line : List Char) :
    Option (String × String × String × String × String × String) :=
  match getline ',' line with
  | none => none
  | some (enemyId, r1) =>
    match getline ',' r1 with
    | none => none
    | some (timestampStr, r2) =>
      match getline ',' r2 with
      | none => none
      | some (xStr, r3) =>
        match getline ',' r3 with
        | none => none
        | some (yStr, r4) =>
          match getline ',' r4 with
          | none => none
          | some (confidenceStr, r5) =>
            match getline '\n' r5 with
            | none => none
            | some (visibleStr, _) =>
              some (String.mk enemyId, String.mk timestampStr, String.mk xStr,
                String.mk yStr, String.mk confidenceStr, String.mk visibleStr)

/-- The end of the body of the loop of `LoadTrajectoryData`: the position read from a line
is stored.  A trajectory is created under its id if the map has none, and the position is
appended to the entry `operator[]` finds; `uninit` is what the member `movementSpeed` of
the local variable `trajectory`, declared without an initial value, holds. -/
def storePosition (uninit : ℚ) (s : PositionTracker) (pos : EnemyPosition) : PositionTracker :=
  let trajectory : EnemyTrajectory :=
    { enemyId := pos.enemyId, positions := [], firstSeen := pos.timestamp,
      lastSeen := pos.timestamp, isActive := false, predictedNextPosition := ⟨0, 0⟩,
      movementSpeed := uninit, movementPattern := "" }
  let s1 : PositionTracker :=
    if s.enemyTrajectories.all (fun kv => kv.1 != pos.enemyId) then
      { s with enemyTrajectories := mapInsert pos.enemyId trajectory s.enemyTrajectories }
    else s
  { s1 with enemyTrajectories :=
      s1.enemyTrajectories.map (fun kv =>
        if kv.1 = pos.enemyId then (kv.1, { kv.2 with positions := kv.2.positions ++ [pos] })
        else kv) }

/-- The body of the loop of `LoadTrajectoryData`, for one line; `stod` and `stof` are the
library functions, `none` when they throw (the exception leaves `LoadTrajectoryData`). -/
def loadRow (stod stof : String → Option ℚ) (uninit : ℚ) (s : PositionTracker)
    (line : List Char) : Option PositionTracker :=
  match rowFields line with
  | none => some s
  | some (enemyId, timestampStr, xStr, yStr, confidenceStr, visibleStr) =>
    match stod timestampStr, stof xStr, stof yStr, stod confidenceStr with
    | some timestamp, some x, some y, some confidence =>
      some (storePosition uninit s
        { position := ⟨x, y⟩, timestamp := timestamp, confidence := confidence,
          enemyId := enemyId, isVisible := decide (visibleStr = "true") })
    | _, _, _, _ => none

/-- The loop of `LoadTrajectoryData` over the lines that follow the header line. -/
def loadLoop (stod stof : String → Option ℚ) (uninit : ℚ) :
    PositionTracker → List (List Char) → Option PositionTracker
  | s, [] => some s
  | s, line :: rest =>
    match loadRow stod stof uninit s line with
    | none => none
    | some s1 => loadLoop stod stof uninit s1 rest

/-- The member function `LoadTrajectoryData` on the contents of the file, when the file
can be opened: the first line is skipped, every other line is parsed. -/
def LoadTrajectoryData (stod stof : String → Option ℚ) (uninit : ℚ) (s : PositionTracker)
    (contents : String) : Option PositionTracker :=
  loadLoop stod stof uninit s ((fileLines contents.toList []).drop 1)

/-- The tracker states reached from `Reset` by `UpdateEnemyPositions` calls. -/
inductive Reachable (nrm : Point2f → ℚ) : PositionTracker → Prop
  | reset (s : PositionTracker) : Reachable nrm (Reset s)
  | update (s : PositionTracker) (detections : List EnemyDetection) (timestamp : ℚ) :
      Reachable nrm s → Reachable nrm (UpdateEnemyPositions nrm s detections timestamp)

/-- The trackers of a run: reached from the constructor through the setters, `Reset`,
`UpdateEnemyPositions` and `AnalyzeDeath`.  The argument of
`SetMinPositionsForTrajectory` is a C++ `int`.  The function `LoadTrajectoryData` is not
part of a run. -/
inductive Run (nrm : Point2f → ℚ) : PositionTracker → Prop
  | construct : Run nrm new
  | setTrackingDistance (s : PositionTracker) (v : ℚ) :
      Run nrm s → Run nrm (SetTrackingDistance s v)
  | setTrajectoryTimeout (s : PositionTracker) (v : ℚ) :
      Run nrm s → Run nrm (SetTrajectoryTimeout s v)
  | setMinPositionsForTrajectory (s : PositionTracker) (m : Int) :
      -(2 ^ 31) ≤ m → m < 2 ^ 31 → Run nrm s → Run nrm (SetMinPositionsForTrajectory s m)
  | setDeathAnalysisRadius (s : PositionTracker) (v : ℚ) :
      Run nrm s → Run nrm (SetDeathAnalysisRadius s v)
  | setVisibilityThreshold (s : PositionTracker) (v : ℚ) :
      Run nrm s → Run nrm (SetVisibilityThreshold s v)
  | reset (s : PositionTracker) : Run nrm s → Run nrm (Reset s)
  | update (s : PositionTracker) (detections : List EnemyDetection) (timestamp : ℚ) :
      Run nrm s → Run nrm (UpdateEnemyPositions nrm s detections timestamp)
  | analyzeDeath (s : PositionTracker) (uninit : EnemyPosition) (deathPosition : Point2f)
      (timestamp : ℚ) :
      Run nrm s → Run nrm (AnalyzeDeath nrm uninit s deathPosition timestamp)

/-! ### Auxiliary definitions for the statements about the tracker -/

/-- One comparison of `FindEnemyTrajectory`: the candidate `c = (index, distance)` replaces
the current best `b` when its distance is strictly smaller. -/
def pick (b : Option Nat × ℚ) (c : Nat × ℚ) : Option Nat × ℚ :=
  if c.2 < b.2 then (some c.1, c.2) else b

/-- The distances `FindEnemyTrajectory` examines, in loop order: one pair
`(index, distance)` for each retained position of each active trajectory that has not
timed out; `i` is the index of the first entry of the list. -/
def candidates (nrm : Point2f → ℚ) (trajectoryTimeout : ℚ) (position : Point2f) (timestamp : ℚ) :
    Nat → List (String × EnemyTrajectory) → List (Nat × ℚ)
  | _, [] => []
  | i, (_, trajectory) :: rest =>
    (if trajectory.isActive = true ∧ ¬ (timestamp - trajectory.lastSeen > trajectoryTimeout) then
      trajectory.positions.map (fun pos => (i, nrm (position - pos.position)))
    else []) ++ candidates nrm trajectoryTimeout position timestamp (i + 1) rest

/-- What the loop of `FindEnemyTrajectory` does to one entry of the map: an active
trajectory that has timed out is deactivated. -/
def deactivateTimedOut (trajectoryTimeout timestamp : ℚ) (kv : String × EnemyTrajectory) :
    String × EnemyTrajectory :=
  if kv.2.isActive = true ∧ timestamp - kv.2.lastSeen > trajectoryTimeout then
    (kv.1, { kv.2 with isActive := false })
  else kv

/-- The position record that `UpdateEnemyPositions` builds for a detection. -/
def observed (detection : EnemyDetection) (timestamp : ℚ) (enemyId : String) : EnemyPosition :=
  { position := detection.center, timestamp := timestamp, confidence := detection.confidence,
    enemyId := enemyId, isVisible := true }

/-- Invariant of the id allocation: the counter is positive, every key of the map is
`enemy_k` for some `1 ≤ k < nextEnemyId`, and no key occurs twice. -/
def IdsWellFormed (s : PositionTracker) : Prop :=
  1 ≤ s.nextEnemyId ∧
  (∀ kv ∈ s.enemyTrajectories, ∃ k : Int, 1 ≤ k ∧ k < s.nextEnemyId ∧
    kv.1 = "enemy_" ++ toString k) ∧
  (s.enemyTrajectories.map Prod.fst).Nodup

/-- The consecutive pairs `(prev, curr)` of a list of positions. -/
def consecutivePairs (ps : List EnemyPosition) : List (EnemyPosition × EnemyPosition) :=
  ps.zip ps.tail

/-- The consecutive pairs with a positive time gap. -/
def timedPairs (ps : List EnemyPosition) : List (EnemyPosition × EnemyPosition) :=
  (consecutivePairs ps).filter (fun pr => decide (0 < pr.2.timestamp - pr.1.timestamp))

/-- Sum of the distances over the consecutive pairs with a positive time gap. -/
def pathLength (nrm : Point2f → ℚ) (ps : List EnemyPosition) : ℚ :=
  ((timedPairs ps).map (fun pr => nrm (pr.2.position - pr.1.position))).sum

/-- Sum of the positive time gaps of consecutive pairs. -/
def elapsedTime (ps : List EnemyPosition) : ℚ :=
  ((timedPairs ps).map (fun pr => pr.2.timestamp - pr.1.timestamp)).sum

/-- The centroid (mean point) of a list of positions. -/
def centroid (ps : List EnemyPosition) : Point2f :=
  ⟨(ps.map (fun pos => pos.position.x)).sum / (ps.length : ℚ),
   (ps.map (fun pos => pos.position.y)).sum / (ps.length : ℚ)⟩

/-- The mean distance of the positions from their centroid. -/
def meanDeviation (nrm : Point2f → ℚ) (ps : List EnemyPosition) : ℚ :=
  (ps.map (fun pos => nrm (pos.position - centroid ps))).sum / (ps.length : ℚ)

/-- A sequence of `UpdateEnemyPositions` calls, each given by its detections and its
timestamp, applied to a tracker. -/
def runUpdates (nrm : Point2f → ℚ) (s : PositionTracker)
    (calls : List (List EnemyDetection × ℚ)) : PositionTracker :=
  calls.foldl (fun st c => UpdateEnemyPositions nrm st c.1 c.2) s

/-- The positions are in non-decreasing timestamp order. -/
def TimeSorted (ps : List EnemyPosition) : Prop :=
  ps.Pairwise (fun a b => a.timestamp ≤ b.timestamp)

/-- The positions are in non-decreasing timestamp order, none is later than `bound`, and
any two timestamps differ by at most 10. -/
def WindowOk (bound : ℚ) (ps : List EnemyPosition) : Prop :=
  TimeSorted ps ∧ (∀ q ∈ ps, q.timestamp ≤ bound) ∧
    ∀ a ∈ ps, ∀ b ∈ ps, a.timestamp - b.timestamp ≤ 10

/-- The trajectory that the loop body of `UpdateEnemyPositions` creates for a detection
that matches no trajectory, under the id `enemyId`. -/
def created (detection : EnemyDetection) (timestamp : ℚ) (enemyId : String) : EnemyTrajectory :=
  { enemyId := enemyId,
    positions := [observed detection timestamp enemyId],
    firstSeen := timestamp, lastSeen := timestamp, isActive := true,
    predictedNextPosition := ⟨0, 0⟩, movementSpeed := 0, movementPattern := "stationary" }

/-- The times of a trajectory are consistent: `lastSeen` is the timestamp of the last
retained position (so there is one), and every retained timestamp lies between
`firstSeen` and `bound`. -/
def SeenOk (bound : ℚ) (trajectory : EnemyTrajectory) : Prop :=
  (∃ q, trajectory.positions.getLast? = some q ∧ trajectory.lastSeen = q.timestamp) ∧
  ∀ q ∈ trajectory.positions, trajectory.firstSeen ≤ q.timestamp ∧ q.timestamp ≤ bound

/-- The rows of the trajectory data of a tracker: for every retained position of every
trajectory, in map order, the track id, timestamp, x, y, confidence and visible flag. -/
def trajectoryRows (s : PositionTracker) : List (String × ℚ × ℚ × ℚ × ℚ × Bool) :=
  s.enemyTrajectories.flatMap (fun kv => kv.2.positions.map
    (fun q => (kv.1, q.timestamp, q.position.x, q.position.y, q.confidence, q.isVisible)))

/-- The position that `LoadTrajectoryData` rebuilds from the row of a position saved under
the id `enemyId`, when every number is read back as it was: the saved position with the id
of the row. -/
def reloaded (enemyId : String) (pos : EnemyPosition) : EnemyPosition :=
  { pos with enemyId := enemyId }

/-- The retained positions stored under an id, none when the map has no such id. -/
def positionsOf (s : PositionTracker) (enemyId : String) : List EnemyPosition :=
  ((s.enemyTrajectories.lookup enemyId).map (fun trajectory => trajectory.positions)).getD []

/-- The trackers that the member functions can build: reached from the constructor through
the setters, `Reset`, `UpdateEnemyPositions`, `AnalyzeDeath` and `LoadTrajectoryData`,
which stores the positions it reads one by one with `storePosition` (all of them, or those
before a line whose numbers it cannot read).  The argument of
`SetMinPositionsForTrajectory` is a C++ `int`. -/
inductive Built (nrm : Point2f → ℚ) : PositionTracker → Prop
  | construct : Built nrm new
  | setTrackingDistance (s : PositionTracker) (v : ℚ) :
      Built nrm s → Built nrm (SetTrackingDistance s v)
  | setTrajectoryTimeout (s : PositionTracker) (v : ℚ) :
      Built nrm s → Built nrm (SetTrajectoryTimeout s v)
  | setMinPositionsForTrajectory (s : PositionTracker) (m : Int) :
      -(2 ^ 31) ≤ m → m < 2 ^ 31 → Built nrm s → Built nrm (SetMinPositionsForTrajectory s m)
  | setDeathAnalysisRadius (s : PositionTracker) (v : ℚ) :
      Built nrm s → Built nrm (SetDeathAnalysisRadius s v)
  | setVisibilityThreshold (s : PositionTracker) (v : ℚ) :
      Built nrm s → Built nrm (SetVisibilityThreshold s v)
  | reset (s : PositionTracker) : Built nrm s → Built nrm (Reset s)
  | update (s : PositionTracker) (detections : List EnemyDetection) (timestamp : ℚ) :
      Built nrm s → Built nrm (UpdateEnemyPositions nrm s detections timestamp)
  | analyzeDeath (s : PositionTracker) (uninit : EnemyPosition) (deathPosition : Point2f)
      (timestamp : ℚ) :
      Built nrm s → Built nrm (AnalyzeDeath nrm uninit s deathPosition timestamp)
  | loadTrajectoryData (s : PositionTracker) (uninit : ℚ) (pos : EnemyPosition) :
      Built nrm s → Built nrm (storePosition uninit s pos)

/-- The keys of the map are in strictly increasing order, as the keys of a `std::map`
always are. -/
def SortedKeys (s : PositionTracker) : Prop :=
  (s.enemyTrajectories.map Prod.fst).Sorted (· < ·)

/-- The tracker inside `UpdateEnemyPositions s frame t` at the moment the first loop has
gone through the observations `processed`, a prefix of the frame. -/
def loopState (nrm : Point2f → ℚ) (s : PositionTracker) (timestamp : ℚ)
    (processed : List EnemyDetection) : PositionTracker :=
  processed.foldl (processDetection nrm timestamp) (CleanupOldTrajectories s timestamp)

end PositionTracker

/-! ## Example data -/

/-- One target with confidence 0.9 at the screen centre (640,360). -/
def exTarget : EnemyDetection := ⟨⟨600, 300, 80, 120⟩, 9 / 10, "player", ⟨640, 360⟩, 0⟩

/-- One target with confidence 0 at (1240,360), 600 pixels from the screen centre. -/
def exFarTarget : EnemyDetection := ⟨⟨1200, 300, 80, 120⟩, 0, "player", ⟨1240, 360⟩, 0⟩

/-- The analyzer with `combatThreshold = 0.5` and `minEnemiesForCombat = 1` set through the
setters. -/
def exAnalyzer : CombatAnalyzer :=
  CombatAnalyzer.SetMinEnemiesForCombat (CombatAnalyzer.SetCombatThreshold CombatAnalyzer.new (1 / 2)) 1

/-- A detection with confidence 0.9 centred at `(x, y)`. -/
def exObs (x y : ℚ) : EnemyDetection := ⟨⟨0, 0, 80, 120⟩, 9 / 10, "player", ⟨x, y⟩, 0⟩

/-- The tracker after one frame at `t = 0` with one target at (0,0). -/
def exTracker1 : PositionTracker :=
  PositionTracker.UpdateEnemyPositions cvNorm (PositionTracker.Reset PositionTracker.new)
    [exObs 0 0] 0

/-- The tracker `exTracker1` after an empty frame at `t = 10`: `enemy_1` has timed out. -/
def exTracker2 : PositionTracker := PositionTracker.UpdateEnemyPositions cvNorm exTracker1 [] 10

/-- The tracker with `maxTrackingDistance = 200` after one frame at `t = 0` with targets at
(0,0) and (300,0): two trajectories, `enemy_1` and `enemy_2`. -/
def exTracker3 : PositionTracker :=
  PositionTracker.UpdateEnemyPositions cvNorm
    (PositionTracker.SetTrackingDistance (PositionTracker.Reset PositionTracker.new) 200)
    [exObs 0 0, exObs 300 0] 0

/-- The entry of the timed-out trajectory `enemy_1` in `exTracker2`. -/
def exInactive : String × EnemyTrajectory :=
  ("enemy_1",
    { enemyId := "enemy_1",
      positions := [PositionTracker.observed (exObs 0 0) 0 "enemy_1"],
      firstSeen := 0, lastSeen := 0, isActive := false,
      predictedNextPosition := ⟨0, 0⟩, movementSpeed := 0, movementPattern := "stationary" })

/-- The trajectory with positions (0,0) at `t = 0` and (10,0) at `t = 1`. -/
def exTrajectory : EnemyTrajectory :=
  { enemyId := "enemy_1",
    positions := [PositionTracker.observed (exObs 0 0) 0 "enemy_1",
      PositionTracker.observed (exObs 10 0) 1 "enemy_1"],
    firstSeen := 0, lastSeen := 1, isActive := true,
    predictedNextPosition := ⟨0, 0⟩, movementSpeed := 0, movementPattern := "stationary" }

/-- The default tracker with `minPositionsForTrajectory = 2`. -/
def exTrackerMin2 : PositionTracker :=
  PositionTracker.SetMinPositionsForTrajectory PositionTracker.new 2

/-- The tracker after one frame at `t = 10` with one target at (150,100). -/
def exTrackerDeath : PositionTracker :=
  PositionTracker.UpdateEnemyPositions cvNorm (PositionTracker.Reset PositionTracker.new)
    [exObs 150 100] 10

/-- Some content of the uninitialised local variable of `AnalyzeDeath`. -/
def exUninit : EnemyPosition :=
  { position := ⟨0, 0⟩, timestamp := 77, confidence := 77, enemyId := "", isVisible := false }

/-- The entry of the trajectory `enemy_1` in `exTracker1`, still active. -/
def exActive : String × EnemyTrajectory :=
  (exInactive.1, { exInactive.2 with isActive := true })

/-- Three calls with non-decreasing timestamps: a target at (0,0) at `t = 0`, at (30,0) at
`t = 1` and at (60,0) at `t = 1`. -/
def exCalls : List (List EnemyDetection × ℚ) :=
  [([exObs 0 0], 0), ([exObs 30 0], 1), ([exObs 60 0], 1)]

/-- A sort by descending confidence, the concrete instance of `std::sort` with the
comparator `a.confidence > b.confidence` used at examples. -/
def confidenceSort (l : List EnemyDetection) : List EnemyDetection :=
  l.insertionSort (fun a b => b.confidence ≤ a.confidence)

/-- A detection with the bounding box `(x, 0, 100, 100)` and the given confidence. -/
def exBox (x : Int) (confidence : ℚ) : EnemyDetection :=
  ⟨⟨x, 0, 100, 100⟩, confidence, "player", ⟨(x : ℚ) + 50, 50⟩, 0⟩

/-- Six detections: the second overlaps the first by more than half, the third is too
small, the fourth is below the confidence floor, the first and the last two are apart. -/
def exFrame : List EnemyDetection :=
  [exBox 0 (1 / 2), exBox 10 (9 / 10), ⟨⟨300, 0, 10, 10⟩, 9 / 10, "player", ⟨305, 5⟩, 0⟩,
    exBox 500 (1 / 10), exBox 700 (8 / 10), exBox 900 (6 / 10)]

/-- The default detector with at most two detections per frame. -/
def exDetector : EnemyDetector := EnemyDetector.SetMaxDetections EnemyDetector.new 2

/-- The tracker after one frame at `t = 12.345678` with one target at (640,360). -/
def exTrackerSaved : PositionTracker :=
  PositionTracker.UpdateEnemyPositions cvNorm (PositionTracker.Reset PositionTracker.new)
    [exObs 640 360] (12345678 / 1000000)

/-- The tracker of a new session after `LoadTrajectoryData` has read the file that
`SaveTrajectoryData` writes for `exTracker1`: it holds `enemy_1`, inactive, with the
position (0,0) at `t = 0`, and its counter `nextEnemyId` is still 1. -/
def exTrackerLoaded : PositionTracker :=
  (PositionTracker.LoadTrajectoryData stodDecimal stodDecimal 0 PositionTracker.new
    "enemy_id,timestamp,x,y,confidence,is_visible\nenemy_1,0,0,0,0.9,true\n").getD
    PositionTracker.new

end GameTrainer

/-! # Theorems -/

namespace GameTrainer

/-! ## Geometry and strings -/

/-- The search loop returns the integer square root when the fuel suffices. -/
theorem natSqrtAux_spec (n : Nat) : ∀ (fuel r : Nat), r * r ≤ n →
    n < (r + fuel + 1) * (r + fuel + 1) →
    natSqrtAux n fuel r * natSqrtAux n fuel r ≤ n ∧
      n < (natSqrtAux n fuel r + 1) * (natSqrtAux n fuel r + 1) := by
  intro fuel
  induction fuel with
  | zero => intro r h1 h2; exact ⟨h1, h2⟩
  | succ fuel ih =>
    intro r h1 h2
    unfold natSqrtAux
    split_ifs with h
    · exact ih (r + 1) h (by
        have : r + 1 + fuel + 1 = r + (fuel + 1) + 1 := by omega
        rw [this]; exact h2)
    · exact ⟨h1, not_le.1 h⟩

/-- The integer square root of a square. -/
theorem natSqrt_mul_self (m : Nat) : natSqrt (m * m) = m := by
  obtain ⟨h1, h2⟩ := natSqrtAux_spec (m * m) (m * m) 0 (Nat.zero_le _) (by nlinarith)
  have h3 : natSqrt (m * m) ≤ m := by
    by_contra hc
    have : m + 1 ≤ natSqrt (m * m) := by omega
    have := Nat.mul_le_mul this this
    unfold natSqrt at this
    nlinarith
  have h4 : m ≤ natSqrt (m * m) := by
    by_contra hc
    have : natSqrt (m * m) + 1 ≤ m := by omega
    have := Nat.mul_le_mul this this
    unfold natSqrt at this
    nlinarith
  omega

/-- The example norm is never negative. -/
theorem cvNorm_nonneg (p : Point2f) : 0 ≤ cvNorm p := by
  unfold cvNorm
  exact div_nonneg (Nat.cast_nonneg _) (Nat.cast_nonneg _)

/-- The example norm is the Euclidean distance whenever that distance is rational. -/
theorem cvNorm_eq_of_sq (p : Point2f) (d : ℚ) (hd : 0 ≤ d) (h : p.x * p.x + p.y * p.y = d * d) :
    cvNorm p = d := by
  unfold cvNorm
  simp only [h, Rat.mul_self_num, Rat.mul_self_den]
  have hnum : 0 ≤ d.num := Rat.num_nonneg.2 hd
  obtain ⟨a, ha⟩ := Int.eq_ofNat_of_zero_le hnum
  have e : (d.num * d.num).toNat * (d.den * d.den) = (a * d.den) * (a * d.den) := by
    rw [ha]
    have : ((a : Int) * (a : Int)).toNat = a * a := by
      rw [← Int.natCast_mul]; rfl
    rw [this]
    ring
  rw [e, natSqrt_mul_self]
  have hden : (d.den : ℚ) ≠ 0 := by exact_mod_cast d.den_nz
  have hdq : (a : ℚ) / (d.den : ℚ) = d := by
    have := Rat.num_div_den d
    rw [ha] at this
    exact_mod_cast this
  push_cast
  rw [mul_div_mul_right _ _ hden]
  exact hdq

/-- The digit character of `d < 10` has value `d`. -/
theorem digitChar_val (d : Nat) (h : d < 10) : (Nat.digitChar d).toNat - 48 = d := by
  interval_cases d <;> rfl

/-- The digits that `Nat.toDigitsCore` puts in front of `ds` are those of `n`. -/
theorem decVal_toDigitsCore (fuel : Nat) : ∀ (n : Nat) (ds : List Char), n < fuel →
    decVal (Nat.toDigitsCore 10 fuel n ds) = n * 10 ^ ds.length + decVal ds := by
  induction fuel with
  | zero => intro n ds h; omega
  | succ fuel ih =>
    intro n ds h
    unfold Nat.toDigitsCore
    simp only
    split_ifs with h0
    · have hn : n < 10 := by
        rcases Nat.lt_or_ge n 10 with h1 | h1
        · exact h1
        · have := Nat.div_pos h1 (by norm_num : 0 < 10); omega
      rw [Nat.mod_eq_of_lt hn]
      simp only [decVal, digitChar_val n hn]
    · have hlt : n / 10 < fuel := by
        have : n / 10 < n := Nat.div_lt_self (by
          rcases Nat.eq_zero_or_pos n with h1 | h1
          · subst h1; simp at h0
          · exact h1) (by norm_num)
        omega
      rw [ih (n / 10) _ hlt]
      simp only [decVal, List.length_cons, digitChar_val (n % 10) (Nat.mod_lt _ (by norm_num))]
      have hdm := Nat.div_add_mod n 10
      generalize n / 10 = q at hdm
      generalize n % 10 = r at hdm
      subst hdm
      ring

/-- Reading back the decimal representation of a natural number gives the number. -/
theorem decVal_repr (n : Nat) : decVal (Nat.repr n).data = n := by
  have := decVal_toDigitsCore (n + 1) n [] (Nat.lt_succ_self n)
  simpa [Nat.repr, Nat.toDigits, decVal, List.asString] using this

/-- Printing is injective on the non-negative integers. -/
theorem toString_int_inj (a b : Int) (ha : 0 ≤ a) (hb : 0 ≤ b)
    (h : toString a = toString b) : a = b := by
  obtain ⟨m, rfl⟩ := Int.eq_ofNat_of_zero_le ha
  obtain ⟨k, rfl⟩ := Int.eq_ofNat_of_zero_le hb
  have h' : Nat.repr m = Nat.repr k := h
  have := congrArg (fun s => decVal s.data) h'
  simp only [decVal_repr] at this
  rw [this]

/-- The ids `enemy_a` and `enemy_b` of two non-negative counters are equal only if
`a = b`. -/
theorem enemyId_inj (a b : Int) (ha : 0 ≤ a) (hb : 0 ≤ b)
    (h : "enemy_" ++ toString a = "enemy_" ++ toString b) : a = b := by
  apply toString_int_inj a b ha hb
  have := congrArg String.data h
  simp only [String.data_append, List.append_cancel_left_eq] at this
  exact String.ext this

/-- Assigning to a key that is not in the map adds one entry and keeps all the others. -/
theorem mapInsert_perm {V : Type} (k : String) (v : V) :
    ∀ (l : List (String × V)), k ∉ l.map Prod.fst → (mapInsert k v l).Perm ((k, v) :: l) := by
  intro l
  induction l with
  | nil => intro _; exact List.Perm.refl _
  | cons kv rest ih =>
    intro hk
    obtain ⟨k1, v1⟩ := kv
    simp only [List.map_cons, List.mem_cons, not_or] at hk
    unfold mapInsert
    split_ifs with h1 h2
    · exact List.Perm.refl _
    · exact ((ih hk.2).cons (k1, v1)).trans (List.Perm.swap _ _ _)
    · exfalso
      rcases lt_trichotomy k k1 with h | h | h
      · exact h1 h
      · exact hk.1 h
      · exact h2 h

/-! ## CombatAnalyzer -/

namespace CombatAnalyzer

/-- The accumulator of the intensity loop holds the two running sums. -/
theorem foldl_intensityStep (nrm : Point2f → ℚ) (enemies : List EnemyDetection) (acc : ℚ × ℚ) :
    enemies.foldl (intensityStep nrm) acc =
      (acc.1 + (enemies.map (fun e => e.confidence)).sum,
       acc.2 + (enemies.map
          (fun e => max 0 (1 - nrm (e.center - (⟨640, 360⟩ : Point2f)) / 500))).sum) := by
  induction enemies generalizing acc with
  | nil => simp
  | cons e rest ih =>
    simp only [List.foldl_cons, ih, intensityStep, List.map_cons, List.sum_cons]
    ext <;> simp [add_assoc]

/-- In a reachable analyzer the minimum enemy count is a positive `int`. -/
theorem Reachable.minEnemies_bounds {nrm : Point2f → ℚ} {a : CombatAnalyzer}
    (h : Reachable nrm a) : 1 ≤ a.minEnemiesForCombat ∧ a.minEnemiesForCombat < 2 ^ 31 := by
  induction h with
  | construct => simp [new, ResetCombatState]
  | setCombatThreshold a v _ ih => simpa [SetCombatThreshold] using ih
  | setClipDuration a v _ ih => simpa [SetClipDuration] using ih
  | setEnemyDetectionCooldown a v _ ih => simpa [SetEnemyDetectionCooldown] using ih
  | setCombatTimeout a v _ ih => simpa [SetCombatTimeout] using ih
  | setMinEnemiesForCombat a m h1 h2 _ _ =>
    simp only [SetMinEnemiesForCombat]
    constructor
    · exact le_max_left _ _
    · exact max_lt (by norm_num) h2
  | resetCombatState a _ ih => simpa [ResetCombatState] using ih
  | analyzeFrame a fe en t _ ih =>
    unfold AnalyzeFrame
    simp only
    split_ifs <;> exact ih
  | startRecording a c r t _ ih => simpa [StartRecording] using ih
  | stopRecording a c t _ ih => simpa [StopRecording] using ih

/-- For a positive `int` bound the mixed comparison is the mathematical one. -/
theorem sizeGeInt_of_bounds (n : Nat) (m : Int) (h1 : 1 ≤ m) (h2 : m < 2 ^ 31) :
    sizeGeInt n m = true ↔ m ≤ (n : Int) := by
  unfold sizeGeInt
  rw [decide_eq_true_iff, Int.emod_eq_of_lt (by omega) (by omega)]
  omega

/-- The intensity of the single target with confidence 0.9 at the screen centre is 0.93. -/
theorem intensity_exTarget : CalculateCombatIntensity cvNorm [exTarget] = 93 / 100 := by
  decide!

/-- C1.  In the Idle state (`isActive = false`) of an analyzer whose configuration was
reached through the setters, `AnalyzeFrame` on a non-empty frame in which the target list
`L` is detected at time `t` makes the state active if and only if `L` is non-empty,
`|L| ≥ minEnemiesForCombat` and `CalculateCombatIntensity L ≥ combatThreshold`.  In
particular the state stays idle when `|L| < minEnemiesForCombat`; on activation `startTime`
is `t`; on an empty frame (for which nothing is detected) the analyzer is unchanged.  The
norm is arbitrary.  Scenario: one target with confidence 0.9 at (640,360) at `t = 0` with
threshold 0.5 and minimum 1 activates the state with `startTime = 0`. -/
theorem C1_idle_to_active (nrm : Point2f → ℚ) (a : CombatAnalyzer) (hr : Reachable nrm a)
    (hidle : a.currentCombatState.isActive = false) (L : List EnemyDetection) (t : ℚ) :
    ((AnalyzeFrame nrm a false L t).currentCombatState.isActive = true ↔
        (L ≠ [] ∧ a.minEnemiesForCombat ≤ (L.length : Int) ∧
          CalculateCombatIntensity nrm L ≥ a.combatThreshold)) ∧
    ((L.length : Int) < a.minEnemiesForCombat →
        (AnalyzeFrame nrm a false L t).currentCombatState.isActive = false) ∧
    ((AnalyzeFrame nrm a false L t).currentCombatState.isActive = true →
        (AnalyzeFrame nrm a false L t).currentCombatState.startTime = t) ∧
    AnalyzeFrame nrm a true L t = a ∧
    (AnalyzeFrame cvNorm exAnalyzer false [exTarget] 0).currentCombatState.isActive = true ∧
    (AnalyzeFrame cvNorm exAnalyzer false [exTarget] 0).currentCombatState.startTime = 0 := by
  obtain ⟨h1, h2⟩ := hr.minEnemies_bounds
  have hsz := sizeGeInt_of_bounds L.length a.minEnemiesForCombat h1 h2
  have key : (AnalyzeFrame nrm a false L t).currentCombatState.isActive = true ↔
        (L ≠ [] ∧ a.minEnemiesForCombat ≤ (L.length : Int) ∧
          CalculateCombatIntensity nrm L ≥ a.combatThreshold) := by
    unfold AnalyzeFrame
    cases L with
    | nil => simp [hidle]
    | cons e rest =>
      simp only [List.isEmpty_cons, Bool.not_false, hidle, Bool.not_false, if_true,
        Bool.false_eq_true, if_false, Bool.and_eq_true, decide_eq_true_eq, hsz]
      split_ifs with h
      · simpa using h
      · simp only [hidle, Bool.false_eq_true, false_iff]
        intro hh
        exact h ⟨hh.2.1, hh.2.2⟩
  refine ⟨key, ?_, ?_, ?_, by decide!, by decide!⟩
  · intro hlt
    cases hb : (AnalyzeFrame nrm a false L t).currentCombatState.isActive with
    | false => rfl
    | true => have := (key.1 hb).2.1; omega
  · intro hact
    have hk := key.1 hact
    unfold AnalyzeFrame
    cases L with
    | nil => exact absurd rfl hk.1
    | cons e rest =>
      simp only [List.isEmpty_cons, Bool.not_false, hidle, if_true,
        Bool.false_eq_true, if_false, Bool.and_eq_true, decide_eq_true_eq, hsz]
      rw [if_pos ⟨hk.2.1, hk.2.2⟩]
  · simp [AnalyzeFrame]

/-- The example analyzer is reached from the constructor through two setters. -/
theorem reachable_exAnalyzer : Reachable cvNorm exAnalyzer :=
  Reachable.setMinEnemiesForCombat _ 1 (by norm_num) (by norm_num)
    (Reachable.setCombatThreshold _ _ Reachable.construct)

/-- Witness of C1, the scenario of the specification: one target with confidence 0.9 at
(640,360) at `t = 0`, threshold 0.5 and minimum 1: the state becomes active with
`startTime = 0`. -/
theorem C1_witness :
    Reachable cvNorm exAnalyzer ∧ exAnalyzer.currentCombatState.isActive = false ∧
    (AnalyzeFrame cvNorm exAnalyzer false [exTarget] 0).currentCombatState.isActive = true ∧
    (AnalyzeFrame cvNorm exAnalyzer false [exTarget] 0).currentCombatState.startTime = 0 := by
  have h := C1_idle_to_active cvNorm exAnalyzer reachable_exAnalyzer rfl [exTarget] 0
  have hact : (AnalyzeFrame cvNorm exAnalyzer false [exTarget] 0).currentCombatState.isActive
      = true := by
    refine h.1.2 ⟨by simp, ?_, ?_⟩
    · simp [exAnalyzer, SetMinEnemiesForCombat]
    · rw [intensity_exTarget]
      norm_num [exAnalyzer, SetMinEnemiesForCombat, SetCombatThreshold, new, ResetCombatState]
  exact ⟨reachable_exAnalyzer, rfl, hact, h.2.2.1 hact⟩

/-- Closed form of `AnalyzeFrame` on a non-empty frame without targets. -/
theorem analyzeFrame_nil (nrm : Point2f → ℚ) (a : CombatAnalyzer) (t : ℚ) :
    AnalyzeFrame nrm a false [] t =
      { a with currentCombatState :=
          { a.currentCombatState with
            enemyCount := 0, activeEnemies := [], combatIntensity := 0,
            isActive := if a.currentCombatState.isActive = true
                ∧ t - a.currentCombatState.lastEnemySeen > a.combatTimeout
              then false else a.currentCombatState.isActive } } := by
  simp only [AnalyzeFrame, List.isEmpty_nil, Bool.not_true, Bool.false_eq_true, if_false]
  cases h : a.currentCombatState.isActive
  · simp
  · by_cases h2 : t - a.currentCombatState.lastEnemySeen > a.combatTimeout
    · simp [h2]
    · simp [h2, ← h]

/-- C2.  For every analyzer (hence every combat state) and timestamp `t`, `AnalyzeFrame`
on a non-empty frame with an empty target list sets the intensity to 0, the enemy count to 0
and clears `activeEnemies`, leaves `startTime` and `lastEnemySeen` unchanged, and sets
`isActive` to false exactly when the state was active and
`t - lastEnemySeen > combatTimeout`; otherwise `isActive` is unchanged.  Scenario: after
targets at `t = 0` and `t = 2` with `combatTimeout = 3`, an empty frame at `t = 5` leaves the
state active and one at `t = 5.001` makes it inactive. -/
theorem C2_empty_frame (nrm : Point2f → ℚ) (a : CombatAnalyzer) (t : ℚ) :
    (AnalyzeFrame nrm a false [] t).currentCombatState.combatIntensity = 0 ∧
    (AnalyzeFrame nrm a false [] t).currentCombatState.enemyCount = 0 ∧
    (AnalyzeFrame nrm a false [] t).currentCombatState.activeEnemies = [] ∧
    (AnalyzeFrame nrm a false [] t).currentCombatState.startTime
      = a.currentCombatState.startTime ∧
    (AnalyzeFrame nrm a false [] t).currentCombatState.lastEnemySeen
      = a.currentCombatState.lastEnemySeen ∧
    (AnalyzeFrame nrm a false [] t).currentCombatState.isActive
      = (if a.currentCombatState.isActive = true
            ∧ t - a.currentCombatState.lastEnemySeen > a.combatTimeout
         then false else a.currentCombatState.isActive) ∧
    (AnalyzeFrame cvNorm (AnalyzeFrame cvNorm (AnalyzeFrame cvNorm new false [exTarget] 0)
        false [exTarget] 2) false [] 5).currentCombatState.isActive = true ∧
    (AnalyzeFrame cvNorm (AnalyzeFrame cvNorm (AnalyzeFrame cvNorm new false [exTarget] 0)
        false [exTarget] 2) false [] (5001 / 1000)).currentCombatState.isActive = false := by
  refine ⟨?_, ?_, ?_, ?_, ?_, ?_, ?_, ?_⟩
  · rw [analyzeFrame_nil]
  · rw [analyzeFrame_nil]
  · rw [analyzeFrame_nil]
  · rw [analyzeFrame_nil]
  · rw [analyzeFrame_nil]
  · rw [analyzeFrame_nil]
  · simp [AnalyzeFrame, intensity_exTarget, new, ResetCombatState, sizeGeInt]
    norm_num
  · simp [AnalyzeFrame, intensity_exTarget, new, ResetCombatState, sizeGeInt]
    norm_num

/-- Closed form of the intensity of a non-empty list. -/
theorem intensity_eq_means (nrm : Point2f → ℚ) (L : List EnemyDetection) (hL : L ≠ []) :
    CalculateCombatIntensity nrm L =
      7 / 10 * ((L.map (fun e => e.confidence)).sum / (L.length : ℚ)) +
      3 / 10 * ((L.map
          (fun e => max 0 (1 - nrm (e.center - (⟨640, 360⟩ : Point2f)) / 500))).sum
            / (L.length : ℚ)) := by
  unfold CalculateCombatIntensity
  have : L.isEmpty = false := by cases L <;> simp_all
  simp only [this, Bool.false_eq_true, if_false, foldl_intensityStep, zero_add]
  ring

/-- A sum of non-negative terms is non-negative. -/
theorem sum_map_nonneg {α : Type} (f : α → ℚ) (L : List α) (h : ∀ e ∈ L, 0 ≤ f e) :
    0 ≤ (L.map f).sum := by
  apply List.sum_nonneg
  intro x hx
  obtain ⟨e, he, rfl⟩ := List.mem_map.1 hx
  exact h e he

/-- A sum of terms that are at most 1 is at most the number of terms. -/
theorem sum_map_le_length {α : Type} (f : α → ℚ) (L : List α) (h : ∀ e ∈ L, f e ≤ 1) :
    (L.map f).sum ≤ (L.length : ℚ) := by
  induction L with
  | nil => simp
  | cons e rest ih =>
    have h1 := h e (List.mem_cons_self _ _)
    have h2 := ih (fun x hx => h x (List.mem_cons_of_mem _ hx))
    simp only [List.map_cons, List.sum_cons, List.length_cons, Nat.cast_add, Nat.cast_one]
    linarith

/-- A sum of non-negative terms is zero exactly when every term is zero. -/
theorem sum_map_eq_zero_iff {α : Type} (f : α → ℚ) (L : List α) (h : ∀ e ∈ L, 0 ≤ f e) :
    (L.map f).sum = 0 ↔ ∀ e ∈ L, f e = 0 := by
  induction L with
  | nil => simp
  | cons e rest ih =>
    have h1 := h e (List.mem_cons_self _ _)
    have h2 : ∀ x ∈ rest, 0 ≤ f x := fun x hx => h x (List.mem_cons_of_mem _ hx)
    have h3 := sum_map_nonneg f rest h2
    simp only [List.map_cons, List.sum_cons, List.mem_cons, forall_eq_or_imp]
    rw [← ih h2]
    constructor
    · intro hs
      constructor <;> linarith
    · rintro ⟨ha, hb⟩
      linarith

/-- C3.  For a norm that is never negative and every target list in which every
confidence lies in [0,1], `CalculateCombatIntensity` returns a value in [0,1]. -/
theorem C3_intensity_range (nrm : Point2f → ℚ) (hn : ∀ p, 0 ≤ nrm p)
    (L : List EnemyDetection) (hc : ∀ e ∈ L, 0 ≤ e.confidence ∧ e.confidence ≤ 1) :
    0 ≤ CalculateCombatIntensity nrm L ∧ CalculateCombatIntensity nrm L ≤ 1 := by
  by_cases hL : L = []
  · subst hL
    simp [CalculateCombatIntensity]
  · rw [intensity_eq_means nrm L hL]
    have hlen : (0 : ℚ) < (L.length : ℚ) := by
      have := List.length_pos.2 hL
      exact_mod_cast this
    have a0 := sum_map_nonneg (fun e : EnemyDetection => e.confidence) L (fun e he => (hc e he).1)
    have a1 := sum_map_le_length (fun e : EnemyDetection => e.confidence) L
      (fun e he => (hc e he).2)
    have b0 := sum_map_nonneg
      (fun e : EnemyDetection => max 0 (1 - nrm (e.center - (⟨640, 360⟩ : Point2f)) / 500)) L
      (fun e _ => le_max_left _ _)
    have b1 := sum_map_le_length
      (fun e : EnemyDetection => max 0 (1 - nrm (e.center - (⟨640, 360⟩ : Point2f)) / 500)) L
      (fun e _ => max_le (by norm_num) (by have := hn (e.center - (⟨640, 360⟩ : Point2f)); linarith))
    have c0 := div_nonneg a0 hlen.le
    have c1 := (div_le_one hlen).2 a1
    have d0 := div_nonneg b0 hlen.le
    have d1 := (div_le_one hlen).2 b1
    constructor <;> linarith

/-- Witness of C3 at the target with confidence 0.9 at the screen centre. -/
theorem C3_witness :
    (∀ p, 0 ≤ cvNorm p) ∧
    (∀ e ∈ [exTarget], 0 ≤ e.confidence ∧ e.confidence ≤ 1) ∧
    0 ≤ CalculateCombatIntensity cvNorm [exTarget] ∧
    CalculateCombatIntensity cvNorm [exTarget] ≤ 1 :=
  ⟨cvNorm_nonneg, by norm_num [exTarget],
    C3_intensity_range cvNorm cvNorm_nonneg [exTarget] (by norm_num [exTarget])⟩

/-- C4 fails as stated: the list with the single target of confidence 0 at (1240,360),
600 pixels from the screen centre, is not empty and has intensity 0. -/
theorem C4_counterexample :
    ¬ (∀ L : List EnemyDetection, (∀ e ∈ L, 0 ≤ e.confidence ∧ e.confidence ≤ 1) →
        (CalculateCombatIntensity cvNorm L = 0 ↔ L = [])) := by
  intro h
  have hz : CalculateCombatIntensity cvNorm [exFarTarget] = 0 := by decide!
  have := (h [exFarTarget] (by norm_num [exFarTarget])).1 hz
  simp at this

/-- C4, amended.  For every target list with confidences in [0,1],
`CalculateCombatIntensity` returns 0 if and only if the list is empty or every target has
confidence 0 and lies at distance at least 500 from the screen centre (640,360); so when
every confidence is positive it returns 0 if and only if the list is empty. -/
theorem C4_intensity_zero (nrm : Point2f → ℚ) (L : List EnemyDetection)
    (hc : ∀ e ∈ L, 0 ≤ e.confidence ∧ e.confidence ≤ 1) :
    (CalculateCombatIntensity nrm L = 0 ↔
      (L = [] ∨ ∀ e ∈ L, e.confidence = 0 ∧
        500 ≤ nrm (e.center - (⟨640, 360⟩ : Point2f)))) ∧
    ((∀ e ∈ L, 0 < e.confidence) → (CalculateCombatIntensity nrm L = 0 ↔ L = [])) := by
  have main : CalculateCombatIntensity nrm L = 0 ↔
      (L = [] ∨ ∀ e ∈ L, e.confidence = 0 ∧
        500 ≤ nrm (e.center - (⟨640, 360⟩ : Point2f))) := by
    by_cases hL : L = []
    · subst hL
      simp [CalculateCombatIntensity]
    · rw [intensity_eq_means nrm L hL]
      have hlen : (0 : ℚ) < (L.length : ℚ) := by
        have := List.length_pos.2 hL
        exact_mod_cast this
      have hA : ∀ e ∈ L, 0 ≤ (fun e : EnemyDetection => e.confidence) e :=
        fun e he => (hc e he).1
      have hB : ∀ e ∈ L, 0 ≤ (fun e : EnemyDetection =>
          max 0 (1 - nrm (e.center - (⟨640, 360⟩ : Point2f)) / 500)) e :=
        fun e _ => le_max_left _ _
      have a0 := sum_map_nonneg _ L hA
      have b0 := sum_map_nonneg _ L hB
      have c0 := div_nonneg a0 hlen.le
      have d0 := div_nonneg b0 hlen.le
      have hzA := sum_map_eq_zero_iff _ L hA
      have hzB := sum_map_eq_zero_iff _ L hB
      constructor
      · intro hs
        right
        have e1 : (L.map (fun e : EnemyDetection => e.confidence)).sum / (L.length : ℚ) = 0 := by
          linarith
        have e2 : (L.map (fun e : EnemyDetection =>
            max 0 (1 - nrm (e.center - (⟨640, 360⟩ : Point2f)) / 500))).sum
              / (L.length : ℚ) = 0 := by
          linarith
        rw [div_eq_zero_iff] at e1 e2
        have e1' := hzA.1 (e1.resolve_right hlen.ne')
        have e2' := hzB.1 (e2.resolve_right hlen.ne')
        intro e he
        refine ⟨e1' e he, ?_⟩
        have := e2' e he
        simp only at this
        have h3 : 1 - nrm (e.center - (⟨640, 360⟩ : Point2f)) / 500 ≤ 0 := by
          rw [← this]; exact le_max_right _ _
        linarith
      · rintro (h | h)
        · exact absurd h hL
        · have e1 := hzA.2 (fun e he => (h e he).1)
          have e2 := hzB.2 (fun e he => by
            have := (h e he).2
            apply max_eq_left
            linarith)
          rw [e1, e2]
          simp
  refine ⟨main, ?_⟩
  intro hpos
  rw [main]
  constructor
  · rintro (h | h)
    · exact h
    · cases L with
      | nil => rfl
      | cons e rest =>
        have h1 := (h e (List.mem_cons_self _ _)).1
        have h2 := hpos e (List.mem_cons_self _ _)
        linarith
  · intro h
    exact Or.inl h

/-- Witness of the amended C4 at the target of confidence 0 at (1240,360). -/
theorem C4_witness :
    (∀ e ∈ [exFarTarget], 0 ≤ e.confidence ∧ e.confidence ≤ 1) ∧
    (CalculateCombatIntensity cvNorm [exFarTarget] = 0 ↔
      ([exFarTarget] = [] ∨ ∀ e ∈ [exFarTarget], e.confidence = 0 ∧
        500 ≤ cvNorm (e.center - (⟨640, 360⟩ : Point2f)))) :=
  ⟨by norm_num [exFarTarget],
    (C4_intensity_zero cvNorm [exFarTarget] (by norm_num [exFarTarget])).1⟩

/-- C5.  For every non-empty target list `CalculateCombatIntensity` equals
`0.7 * (mean of the confidences) + 0.3 * (mean over the targets of max(0, 1 - d/500))`, where
`d` is the norm `cv::norm` of the difference between the target centre and the screen
centre (640,360); with the Euclidean norm the single target of confidence 0.9 at (640,360)
gives 0.93. -/
theorem C5_intensity_formula (nrm : Point2f → ℚ) (L : List EnemyDetection) (hL : L ≠ []) :
    CalculateCombatIntensity nrm L =
      7 / 10 * ((L.map (fun e => e.confidence)).sum / (L.length : ℚ)) +
      3 / 10 * ((L.map
          (fun e => max 0 (1 - nrm (e.center - (⟨640, 360⟩ : Point2f)) / 500))).sum
            / (L.length : ℚ)) ∧
    CalculateCombatIntensity cvNorm [exTarget] = 93 / 100 :=
  ⟨intensity_eq_means nrm L hL, intensity_exTarget⟩

/-- Witness of C5 at the target with confidence 0.9 at the screen centre. -/
theorem C5_witness :
    [exTarget] ≠ [] ∧
    CalculateCombatIntensity cvNorm [exTarget] =
      7 / 10 * (([exTarget].map (fun e => e.confidence)).sum / (([exTarget].length : ℕ) : ℚ)) +
      3 / 10 * (([exTarget].map
          (fun e => max 0 (1 - cvNorm (e.center - (⟨640, 360⟩ : Point2f)) / 500))).sum
            / (([exTarget].length : ℕ) : ℚ)) :=
  ⟨by simp, (C5_intensity_formula cvNorm [exTarget] (by simp)).1⟩

/-- C6.  For every combat state `s` and analyzer, `ShouldStartRecording s` is true if and
only if `s.isActive`, no recording is in progress and
`s.combatIntensity ≥ combatThreshold`; it is never true while a recording is in
progress. -/
theorem C6_should_start (a : CombatAnalyzer) (s : CombatState) :
    (ShouldStartRecording a s = true ↔
      (s.isActive = true ∧ a.isRecording = false ∧ s.combatIntensity ≥ a.combatThreshold)) ∧
    ¬ (a.isRecording = true ∧ ShouldStartRecording a s = true) := by
  unfold ShouldStartRecording
  constructor
  · simp [and_assoc]
  · rintro ⟨h1, h2⟩
    simp [h1] at h2

/-- C7.  While a recording is in progress, `ShouldStopRecording s` is true if and only
if `s.isActive` is false or
`s.lastEnemySeen + combatTimeout < s.startTime + clipDuration` (strict, and without any
reference to the current time). -/
theorem C7_should_stop (a : CombatAnalyzer) (s : CombatState) (hrec : a.isRecording = true) :
    ShouldStopRecording a s = true ↔
      (s.isActive = false ∨
        s.lastEnemySeen + a.combatTimeout < s.startTime + a.clipDuration) := by
  unfold ShouldStopRecording
  cases h : s.isActive <;> simp [hrec]

/-- Witness of C7: the default analyzer after `StartRecording`, at the state produced by
the frame that started the combat. -/
theorem C7_witness :
    (StartRecording new "combat_0" "combat_started" 0).2.isRecording = true ∧
    (ShouldStopRecording (StartRecording new "combat_0" "combat_started" 0).2
        (AnalyzeFrame cvNorm new false [exTarget] 0).currentCombatState = true ↔
      ((AnalyzeFrame cvNorm new false [exTarget] 0).currentCombatState.isActive = false ∨
        (AnalyzeFrame cvNorm new false [exTarget] 0).currentCombatState.lastEnemySeen
            + (StartRecording new "combat_0" "combat_started" 0).2.combatTimeout
          < (AnalyzeFrame cvNorm new false [exTarget] 0).currentCombatState.startTime
            + (StartRecording new "combat_0" "combat_started" 0).2.clipDuration)) :=
  ⟨rfl, C7_should_stop _ _ rfl⟩

end CombatAnalyzer

/-! ## PositionTracker -/

namespace PositionTracker

/-- The inner loop of `FindEnemyTrajectory` folds `pick` over the distances. -/
theorem scanPositions_eq (nrm : Point2f → ℚ) (p : Point2f) (i : Nat) (ps : List EnemyPosition)
    (best : Option Nat × ℚ) :
    scanPositions nrm p i ps best
      = (ps.map (fun pos => (i, nrm (p - pos.position)))).foldl pick best := by
  unfold scanPositions
  rw [List.foldl_map]
  rfl

/-- The result of the outer loop is `pick` folded over the candidates. -/
theorem findLoop_snd (nrm : Point2f → ℚ) (timeout : ℚ) (p : Point2f) (t : ℚ) :
    ∀ (l : List (String × EnemyTrajectory)) (i : Nat) (best : Option Nat × ℚ),
      (findLoop nrm timeout p t i l best).2 = (candidates nrm timeout p t i l).foldl pick best := by
  intro l
  induction l with
  | nil => intro i best; rfl
  | cons kv rest ih =>
    intro i best
    obtain ⟨k, tr⟩ := kv
    unfold findLoop candidates
    by_cases ha : tr.isActive = true
    · by_cases ht : t - tr.lastSeen > timeout
      · simp [ha, ht, ih]
      · simp [ha, ht, ih, scanPositions_eq, List.foldl_append]
    · simp [ha, ih]

/-- The outer loop deactivates the active trajectories that have timed out. -/
theorem findLoop_fst (nrm : Point2f → ℚ) (timeout : ℚ) (p : Point2f) (t : ℚ) :
    ∀ (l : List (String × EnemyTrajectory)) (i : Nat) (best : Option Nat × ℚ),
      (findLoop nrm timeout p t i l best).1 = l.map (deactivateTimedOut timeout t) := by
  intro l
  induction l with
  | nil => intro i best; rfl
  | cons kv rest ih =>
    intro i best
    obtain ⟨k, tr⟩ := kv
    unfold findLoop
    by_cases ha : tr.isActive = true
    · by_cases ht : t - tr.lastSeen > timeout
      · simp [ha, ht, ih, deactivateTimedOut]
      · simp [ha, ht, ih, deactivateTimedOut]
    · simp [ha, ih, deactivateTimedOut]

/-- Folding `pick`: either no candidate is below the start value, or the result is the
first candidate of minimal distance. -/
theorem foldl_pick_spec (cands : List (Nat × ℚ)) : ∀ (b : Option Nat × ℚ),
    (cands.foldl pick b = b ∧ ∀ c ∈ cands, b.2 ≤ c.2) ∨
    (∃ pre i d post, cands = pre ++ (i, d) :: post ∧ cands.foldl pick b = (some i, d) ∧
      d < b.2 ∧ (∀ c ∈ pre, d < c.2) ∧ (∀ c ∈ post, d ≤ c.2)) := by
  induction cands with
  | nil => intro b; left; simp
  | cons c rest ih =>
    intro b
    simp only [List.foldl_cons]
    by_cases hc : c.2 < b.2
    · have hp : pick b c = (some c.1, c.2) := by simp [pick, hc]
      rw [hp]
      rcases ih (some c.1, c.2) with ⟨h1, h2⟩ | ⟨pre, i, d, post, h1, h2, h3, h4, h5⟩
      · right
        exact ⟨[], c.1, c.2, rest, by simp, h1, hc, by simp, h2⟩
      · right
        refine ⟨c :: pre, i, d, post, by simp [h1], h2, lt_trans h3 hc, ?_, h5⟩
        intro x hx
        rcases List.mem_cons.1 hx with rfl | hx
        · exact h3
        · exact h4 x hx
    · have hp : pick b c = b := by simp [pick, hc]
      rw [hp]
      rcases ih b with ⟨h1, h2⟩ | ⟨pre, i, d, post, h1, h2, h3, h4, h5⟩
      · left
        refine ⟨h1, ?_⟩
        intro x hx
        rcases List.mem_cons.1 hx with rfl | hx
        · exact not_lt.1 hc
        · exact h2 x hx
      · right
        refine ⟨c :: pre, i, d, post, by simp [h1], h2, h3, ?_, h5⟩
        intro x hx
        rcases List.mem_cons.1 hx with rfl | hx
        · exact lt_of_lt_of_le h3 (not_lt.1 hc)
        · exact h4 x hx

/-- The candidates are the positions of the active trajectories that have not timed out. -/
theorem mem_candidates (nrm : Point2f → ℚ) (timeout : ℚ) (p : Point2f) (t : ℚ) :
    ∀ (l : List (String × EnemyTrajectory)) (i j : Nat) (d : ℚ),
      (j, d) ∈ candidates nrm timeout p t i l ↔
        i ≤ j ∧ ∃ kv, l[j - i]? = some kv ∧ kv.2.isActive = true ∧
          t - kv.2.lastSeen ≤ timeout ∧ ∃ pos ∈ kv.2.positions, d = nrm (p - pos.position) := by
  intro l
  induction l with
  | nil => intro i j d; simp [candidates]
  | cons kv rest ih =>
    intro i j d
    obtain ⟨k, tr⟩ := kv
    unfold candidates
    rw [List.mem_append, ih]
    constructor
    · rintro (h | ⟨h1, kv, h2, h3⟩)
      · split_ifs at h with hc
        · obtain ⟨pos, hpos, he⟩ := List.mem_map.1 h
          simp only [Prod.mk.injEq] at he
          obtain ⟨rfl, rfl⟩ := he
          exact ⟨le_rfl, (k, tr), by simp, hc.1, not_lt.1 hc.2, pos, hpos, rfl⟩
        · simp at h
      · refine ⟨by omega, kv, ?_, h3⟩
        have : j - i = (j - (i + 1)) + 1 := by omega
        rw [this, List.getElem?_cons_succ]
        exact h2
    · rintro ⟨h1, kv, h2, h3, h4, pos, hpos, hd⟩
      rcases Nat.eq_or_lt_of_le h1 with rfl | hlt
      · left
        simp only [Nat.sub_self, List.getElem?_cons_zero, Option.some.injEq] at h2
        subst h2
        rw [if_pos ⟨h3, not_lt.2 h4⟩]
        exact List.mem_map.2 ⟨pos, hpos, by rw [hd]⟩
      · right
        refine ⟨by omega, kv, ?_, h3, h4, pos, hpos, hd⟩
        have : j - i = (j - (i + 1)) + 1 := by omega
        rw [this, List.getElem?_cons_succ] at h2
        exact h2

/-- The candidates are listed by increasing trajectory index. -/
theorem candidates_sorted (nrm : Point2f → ℚ) (timeout : ℚ) (p : Point2f) (t : ℚ) :
    ∀ (l : List (String × EnemyTrajectory)) (i : Nat),
      (candidates nrm timeout p t i l).Pairwise (fun a b => a.1 ≤ b.1) := by
  intro l
  induction l with
  | nil => intro i; simp [candidates]
  | cons kv rest ih =>
    intro i
    obtain ⟨k, tr⟩ := kv
    unfold candidates
    rw [List.pairwise_append]
    refine ⟨?_, ih (i + 1), ?_⟩
    · split_ifs
      · rw [List.pairwise_map]
        exact List.pairwise_of_forall (fun _ _ => le_rfl)
      · exact List.Pairwise.nil
    · intro a ha b hb
      have h1 : a.1 = i := by
        split_ifs at ha
        · obtain ⟨pos, _, rfl⟩ := List.mem_map.1 ha
          rfl
        · simp at ha
      have h2 := ((mem_candidates nrm timeout p t rest (i + 1) b.1 b.2).1 hb).1
      omega

/-- The tracker that `FindEnemyTrajectory` returns. -/
theorem find_fst (nrm : Point2f → ℚ) (s : PositionTracker) (p : Point2f) (t : ℚ) :
    (FindEnemyTrajectory nrm s p t).1 =
      { s with enemyTrajectories :=
          s.enemyTrajectories.map (deactivateTimedOut s.trajectoryTimeout t) } := by
  simp [FindEnemyTrajectory, findLoop_fst]

/-- The two outcomes of `FindEnemyTrajectory`. -/
theorem find_result (nrm : Point2f → ℚ) (s : PositionTracker) (p : Point2f) (t : ℚ) :
    ((FindEnemyTrajectory nrm s p t).2 = none ∧
      ∀ c ∈ candidates nrm s.trajectoryTimeout p t 0 s.enemyTrajectories,
        s.maxTrackingDistance ≤ c.2) ∨
    (∃ pre i d post,
      candidates nrm s.trajectoryTimeout p t 0 s.enemyTrajectories = pre ++ (i, d) :: post ∧
      (FindEnemyTrajectory nrm s p t).2 = some i ∧ d < s.maxTrackingDistance ∧
      (∀ c ∈ pre, d < c.2) ∧ (∀ c ∈ post, d ≤ c.2)) := by
  have h2 : (FindEnemyTrajectory nrm s p t).2 =
      ((candidates nrm s.trajectoryTimeout p t 0 s.enemyTrajectories).foldl pick
        (none, s.maxTrackingDistance)).1 := by
    simp [FindEnemyTrajectory, findLoop_snd]
  rcases foldl_pick_spec (candidates nrm s.trajectoryTimeout p t 0 s.enemyTrajectories)
    (none, s.maxTrackingDistance) with ⟨h, hall⟩ | ⟨pre, i, d, post, hc, hr, hd, hpre, hpost⟩
  · left
    exact ⟨by rw [h2, h], hall⟩
  · right
    exact ⟨pre, i, d, post, hc, by rw [h2, hr], hd, hpre, hpost⟩

/-- A trajectory that has not timed out is left alone. -/
theorem deactivateTimedOut_of_live (timeout t : ℚ) (kv : String × EnemyTrajectory)
    (h : t - kv.2.lastSeen ≤ timeout) : deactivateTimedOut timeout t kv = kv := by
  unfold deactivateTimedOut
  rw [if_neg]
  rintro ⟨_, h2⟩
  exact absurd h (not_le.2 h2)

/-- Deactivation keeps the key. -/
theorem deactivateTimedOut_fst (timeout t : ℚ) (kv : String × EnemyTrajectory) :
    (deactivateTimedOut timeout t kv).1 = kv.1 := by
  unfold deactivateTimedOut
  split_ifs <;> rfl

/-- Deactivation keeps the positions. -/
theorem deactivateTimedOut_positions (timeout t : ℚ) (kv : String × EnemyTrajectory) :
    (deactivateTimedOut timeout t kv).2.positions = kv.2.positions := by
  unfold deactivateTimedOut
  split_ifs <;> rfl

/-- Full description of a successful search. -/
theorem find_some_spec (nrm : Point2f → ℚ) (s : PositionTracker) (p : Point2f) (t : ℚ) (i : Nat)
    (h : (FindEnemyTrajectory nrm s p t).2 = some i) :
    ∃ kv, s.enemyTrajectories[i]? = some kv ∧
      (FindEnemyTrajectory nrm s p t).1.enemyTrajectories[i]? = some kv ∧
      kv.2.isActive = true ∧ t - kv.2.lastSeen ≤ s.trajectoryTimeout ∧
      ∃ pos ∈ kv.2.positions, nrm (p - pos.position) < s.maxTrackingDistance ∧
        ∀ (j : Nat) (kv1 : String × EnemyTrajectory), s.enemyTrajectories[j]? = some kv1 →
          kv1.2.isActive = true → t - kv1.2.lastSeen ≤ s.trajectoryTimeout →
          ∀ pos1 ∈ kv1.2.positions,
            nrm (p - pos.position) ≤ nrm (p - pos1.position) ∧
            (j < i → nrm (p - pos.position) < nrm (p - pos1.position)) := by
  rcases find_result nrm s p t with ⟨hn, _⟩ | ⟨pre, i1, d, post, hc, hr, hd, hpre, hpost⟩
  · rw [hn] at h; cases h
  · rw [hr] at h
    cases h
    have hmem : (i, d) ∈ candidates nrm s.trajectoryTimeout p t 0 s.enemyTrajectories := by
      rw [hc]; simp
    obtain ⟨-, kv, hkv, hact, hlive, pos, hpos, hdp⟩ :=
      (mem_candidates nrm s.trajectoryTimeout p t _ 0 i d).1 hmem
    rw [Nat.sub_zero] at hkv
    refine ⟨kv, hkv, ?_, hact, hlive, pos, hpos, by rw [← hdp]; exact hd, ?_⟩
    · rw [find_fst]
      simp only [List.getElem?_map, hkv, Option.map_some']
      rw [deactivateTimedOut_of_live _ _ _ hlive]
    · intro j kv1 hkv1 hact1 hlive1 pos1 hpos1
      have hmem1 : (j, nrm (p - pos1.position)) ∈
          candidates nrm s.trajectoryTimeout p t 0 s.enemyTrajectories :=
        (mem_candidates nrm s.trajectoryTimeout p t _ 0 j _).2
          ⟨Nat.zero_le _, kv1, by simpa using hkv1, hact1, hlive1, pos1, hpos1, rfl⟩
      have hsorted := candidates_sorted nrm s.trajectoryTimeout p t s.enemyTrajectories 0
      rw [hc, List.pairwise_append] at hsorted
      have hpostidx := (List.pairwise_cons.1 hsorted.2.1).1
      rw [hc, List.mem_append, List.mem_cons] at hmem1
      rw [← hdp]
      rcases hmem1 with h1 | h1 | h1
      · have := hpre _ h1
        exact ⟨le_of_lt this, fun _ => this⟩
      · simp only [Prod.mk.injEq] at h1
        refine ⟨by rw [h1.2], fun hji => ?_⟩
        omega
      · have h2 := hpost _ h1
        have h3 := hpostidx _ h1
        simp only at h2 h3
        refine ⟨h2, fun hji => ?_⟩
        omega

/-- When `FindEnemyTrajectory` finds a trajectory. -/
theorem find_isSome_iff (nrm : Point2f → ℚ) (s : PositionTracker) (p : Point2f) (t : ℚ) :
    (∃ i, (FindEnemyTrajectory nrm s p t).2 = some i) ↔
      ∃ kv ∈ s.enemyTrajectories, kv.2.isActive = true ∧
        t - kv.2.lastSeen ≤ s.trajectoryTimeout ∧
        ∃ pos ∈ kv.2.positions, nrm (p - pos.position) < s.maxTrackingDistance := by
  constructor
  · rintro ⟨i, hi⟩
    obtain ⟨kv, hkv, -, hact, hlive, pos, hpos, hd, -⟩ := find_some_spec nrm s p t i hi
    exact ⟨kv, List.getElem?_mem hkv, hact, hlive, pos, hpos, hd⟩
  · rintro ⟨kv, hmem, hact, hlive, pos, hpos, hd⟩
    rcases find_result nrm s p t with ⟨-, hall⟩ | ⟨pre, i, d, post, -, hr, -⟩
    · obtain ⟨j, hj⟩ := List.getElem?_of_mem hmem
      have := hall (j, nrm (p - pos.position))
        ((mem_candidates nrm s.trajectoryTimeout p t _ 0 j _).2
          ⟨Nat.zero_le _, kv, by simpa using hj, hact, hlive, pos, hpos, rfl⟩)
      exact absurd hd (not_lt.2 this)
    · exact ⟨i, hr⟩

/-- The loop body of `UpdateEnemyPositions` when a trajectory is found. -/
theorem processDetection_some (nrm : Point2f → ℚ) (t : ℚ) (s : PositionTracker)
    (d : EnemyDetection) (i : Nat) (h : (FindEnemyTrajectory nrm s d.center t).2 = some i) :
    processDetection nrm t s d =
      { (FindEnemyTrajectory nrm s d.center t).1 with
        enemyTrajectories :=
          (FindEnemyTrajectory nrm s d.center t).1.enemyTrajectories.modify
            (fun kv => (kv.1, UpdateTrajectory kv.2 (observed d t kv.2.enemyId))) i } := by
  unfold processDetection
  simp only [h, observed]

/-- The loop body of `UpdateEnemyPositions` when no trajectory is found. -/
theorem processDetection_none (nrm : Point2f → ℚ) (t : ℚ) (s : PositionTracker)
    (d : EnemyDetection) (h : (FindEnemyTrajectory nrm s d.center t).2 = none) :
    processDetection nrm t s d =
      { (FindEnemyTrajectory nrm s d.center t).1 with
        nextEnemyId := s.nextEnemyId + 1,
        enemyTrajectories :=
          mapInsert ("enemy_" ++ toString s.nextEnemyId)
            { enemyId := "enemy_" ++ toString s.nextEnemyId,
              positions := [observed d t ("enemy_" ++ toString s.nextEnemyId)],
              firstSeen := t, lastSeen := t, isActive := true,
              predictedNextPosition := ⟨0, 0⟩, movementSpeed := 0,
              movementPattern := "stationary" }
            (FindEnemyTrajectory nrm s d.center t).1.enemyTrajectories } := by
  unfold processDetection
  simp only [h, observed, AssignEnemyId, find_fst]

/-- The function `UpdateTrajectory` prunes the old positions and puts the new one last. -/
theorem updateTrajectory_positions (tr : EnemyTrajectory) (pos : EnemyPosition) :
    (UpdateTrajectory tr pos).positions =
      tr.positions.filter (fun q => !decide (q.timestamp < pos.timestamp - 10)) ++ [pos] := by
  unfold UpdateTrajectory
  simp only [List.filter_append]
  congr 1
  simp [List.filter_cons]

/-- A matched detection is appended to the trajectory found, and to no other. -/
theorem processDetection_some_spec (nrm : Point2f → ℚ) (t : ℚ) (s : PositionTracker)
    (d : EnemyDetection) (i : Nat) (h : (FindEnemyTrajectory nrm s d.center t).2 = some i) :
    ∃ kv, s.enemyTrajectories[i]? = some kv ∧
      (processDetection nrm t s d).enemyTrajectories[i]?
        = some (kv.1, UpdateTrajectory kv.2 (observed d t kv.2.enemyId)) ∧
      (UpdateTrajectory kv.2 (observed d t kv.2.enemyId)).positions =
        kv.2.positions.filter (fun q => !decide (q.timestamp < t - 10))
          ++ [observed d t kv.2.enemyId] ∧
      (∀ (j : Nat) (kv1 : String × EnemyTrajectory), j ≠ i →
        s.enemyTrajectories[j]? = some kv1 →
        ∃ kv2, (processDetection nrm t s d).enemyTrajectories[j]? = some kv2 ∧
          kv2.1 = kv1.1 ∧ kv2.2.positions = kv1.2.positions) ∧
      (processDetection nrm t s d).enemyTrajectories.length = s.enemyTrajectories.length ∧
      (processDetection nrm t s d).nextEnemyId = s.nextEnemyId := by
  obtain ⟨kv, hkv, hkv1, -⟩ := find_some_spec nrm s d.center t i h
  refine ⟨kv, hkv, ?_, ?_, ?_, ?_, ?_⟩
  · rw [processDetection_some nrm t s d i h]
    simp only [List.getElem?_modify_eq, hkv1]
    rfl
  · rw [updateTrajectory_positions]
    rfl
  · intro j kv1 hji hkv1'
    rw [processDetection_some nrm t s d i h]
    simp only
    rw [List.getElem?_modify_ne _ _ (Ne.symm hji), find_fst]
    simp only [List.getElem?_map, hkv1', Option.map_some']
    exact ⟨_, rfl, deactivateTimedOut_fst _ _ _, deactivateTimedOut_positions _ _ _⟩
  · rw [processDetection_some nrm t s d i h]
    simp [find_fst]
  · rw [processDetection_some nrm t s d i h]
    simp [find_fst]

/-- The function `PredictNextPosition` keeps the positions. -/
theorem predictNextPosition_positions (tr : EnemyTrajectory) :
    (PredictNextPosition tr).positions = tr.positions := by
  unfold PredictNextPosition
  split
  · rfl
  · rfl
  · simp only
    split_ifs <;> rfl

/-- The function `CalculateMovementSpeed` keeps the positions. -/
theorem calculateMovementSpeed_positions (nrm : Point2f → ℚ) (tr : EnemyTrajectory) :
    (CalculateMovementSpeed nrm tr).positions = tr.positions := by
  unfold CalculateMovementSpeed
  split_ifs <;> rfl

/-- The second loop of `UpdateEnemyPositions` keeps the positions. -/
theorem refreshTrajectory_positions (nrm : Point2f → ℚ) (s : PositionTracker)
    (tr : EnemyTrajectory) : (refreshTrajectory nrm s tr).positions = tr.positions := by
  unfold refreshTrajectory
  split_ifs
  · simp only [predictNextPosition_positions, calculateMovementSpeed_positions]
  · rfl

/-- The second loop of `UpdateEnemyPositions` skips inactive trajectories. -/
theorem refreshTrajectory_of_inactive (nrm : Point2f → ℚ) (s : PositionTracker)
    (tr : EnemyTrajectory) (h : tr.isActive = false) : refreshTrajectory nrm s tr = tr := by
  unfold refreshTrajectory
  simp [h]

/-- The function `CleanupOldTrajectories` keeps keys, positions and ids, entry by entry. -/
theorem cleanup_getElem (s : PositionTracker) (t : ℚ) (j : Nat) (kv : String × EnemyTrajectory)
    (h : s.enemyTrajectories[j]? = some kv) :
    ∃ kv1, (CleanupOldTrajectories s t).enemyTrajectories[j]? = some kv1 ∧ kv1.1 = kv.1 ∧
      kv1.2.positions = kv.2.positions ∧ kv1.2.enemyId = kv.2.enemyId := by
  unfold CleanupOldTrajectories
  simp only [List.getElem?_map, h, Option.map_some']
  refine ⟨_, rfl, ?_⟩
  split_ifs <;> exact ⟨rfl, rfl, rfl⟩

/-- A frame with one matched detection appends it to the trajectory found. -/
theorem update_single_spec (nrm : Point2f → ℚ) (s : PositionTracker) (t : ℚ)
    (d : EnemyDetection) (i : Nat)
    (h : (FindEnemyTrajectory nrm (CleanupOldTrajectories s t) d.center t).2 = some i) :
    ∃ kv, s.enemyTrajectories[i]? = some kv ∧
      (∃ kv2, (UpdateEnemyPositions nrm s [d] t).enemyTrajectories[i]? = some kv2 ∧
        kv2.1 = kv.1 ∧
        kv2.2.positions = kv.2.positions.filter (fun q => !decide (q.timestamp < t - 10))
          ++ [observed d t kv.2.enemyId]) ∧
      (∀ (j : Nat) (kv1 : String × EnemyTrajectory), j ≠ i →
        s.enemyTrajectories[j]? = some kv1 →
        ∃ kv3, (UpdateEnemyPositions nrm s [d] t).enemyTrajectories[j]? = some kv3 ∧
          kv3.1 = kv1.1 ∧ kv3.2.positions = kv1.2.positions) ∧
      (UpdateEnemyPositions nrm s [d] t).enemyTrajectories.length = s.enemyTrajectories.length := by
  obtain ⟨kvc, hkvc, hres, hpos, hothers, hlen, -⟩ :=
    processDetection_some_spec nrm t (CleanupOldTrajectories s t) d i h
  have hupd : (UpdateEnemyPositions nrm s [d] t).enemyTrajectories =
      (processDetection nrm t (CleanupOldTrajectories s t) d).enemyTrajectories.map
        (fun kv => (kv.1, refreshTrajectory nrm
          (processDetection nrm t (CleanupOldTrajectories s t) d) kv.2)) := rfl
  have hi : i < s.enemyTrajectories.length := by
    have := (List.getElem?_eq_some.1 hkvc).1
    simpa [CleanupOldTrajectories] using this
  obtain ⟨kv, hkv⟩ : ∃ kv, s.enemyTrajectories[i]? = some kv :=
    ⟨_, List.getElem?_eq_getElem hi⟩
  obtain ⟨kvc1, h1, h2, h3, h4⟩ := cleanup_getElem s t i kv hkv
  rw [hkvc] at h1
  cases h1
  refine ⟨kv, hkv, ?_, ?_, ?_⟩
  · refine ⟨(kvc.1, refreshTrajectory nrm
        (processDetection nrm t (CleanupOldTrajectories s t) d)
        (UpdateTrajectory kvc.2 (observed d t kvc.2.enemyId))),
      by rw [hupd, List.getElem?_map, hres]; rfl, h2, ?_⟩
    simp only [refreshTrajectory_positions]
    rw [hpos, h3, h4]
  · intro j kv1 hji hkv1
    obtain ⟨kvd, g1, g2, g3, -⟩ := cleanup_getElem s t j kv1 hkv1
    obtain ⟨kv2, e1, e2, e3⟩ := hothers j kvd hji g1
    refine ⟨(kv2.1, refreshTrajectory nrm
        (processDetection nrm t (CleanupOldTrajectories s t) d) kv2.2),
      by rw [hupd, List.getElem?_map, e1]; rfl, by rw [e2, g2], ?_⟩
    simp only [refreshTrajectory_positions]
    rw [e3, g3]
  · rw [hupd, List.length_map, hlen]
    simp [CleanupOldTrajectories]

/-- C8.  (1) `FindEnemyTrajectory p t` returns a trajectory if and only if some retained
position of some active trajectory with `t - lastSeen ≤ trajectoryTimeout` lies at distance
strictly less than `maxTrackingDistance` from `p`.  (2) The trajectory returned (index `i`)
is active, is left unchanged by the call, and holds a position whose distance to `p` is
minimal over all retained positions of all such trajectories, and strictly smaller than
the distance of every position of a trajectory met earlier in iteration order.  (3) The
loop body of `UpdateEnemyPositions` appends the observation to exactly that trajectory
(after pruning positions older than 10 s, the observation is its last position), keeps
key and positions of every other trajectory and creates none; (4) so does
`UpdateEnemyPositions` on a frame with that single observation.  Distances are measured
with an arbitrary `cv::norm`.  Examples with the Euclidean norm, trajectories at (0,0) and
(300,0) and `maxTrackingDistance = 200`: the points (30,0) and (250,0) find the first and
the second trajectory, the point (150,0), at distance 150 from both, finds the first, and
the point (150,250) finds none. -/
theorem C8_find_trajectory (nrm : Point2f → ℚ) (s : PositionTracker) (p : Point2f) (t : ℚ) :
    ((∃ i, (FindEnemyTrajectory nrm s p t).2 = some i) ↔
      ∃ kv ∈ s.enemyTrajectories, kv.2.isActive = true ∧
        t - kv.2.lastSeen ≤ s.trajectoryTimeout ∧
        ∃ pos ∈ kv.2.positions, nrm (p - pos.position) < s.maxTrackingDistance) ∧
    (∀ i, (FindEnemyTrajectory nrm s p t).2 = some i →
      ∃ kv, s.enemyTrajectories[i]? = some kv ∧
        (FindEnemyTrajectory nrm s p t).1.enemyTrajectories[i]? = some kv ∧
        kv.2.isActive = true ∧ t - kv.2.lastSeen ≤ s.trajectoryTimeout ∧
        ∃ pos ∈ kv.2.positions, nrm (p - pos.position) < s.maxTrackingDistance ∧
          ∀ (j : Nat) (kv1 : String × EnemyTrajectory), s.enemyTrajectories[j]? = some kv1 →
            kv1.2.isActive = true → t - kv1.2.lastSeen ≤ s.trajectoryTimeout →
            ∀ pos1 ∈ kv1.2.positions,
              nrm (p - pos.position) ≤ nrm (p - pos1.position) ∧
              (j < i → nrm (p - pos.position) < nrm (p - pos1.position))) ∧
    (∀ (d : EnemyDetection) (i : Nat), (FindEnemyTrajectory nrm s d.center t).2 = some i →
      ∃ kv, s.enemyTrajectories[i]? = some kv ∧
        (processDetection nrm t s d).enemyTrajectories[i]?
          = some (kv.1, UpdateTrajectory kv.2 (observed d t kv.2.enemyId)) ∧
        (UpdateTrajectory kv.2 (observed d t kv.2.enemyId)).positions =
          kv.2.positions.filter (fun q => !decide (q.timestamp < t - 10))
            ++ [observed d t kv.2.enemyId] ∧
        (∀ (j : Nat) (kv1 : String × EnemyTrajectory), j ≠ i →
          s.enemyTrajectories[j]? = some kv1 →
          ∃ kv2, (processDetection nrm t s d).enemyTrajectories[j]? = some kv2 ∧
            kv2.1 = kv1.1 ∧ kv2.2.positions = kv1.2.positions) ∧
        (processDetection nrm t s d).enemyTrajectories.length = s.enemyTrajectories.length ∧
        (processDetection nrm t s d).nextEnemyId = s.nextEnemyId) ∧
    (∀ (d : EnemyDetection) (i : Nat),
      (FindEnemyTrajectory nrm (CleanupOldTrajectories s t) d.center t).2 = some i →
      ∃ kv, s.enemyTrajectories[i]? = some kv ∧
        (∃ kv2, (UpdateEnemyPositions nrm s [d] t).enemyTrajectories[i]? = some kv2 ∧
          kv2.1 = kv.1 ∧
          kv2.2.positions = kv.2.positions.filter (fun q => !decide (q.timestamp < t - 10))
            ++ [observed d t kv.2.enemyId]) ∧
        (∀ (j : Nat) (kv1 : String × EnemyTrajectory), j ≠ i →
          s.enemyTrajectories[j]? = some kv1 →
          ∃ kv3, (UpdateEnemyPositions nrm s [d] t).enemyTrajectories[j]? = some kv3 ∧
            kv3.1 = kv1.1 ∧ kv3.2.positions = kv1.2.positions) ∧
        (UpdateEnemyPositions nrm s [d] t).enemyTrajectories.length
          = s.enemyTrajectories.length) ∧
    (FindEnemyTrajectory cvNorm exTracker3 ⟨30, 0⟩ 1).2 = some 0 ∧
    (FindEnemyTrajectory cvNorm exTracker3 ⟨250, 0⟩ 1).2 = some 1 ∧
    (FindEnemyTrajectory cvNorm exTracker3 ⟨150, 0⟩ 1).2 = some 0 ∧
    (FindEnemyTrajectory cvNorm exTracker3 ⟨150, 250⟩ 1).2 = none :=
  ⟨find_isSome_iff nrm s p t, find_some_spec nrm s p t,
    processDetection_some_spec nrm t s, update_single_spec nrm s t,
    by decide!, by decide!, by decide!, by decide!⟩

/-- The function `Reset` establishes the invariant. -/
theorem idsWellFormed_reset (s : PositionTracker) : IdsWellFormed (Reset s) := by
  refine ⟨by simp [Reset], ?_, ?_⟩ <;> simp [Reset]

/-- A change of the trajectories that keeps the keys keeps the invariant. -/
theorem idsWellFormed_of_keys (s s1 : PositionTracker) (h : IdsWellFormed s)
    (hn : s1.nextEnemyId = s.nextEnemyId)
    (hk : s1.enemyTrajectories.map Prod.fst = s.enemyTrajectories.map Prod.fst) :
    IdsWellFormed s1 := by
  obtain ⟨h1, h2, h3⟩ := h
  refine ⟨by rw [hn]; exact h1, ?_, by rw [hk]; exact h3⟩
  intro kv hkv
  have : kv.1 ∈ s1.enemyTrajectories.map Prod.fst := List.mem_map_of_mem _ hkv
  rw [hk] at this
  obtain ⟨kv0, hkv0, he⟩ := List.mem_map.1 this
  obtain ⟨k, g1, g2, g3⟩ := h2 kv0 hkv0
  exact ⟨k, g1, by rw [hn]; exact g2, by rw [← he, g3]⟩

/-- Mapping a key-preserving function keeps the list of keys. -/
theorem map_fst_map_of_fst {V : Type} (f : String × V → String × V) (hf : ∀ kv, (f kv).1 = kv.1)
    (l : List (String × V)) : (l.map f).map Prod.fst = l.map Prod.fst := by
  rw [List.map_map]
  apply List.map_congr_left
  intro kv _
  exact hf kv

/-- Modifying one entry by a key-preserving function keeps the list of keys. -/
theorem map_fst_modify_of_fst {V : Type} (f : String × V → String × V)
    (hf : ∀ kv, (f kv).1 = kv.1) (i : Nat) (l : List (String × V)) :
    (l.modify f i).map Prod.fst = l.map Prod.fst := by
  apply List.ext_getElem?
  intro j
  simp only [List.getElem?_map, List.getElem?_modify]
  cases l[j]? with
  | none => simp
  | some kv =>
    by_cases hij : i = j
    · simp [hij, hf kv]
    · simp [hij]

/-- The function `CleanupOldTrajectories` keeps the keys. -/
theorem cleanup_keys (s : PositionTracker) (t : ℚ) :
    (CleanupOldTrajectories s t).enemyTrajectories.map Prod.fst
      = s.enemyTrajectories.map Prod.fst := by
  unfold CleanupOldTrajectories
  apply map_fst_map_of_fst
  intro kv
  split_ifs <;> rfl

/-- The function `FindEnemyTrajectory` keeps the keys. -/
theorem find_keys (nrm : Point2f → ℚ) (s : PositionTracker) (p : Point2f) (t : ℚ) :
    (FindEnemyTrajectory nrm s p t).1.enemyTrajectories.map Prod.fst
      = s.enemyTrajectories.map Prod.fst := by
  rw [find_fst]
  exact map_fst_map_of_fst _ (deactivateTimedOut_fst _ _) _

/-- Nothing is found when every position of every active trajectory is far away. -/
theorem find_none_of_far (nrm : Point2f → ℚ) (s : PositionTracker) (p : Point2f) (t : ℚ)
    (hfar : ∀ kv ∈ s.enemyTrajectories, kv.2.isActive = true →
      ∀ pos ∈ kv.2.positions, s.maxTrackingDistance ≤ nrm (p - pos.position)) :
    (FindEnemyTrajectory nrm s p t).2 = none := by
  cases h : (FindEnemyTrajectory nrm s p t).2 with
  | none => rfl
  | some i =>
    obtain ⟨kv, hmem, hact, -, pos, hpos, hd⟩ := (find_isSome_iff nrm s p t).1 ⟨i, h⟩
    exact absurd hd (not_lt.2 (hfar kv hmem hact pos hpos))

/-- The next id is not a key of the map. -/
theorem fresh_key (s : PositionTracker) (h : IdsWellFormed s) :
    "enemy_" ++ toString s.nextEnemyId ∉ s.enemyTrajectories.map Prod.fst := by
  intro hmem
  obtain ⟨kv, hkv, he⟩ := List.mem_map.1 hmem
  obtain ⟨k, g1, g2, g3⟩ := h.2.1 kv hkv
  rw [g3] at he
  have := enemyId_inj k s.nextEnemyId (by omega) (by have := h.1; omega) he
  omega

/-- The loop body of `UpdateEnemyPositions` keeps the invariant. -/
theorem idsWellFormed_processDetection (nrm : Point2f → ℚ) (t : ℚ) (s : PositionTracker)
    (d : EnemyDetection) (h : IdsWellFormed s) : IdsWellFormed (processDetection nrm t s d) := by
  cases hf : (FindEnemyTrajectory nrm s d.center t).2 with
  | some i =>
    rw [processDetection_some nrm t s d i hf]
    apply idsWellFormed_of_keys s _ h
    · simp [find_fst]
    · simp only
      rw [map_fst_modify_of_fst
        (fun kv => (kv.1, UpdateTrajectory kv.2 (observed d t kv.2.enemyId))) (fun _ => rfl),
        find_keys]
  | none =>
    rw [processDetection_none nrm t s d hf]
    have hfresh := fresh_key s h
    rw [← find_keys nrm s d.center t] at hfresh
    have hperm := mapInsert_perm ("enemy_" ++ toString s.nextEnemyId)
      ({ enemyId := "enemy_" ++ toString s.nextEnemyId,
         positions := [observed d t ("enemy_" ++ toString s.nextEnemyId)],
         firstSeen := t, lastSeen := t, isActive := true,
         predictedNextPosition := ⟨0, 0⟩, movementSpeed := 0,
         movementPattern := "stationary" } : EnemyTrajectory) _ hfresh
    obtain ⟨h1, h2, h3⟩ := h
    refine ⟨by simp only; omega, ?_, ?_⟩
    · intro kv hkv
      simp only at hkv
      rcases List.mem_cons.1 (hperm.mem_iff.1 hkv) with rfl | hkv
      · exact ⟨s.nextEnemyId, h1, by simp, rfl⟩
      · have : kv.1 ∈ (FindEnemyTrajectory nrm s d.center t).1.enemyTrajectories.map Prod.fst :=
          List.mem_map_of_mem _ hkv
        rw [find_keys] at this
        obtain ⟨kv0, hkv0, he⟩ := List.mem_map.1 this
        obtain ⟨k, g1, g2, g3⟩ := h2 kv0 hkv0
        exact ⟨k, g1, by simp only; omega, by rw [← he, g3]⟩
    · simp only
      rw [(hperm.map Prod.fst).nodup_iff]
      simp only [List.map_cons, List.nodup_cons]
      exact ⟨hfresh, by rw [find_keys]; exact h3⟩

/-- The first loop of `UpdateEnemyPositions` keeps the invariant. -/
theorem foldl_processDetection_inv (nrm : Point2f → ℚ) (t : ℚ) (obs : List EnemyDetection) :
    ∀ s, IdsWellFormed s → IdsWellFormed (obs.foldl (processDetection nrm t) s) := by
  induction obs with
  | nil => intro s h; exact h
  | cons d rest ih =>
    intro s h
    exact ih _ (idsWellFormed_processDetection nrm t s d h)

/-- The function `UpdateEnemyPositions` keeps the invariant. -/
theorem idsWellFormed_update (nrm : Point2f → ℚ) (s : PositionTracker)
    (obs : List EnemyDetection) (t : ℚ) (h : IdsWellFormed s) :
    IdsWellFormed (UpdateEnemyPositions nrm s obs t) := by
  have h1 : IdsWellFormed (CleanupOldTrajectories s t) :=
    idsWellFormed_of_keys s _ h rfl (cleanup_keys s t)
  have h2 := foldl_processDetection_inv nrm t obs _ h1
  apply idsWellFormed_of_keys _ _ h2
  · rfl
  · exact map_fst_map_of_fst
      (fun kv => (kv.1, refreshTrajectory nrm
        (obs.foldl (processDetection nrm t) (CleanupOldTrajectories s t)) kv.2))
      (fun _ => rfl) _

/-- Every reachable tracker satisfies the invariant. -/
theorem Reachable.idsWellFormed {nrm : Point2f → ℚ} {s : PositionTracker}
    (h : Reachable nrm s) : IdsWellFormed s := by
  induction h with
  | reset s => exact idsWellFormed_reset s
  | update s obs t _ ih => exact idsWellFormed_update nrm s obs t ih

/-- Deactivation never activates. -/
theorem deactivateTimedOut_active (timeout t : ℚ) (kv : String × EnemyTrajectory)
    (h : (deactivateTimedOut timeout t kv).2.isActive = true) : kv.2.isActive = true := by
  unfold deactivateTimedOut at h
  split_ifs at h with hc
  exact h

/-- An inactive trajectory is left alone. -/
theorem deactivateTimedOut_of_inactive (timeout t : ℚ) (kv : String × EnemyTrajectory)
    (h : kv.2.isActive = false) : deactivateTimedOut timeout t kv = kv := by
  unfold deactivateTimedOut
  simp [h]

/-- The effect of a detection that matches no trajectory, on the list of entries. -/
theorem processDetection_none_perm (nrm : Point2f → ℚ) (t : ℚ) (s : PositionTracker)
    (d : EnemyDetection) (h : IdsWellFormed s)
    (hf : (FindEnemyTrajectory nrm s d.center t).2 = none) :
    (processDetection nrm t s d).enemyTrajectories.Perm
      (("enemy_" ++ toString s.nextEnemyId,
        { enemyId := "enemy_" ++ toString s.nextEnemyId,
          positions := [observed d t ("enemy_" ++ toString s.nextEnemyId)],
          firstSeen := t, lastSeen := t, isActive := true,
          predictedNextPosition := ⟨0, 0⟩, movementSpeed := 0,
          movementPattern := "stationary" })
        :: s.enemyTrajectories.map (deactivateTimedOut s.trajectoryTimeout t)) ∧
    (processDetection nrm t s d).nextEnemyId = s.nextEnemyId + 1 ∧
    (processDetection nrm t s d).maxTrackingDistance = s.maxTrackingDistance ∧
    (processDetection nrm t s d).trajectoryTimeout = s.trajectoryTimeout := by
  rw [processDetection_none nrm t s d hf]
  have hfresh := fresh_key s h
  rw [← find_keys nrm s d.center t] at hfresh
  refine ⟨?_, rfl, ?_, ?_⟩
  · have := mapInsert_perm ("enemy_" ++ toString s.nextEnemyId)
      ({ enemyId := "enemy_" ++ toString s.nextEnemyId,
         positions := [observed d t ("enemy_" ++ toString s.nextEnemyId)],
         firstSeen := t, lastSeen := t, isActive := true,
         predictedNextPosition := ⟨0, 0⟩, movementSpeed := 0,
         movementPattern := "stationary" } : EnemyTrajectory) _ hfresh
    simpa [find_fst] using this
  · rw [find_fst]
  · rw [find_fst]

/-- The first loop of `UpdateEnemyPositions` on observations that are far from every
active position and from each other: one new trajectory per observation. -/
theorem foldl_far_spec (nrm : Point2f → ℚ) (t : ℚ) (obs : List EnemyDetection) :
    ∀ s : PositionTracker, IdsWellFormed s →
    (∀ d ∈ obs, ∀ kv ∈ s.enemyTrajectories, kv.2.isActive = true →
      ∀ pos ∈ kv.2.positions, s.maxTrackingDistance ≤ nrm (d.center - pos.position)) →
    obs.Pairwise (fun d1 d2 => s.maxTrackingDistance ≤ nrm (d2.center - d1.center)) →
    (obs.foldl (processDetection nrm t) s).nextEnemyId = s.nextEnemyId + obs.length ∧
    (obs.foldl (processDetection nrm t) s).enemyTrajectories.length
      = s.enemyTrajectories.length + obs.length ∧
    (∀ kv ∈ s.enemyTrajectories,
      ∃ kv1 ∈ (obs.foldl (processDetection nrm t) s).enemyTrajectories,
        kv1.1 = kv.1 ∧ kv1.2.positions = kv.2.positions) ∧
    (∀ (i : Nat) (d : EnemyDetection), obs[i]? = some d →
      ∃ kv1 ∈ (obs.foldl (processDetection nrm t) s).enemyTrajectories,
        kv1.1 = "enemy_" ++ toString (s.nextEnemyId + i) ∧
        kv1.2.positions = [observed d t kv1.1]) := by
  induction obs with
  | nil =>
    intro s _ _ _
    refine ⟨by simp, by simp, ?_, ?_⟩
    · intro kv hkv
      exact ⟨kv, hkv, rfl, rfl⟩
    · intro i d h
      simp at h
  | cons d rest ih =>
    intro s hinv hfar hpair
    have hf : (FindEnemyTrajectory nrm s d.center t).2 = none :=
      find_none_of_far nrm s d.center t (hfar d (List.mem_cons_self _ _))
    obtain ⟨hperm, hnext, hmax, -⟩ := processDetection_none_perm nrm t s d hinv hf
    have hinv1 := idsWellFormed_processDetection nrm t s d hinv
    rw [List.pairwise_cons] at hpair
    have hfar1 : ∀ d2 ∈ rest, ∀ kv ∈ (processDetection nrm t s d).enemyTrajectories,
        kv.2.isActive = true → ∀ pos ∈ kv.2.positions,
        (processDetection nrm t s d).maxTrackingDistance ≤ nrm (d2.center - pos.position) := by
      intro d2 hd2 kv hkv hact pos hpos
      rw [hmax]
      rcases List.mem_cons.1 (hperm.mem_iff.1 hkv) with rfl | hkv
      · simp only [List.mem_singleton] at hpos
        subst hpos
        exact hpair.1 d2 hd2
      · obtain ⟨kv0, hkv0, rfl⟩ := List.mem_map.1 hkv
        rw [deactivateTimedOut_positions] at hpos
        exact hfar d2 (List.mem_cons_of_mem _ hd2) kv0 hkv0
          (deactivateTimedOut_active _ _ _ hact) pos hpos
    have hpair1 : rest.Pairwise (fun d1 d2 =>
        (processDetection nrm t s d).maxTrackingDistance ≤ nrm (d2.center - d1.center)) := by
      rw [hmax]
      exact hpair.2
    obtain ⟨r1, r2, r3, r4⟩ := ih (processDetection nrm t s d) hinv1 hfar1 hpair1
    simp only [List.foldl_cons, List.length_cons]
    refine ⟨by rw [r1, hnext]; push_cast; ring, ?_, ?_, ?_⟩
    · rw [r2, hperm.length_eq]
      simp only [List.length_cons, List.length_map]
      omega
    · intro kv hkv
      have hmem : deactivateTimedOut s.trajectoryTimeout t kv ∈
          (processDetection nrm t s d).enemyTrajectories :=
        hperm.mem_iff.2 (List.mem_cons_of_mem _ (List.mem_map_of_mem _ hkv))
      obtain ⟨kv1, g1, g2, g3⟩ := r3 _ hmem
      exact ⟨kv1, g1, by rw [g2, deactivateTimedOut_fst],
        by rw [g3, deactivateTimedOut_positions]⟩
    · intro i d1 hi
      cases i with
      | zero =>
        simp only [List.getElem?_cons_zero, Option.some.injEq] at hi
        subst hi
        have hmem := hperm.mem_iff.2 (List.mem_cons_self _ _)
        obtain ⟨kv1, g1, g2, g3⟩ := r3 _ hmem
        refine ⟨kv1, g1, by simpa using g2, ?_⟩
        rw [g3, g2]
      | succ i =>
        simp only [List.getElem?_cons_succ] at hi
        obtain ⟨kv1, g1, g2, g3⟩ := r4 i d1 hi
        refine ⟨kv1, g1, ?_, g3⟩
        rw [g2, hnext]
        congr 2
        push_cast
        ring

/-- Every entry after `CleanupOldTrajectories` comes from an entry before it. -/
theorem cleanup_mem (s : PositionTracker) (t : ℚ) (kv1 : String × EnemyTrajectory)
    (h : kv1 ∈ (CleanupOldTrajectories s t).enemyTrajectories) :
    ∃ kv ∈ s.enemyTrajectories, kv1.1 = kv.1 ∧ kv1.2.positions = kv.2.positions ∧
      (kv1.2.isActive = true → kv.2.isActive = true) := by
  unfold CleanupOldTrajectories at h
  obtain ⟨kv, hkv, rfl⟩ := List.mem_map.1 h
  refine ⟨kv, hkv, ?_⟩
  split_ifs
  · exact ⟨rfl, rfl, fun h => by simp at h⟩
  · exact ⟨rfl, rfl, id⟩

/-- Every entry is still there after `CleanupOldTrajectories`. -/
theorem cleanup_mem_of_mem (s : PositionTracker) (t : ℚ) (kv : String × EnemyTrajectory)
    (h : kv ∈ s.enemyTrajectories) :
    ∃ kv1 ∈ (CleanupOldTrajectories s t).enemyTrajectories,
      kv1.1 = kv.1 ∧ kv1.2.positions = kv.2.positions := by
  unfold CleanupOldTrajectories
  refine ⟨_, List.mem_map_of_mem _ h, ?_⟩
  split_ifs <;> exact ⟨rfl, rfl⟩

/-- The function `CleanupOldTrajectories` leaves an inactive trajectory as it is. -/
theorem cleanup_mem_of_inactive (s : PositionTracker) (t : ℚ) (kv : String × EnemyTrajectory)
    (h : kv ∈ s.enemyTrajectories) (hin : kv.2.isActive = false) :
    kv ∈ (CleanupOldTrajectories s t).enemyTrajectories := by
  unfold CleanupOldTrajectories
  have := List.mem_map_of_mem (fun kv : String × EnemyTrajectory =>
    if t - kv.2.lastSeen > s.trajectoryTimeout then (kv.1, { kv.2 with isActive := false })
    else kv) h
  have he : (fun kv : String × EnemyTrajectory =>
      if t - kv.2.lastSeen > s.trajectoryTimeout then (kv.1, { kv.2 with isActive := false })
      else kv) kv = kv := by
    simp only
    split_ifs
    · obtain ⟨k, tr⟩ := kv
      cases tr
      simp only at hin
      simp [hin]
    · rfl
  rw [he] at this
  exact this

/-- The trajectories after `UpdateEnemyPositions`. -/
theorem update_trajectories (nrm : Point2f → ℚ) (s : PositionTracker)
    (obs : List EnemyDetection) (t : ℚ) :
    (UpdateEnemyPositions nrm s obs t).enemyTrajectories =
      (obs.foldl (processDetection nrm t) (CleanupOldTrajectories s t)).enemyTrajectories.map
        (fun kv => (kv.1, refreshTrajectory nrm
          (obs.foldl (processDetection nrm t) (CleanupOldTrajectories s t)) kv.2)) := rfl

/-- The counter after `UpdateEnemyPositions`. -/
theorem update_nextEnemyId (nrm : Point2f → ℚ) (s : PositionTracker)
    (obs : List EnemyDetection) (t : ℚ) :
    (UpdateEnemyPositions nrm s obs t).nextEnemyId =
      (obs.foldl (processDetection nrm t) (CleanupOldTrajectories s t)).nextEnemyId := rfl

/-- C9.  For every tracker state reached from `Reset` by `UpdateEnemyPositions` calls, a
frame in which every observation is farther than `maxTrackingDistance` from each earlier
observation of the frame and from every retained position of every active trajectory
creates exactly one new trajectory per observation: the counter and the number of
trajectories grow by the number of observations, every existing trajectory keeps its key
and positions (none is overwritten), observation number `i` gets the trajectory
`enemy_(nextEnemyId + i)` holding just that observation, these ids differ from every id
already in the tracker and are pairwise distinct.  The distance from an earlier observation
`d1` to a later one `d2` is `cv::norm (d2 - d1)`, as the code computes it. -/
theorem C9_new_ids (nrm : Point2f → ℚ) (s : PositionTracker) (hr : Reachable nrm s)
    (obs : List EnemyDetection) (t : ℚ)
    (hfar : ∀ d ∈ obs, ∀ kv ∈ s.enemyTrajectories, kv.2.isActive = true →
      ∀ pos ∈ kv.2.positions, s.maxTrackingDistance < nrm (d.center - pos.position))
    (hpair : obs.Pairwise (fun d1 d2 => s.maxTrackingDistance < nrm (d2.center - d1.center))) :
    (UpdateEnemyPositions nrm s obs t).nextEnemyId = s.nextEnemyId + obs.length ∧
    (UpdateEnemyPositions nrm s obs t).enemyTrajectories.length
      = s.enemyTrajectories.length + obs.length ∧
    (∀ kv ∈ s.enemyTrajectories,
      ∃ kv1 ∈ (UpdateEnemyPositions nrm s obs t).enemyTrajectories,
        kv1.1 = kv.1 ∧ kv1.2.positions = kv.2.positions) ∧
    (∀ (i : Nat) (d : EnemyDetection), obs[i]? = some d →
      ∃ kv1 ∈ (UpdateEnemyPositions nrm s obs t).enemyTrajectories,
        kv1.1 = "enemy_" ++ toString (s.nextEnemyId + i) ∧
        kv1.2.positions = [observed d t kv1.1]) ∧
    (∀ (i : Nat), ∀ kv ∈ s.enemyTrajectories,
      kv.1 ≠ "enemy_" ++ toString (s.nextEnemyId + i)) ∧
    (∀ (i j : Nat), i < j →
      "enemy_" ++ toString (s.nextEnemyId + i) ≠ "enemy_" ++ toString (s.nextEnemyId + j)) := by
  have hinv := hr.idsWellFormed
  have hinv1 : IdsWellFormed (CleanupOldTrajectories s t) :=
    idsWellFormed_of_keys s _ hinv rfl (cleanup_keys s t)
  have hfar1 : ∀ d ∈ obs, ∀ kv ∈ (CleanupOldTrajectories s t).enemyTrajectories,
      kv.2.isActive = true → ∀ pos ∈ kv.2.positions,
      (CleanupOldTrajectories s t).maxTrackingDistance ≤ nrm (d.center - pos.position) := by
    intro d hd kv1 hkv1 hact pos hpos
    obtain ⟨kv, hkv, -, g2, g3⟩ := cleanup_mem s t kv1 hkv1
    rw [g2] at hpos
    exact le_of_lt (hfar d hd kv hkv (g3 hact) pos hpos)
  have hpair1 : obs.Pairwise (fun d1 d2 =>
      (CleanupOldTrajectories s t).maxTrackingDistance ≤ nrm (d2.center - d1.center)) :=
    hpair.imp (fun h => le_of_lt h)
  obtain ⟨r1, r2, r3, r4⟩ := foldl_far_spec nrm t obs _ hinv1 hfar1 hpair1
  have hlen0 : (CleanupOldTrajectories s t).enemyTrajectories.length
      = s.enemyTrajectories.length := by
    simp [CleanupOldTrajectories]
  refine ⟨?_, ?_, ?_, ?_, ?_, ?_⟩
  · rw [update_nextEnemyId, r1]
    rfl
  · rw [update_trajectories, List.length_map, r2, hlen0]
  · intro kv hkv
    obtain ⟨kv1, g1, g2, g3⟩ := cleanup_mem_of_mem s t kv hkv
    obtain ⟨kv2, e1, e2, e3⟩ := r3 kv1 g1
    rw [update_trajectories]
    refine ⟨_, List.mem_map_of_mem _ e1, by rw [e2, g2], ?_⟩
    simp only [refreshTrajectory_positions]
    rw [e3, g3]
  · intro i d hi
    obtain ⟨kv2, e1, e2, e3⟩ := r4 i d hi
    rw [update_trajectories]
    refine ⟨_, List.mem_map_of_mem _ e1, e2, ?_⟩
    simp only [refreshTrajectory_positions]
    exact e3
  · intro i kv hkv he
    obtain ⟨k, g1, g2, g3⟩ := hinv.2.1 kv hkv
    rw [g3] at he
    have := enemyId_inj k (s.nextEnemyId + i) (by omega) (by have := hinv.1; omega) he
    omega
  · intro i j hij he
    have := enemyId_inj (s.nextEnemyId + i) (s.nextEnemyId + j)
      (by have := hinv.1; omega) (by have := hinv.1; omega) he
    omega

/-- The loop body of `UpdateEnemyPositions` leaves an inactive trajectory as it is. -/
theorem processDetection_keeps_inactive (nrm : Point2f → ℚ) (t : ℚ) (s : PositionTracker)
    (d : EnemyDetection) (hinv : IdsWellFormed s) (kv : String × EnemyTrajectory)
    (hkv : kv ∈ s.enemyTrajectories) (hin : kv.2.isActive = false) :
    kv ∈ (processDetection nrm t s d).enemyTrajectories := by
  have hmem : kv ∈ (FindEnemyTrajectory nrm s d.center t).1.enemyTrajectories := by
    rw [find_fst]
    have := List.mem_map_of_mem (deactivateTimedOut s.trajectoryTimeout t) hkv
    rwa [deactivateTimedOut_of_inactive _ _ _ hin] at this
  cases hf : (FindEnemyTrajectory nrm s d.center t).2 with
  | none =>
    obtain ⟨hperm, -⟩ := processDetection_none_perm nrm t s d hinv hf
    rw [find_fst] at hmem
    exact hperm.mem_iff.2 (List.mem_cons_of_mem _ hmem)
  | some i =>
    obtain ⟨kvi, -, hkvi, hact, -⟩ := find_some_spec nrm s d.center t i hf
    obtain ⟨j, hj⟩ := List.getElem?_of_mem hmem
    have hji : i ≠ j := by
      rintro rfl
      rw [hkvi] at hj
      cases hj
      rw [hin] at hact
      cases hact
    rw [processDetection_some nrm t s d i hf]
    apply List.getElem?_mem (n := j)
    simp only
    rw [List.getElem?_modify_ne _ _ hji, hj]

/-- The first loop of `UpdateEnemyPositions` leaves an inactive trajectory as it is. -/
theorem foldl_keeps_inactive (nrm : Point2f → ℚ) (t : ℚ) (obs : List EnemyDetection)
    (kv : String × EnemyTrajectory) (hin : kv.2.isActive = false) :
    ∀ s, IdsWellFormed s → kv ∈ s.enemyTrajectories →
      kv ∈ (obs.foldl (processDetection nrm t) s).enemyTrajectories := by
  induction obs with
  | nil => intro s _ h; exact h
  | cons d rest ih =>
    intro s hinv h
    exact ih _ (idsWellFormed_processDetection nrm t s d hinv)
      (processDetection_keeps_inactive nrm t s d hinv kv h hin)

/-- The function `UpdateEnemyPositions` leaves an inactive trajectory as it is. -/
theorem update_keeps_inactive (nrm : Point2f → ℚ) (s : PositionTracker)
    (obs : List EnemyDetection) (t : ℚ) (hinv : IdsWellFormed s)
    (kv : String × EnemyTrajectory) (hkv : kv ∈ s.enemyTrajectories)
    (hin : kv.2.isActive = false) :
    kv ∈ (UpdateEnemyPositions nrm s obs t).enemyTrajectories := by
  have hinv1 : IdsWellFormed (CleanupOldTrajectories s t) :=
    idsWellFormed_of_keys s _ hinv rfl (cleanup_keys s t)
  have h1 := cleanup_mem_of_inactive s t kv hkv hin
  have h2 := foldl_keeps_inactive nrm t obs kv hin _ hinv1 h1
  rw [update_trajectories]
  have := List.mem_map_of_mem (fun kv : String × EnemyTrajectory => (kv.1, refreshTrajectory nrm
          (obs.foldl (processDetection nrm t) (CleanupOldTrajectories s t)) kv.2)) h2
  simp only [refreshTrajectory_of_inactive _ _ _ hin] at this
  exact this

/-- Any sequence of `UpdateEnemyPositions` calls leaves an inactive trajectory as it is. -/
theorem calls_keep_inactive (nrm : Point2f → ℚ) (kv : String × EnemyTrajectory)
    (hin : kv.2.isActive = false) (calls : List (List EnemyDetection × ℚ)) :
    ∀ s, IdsWellFormed s → kv ∈ s.enemyTrajectories →
      IdsWellFormed (calls.foldl (fun st c => UpdateEnemyPositions nrm st c.1 c.2) s) ∧
      kv ∈ (calls.foldl (fun st c => UpdateEnemyPositions nrm st c.1 c.2) s).enemyTrajectories := by
  induction calls with
  | nil => intro s h1 h2; exact ⟨h1, h2⟩
  | cons c rest ih =>
    intro s h1 h2
    exact ih _ (idsWellFormed_update nrm s c.1 c.2 h1)
      (update_keeps_inactive nrm s c.1 c.2 h1 kv h2 hin)

/-- The function `PredictNextPosition` keeps the active flag. -/
theorem predictNextPosition_isActive (tr : EnemyTrajectory) :
    (PredictNextPosition tr).isActive = tr.isActive := by
  unfold PredictNextPosition
  split
  · rfl
  · rfl
  · simp only
    split_ifs <;> rfl

/-- The function `CalculateMovementSpeed` keeps the active flag. -/
theorem calculateMovementSpeed_isActive (nrm : Point2f → ℚ) (tr : EnemyTrajectory) :
    (CalculateMovementSpeed nrm tr).isActive = tr.isActive := by
  unfold CalculateMovementSpeed
  split_ifs <;> rfl

/-- The second loop of `UpdateEnemyPositions` keeps the active flag. -/
theorem refreshTrajectory_isActive (nrm : Point2f → ℚ) (s : PositionTracker)
    (tr : EnemyTrajectory) : (refreshTrajectory nrm s tr).isActive = tr.isActive := by
  unfold refreshTrajectory
  split_ifs
  · simp only [predictNextPosition_isActive, calculateMovementSpeed_isActive]
  · rfl

/-- In a tracker whose ids are the ones its counter allocated (`IdsWellFormed`, true of
every tracker reached from the constructor or `Reset` through the setters,
`UpdateEnemyPositions` and `AnalyzeDeath`), let a trajectory be inactive.  After any
sequence of later `UpdateEnemyPositions` calls, with any observations and timestamps, the
map still holds that very entry (flag false, same positions, nothing appended), and it is
the only entry under its id.  An observation that matches no active trajectory, at
whatever distance from the inactive one, creates an active trajectory under the new id
`enemy_nextEnemyId`, which differs from every id in the tracker, holding just that
observation.  The function `LoadTrajectoryData` does not keep `IdsWellFormed`. -/
theorem no_reactivation (nrm : Point2f → ℚ) (s : PositionTracker) (hinv : IdsWellFormed s)
    (kv : String × EnemyTrajectory) (hkv : kv ∈ s.enemyTrajectories)
    (hin : kv.2.isActive = false) :
    (∀ calls : List (List EnemyDetection × ℚ),
      kv ∈ (calls.foldl (fun st c => UpdateEnemyPositions nrm st c.1 c.2) s).enemyTrajectories ∧
      ∀ kv1 ∈ (calls.foldl (fun st c => UpdateEnemyPositions nrm st c.1 c.2) s).enemyTrajectories,
        kv1.1 = kv.1 → kv1 = kv) ∧
    (∀ (d : EnemyDetection) (t : ℚ),
      (FindEnemyTrajectory nrm (CleanupOldTrajectories s t) d.center t).2 = none →
      ∃ kv2 ∈ (UpdateEnemyPositions nrm s [d] t).enemyTrajectories,
        kv2.1 = "enemy_" ++ toString s.nextEnemyId ∧
        (∀ kv0 ∈ s.enemyTrajectories, kv0.1 ≠ kv2.1) ∧
        kv2.2.positions = [observed d t kv2.1] ∧ kv2.2.isActive = true) := by
  constructor
  · intro calls
    obtain ⟨h1, h2⟩ := calls_keep_inactive nrm kv hin calls s hinv hkv
    refine ⟨h2, ?_⟩
    intro kv1 hkv1 he
    exact List.inj_on_of_nodup_map h1.2.2 hkv1 h2 he
  · intro d t hf
    have hinv1 : IdsWellFormed (CleanupOldTrajectories s t) :=
      idsWellFormed_of_keys s _ hinv rfl (cleanup_keys s t)
    obtain ⟨hperm, -⟩ := processDetection_none_perm nrm t _ d hinv1 hf
    have hmem := hperm.mem_iff.2 (List.mem_cons_self _ _)
    have hmem2 := List.mem_map_of_mem (fun kv : String × EnemyTrajectory =>
      (kv.1, refreshTrajectory nrm
        ([d].foldl (processDetection nrm t) (CleanupOldTrajectories s t)) kv.2)) hmem
    rw [update_trajectories]
    refine ⟨_, hmem2, rfl, ?_, ?_, ?_⟩
    · intro kv0 hkv0 he
      exact fresh_key s hinv (by
        have := List.mem_map_of_mem Prod.fst hkv0
        rw [he] at this
        exact this)
    · simp only [refreshTrajectory_positions]
    · simp only [refreshTrajectory_isActive]

/-- The tracker `exTracker1` is reached from `Reset` by one update. -/
theorem reachable_exTracker1 : Reachable cvNorm exTracker1 :=
  Reachable.update _ _ _ (Reachable.reset _)

/-- The tracker `exTracker2` is reached from `Reset` by two updates. -/
theorem reachable_exTracker2 : Reachable cvNorm exTracker2 :=
  Reachable.update _ _ _ reachable_exTracker1

/-- Witness of C9: the tracker holding `enemy_1` at (0,0), and a frame with targets at
(300,0) and (600,0). -/
theorem C9_witness :
    Reachable cvNorm exTracker1 ∧
    (∀ d ∈ [exObs 300 0, exObs 600 0], ∀ kv ∈ exTracker1.enemyTrajectories,
      kv.2.isActive = true → ∀ pos ∈ kv.2.positions,
        exTracker1.maxTrackingDistance < cvNorm (d.center - pos.position)) ∧
    [exObs 300 0, exObs 600 0].Pairwise
      (fun d1 d2 => exTracker1.maxTrackingDistance < cvNorm (d2.center - d1.center)) ∧
    (UpdateEnemyPositions cvNorm exTracker1 [exObs 300 0, exObs 600 0] 1).nextEnemyId
      = exTracker1.nextEnemyId + 2 ∧
    (UpdateEnemyPositions cvNorm exTracker1
        [exObs 300 0, exObs 600 0] 1).enemyTrajectories.length
      = exTracker1.enemyTrajectories.length + 2 :=
  ⟨reachable_exTracker1, by decide!, by decide!,
    (C9_new_ids cvNorm exTracker1 reachable_exTracker1 [exObs 300 0, exObs 600 0] 1
      (by decide!) (by decide!)).1,
    (C9_new_ids cvNorm exTracker1 reachable_exTracker1 [exObs 300 0, exObs 600 0] 1
      (by decide!) (by decide!)).2.1⟩

/-- Example of `no_reactivation`: `enemy_1`, last seen at (0,0) at `t = 0`, has timed out; the
observation at (1,0) at `t = 11`, one pixel from its last position, leaves it untouched and
creates `enemy_2`. -/
theorem no_reactivation_example :
    Reachable cvNorm exTracker2 ∧ exInactive ∈ exTracker2.enemyTrajectories ∧
    exInactive.2.isActive = false ∧
    cvNorm ((exObs 1 0).center - (⟨0, 0⟩ : Point2f)) < exTracker2.maxTrackingDistance ∧
    exInactive ∈ (UpdateEnemyPositions cvNorm exTracker2 [exObs 1 0] 11).enemyTrajectories ∧
    (∃ kv2 ∈ (UpdateEnemyPositions cvNorm exTracker2 [exObs 1 0] 11).enemyTrajectories,
      kv2.1 = "enemy_" ++ toString exTracker2.nextEnemyId ∧
      (∀ kv0 ∈ exTracker2.enemyTrajectories, kv0.1 ≠ kv2.1) ∧
      kv2.2.positions = [observed (exObs 1 0) 11 kv2.1] ∧ kv2.2.isActive = true) :=
  ⟨reachable_exTracker2, by decide!, rfl, by decide!,
    ((no_reactivation cvNorm exTracker2 reachable_exTracker2.idsWellFormed exInactive (by decide!) rfl).1
      [([exObs 1 0], 11)]).1,
    (no_reactivation cvNorm exTracker2 reachable_exTracker2.idsWellFormed exInactive (by decide!) rfl).2
      (exObs 1 0) 11 (by decide!)⟩

end PositionTracker

/-! ## Lists and maps, continued -/

/-- An entry of the map after an assignment is the new entry or an old one. -/
theorem mem_mapInsert {V : Type} (k : String) (v : V) (kv : String × V) :
    ∀ (l : List (String × V)), kv ∈ mapInsert k v l → kv = (k, v) ∨ kv ∈ l := by
  intro l
  induction l with
  | nil => intro h; left; simpa [mapInsert] using h
  | cons e rest ih =>
    obtain ⟨k1, v1⟩ := e
    intro h
    unfold mapInsert at h
    split_ifs at h with h1 h2
    · rcases List.mem_cons.1 h with h | h
      · exact Or.inl h
      · exact Or.inr h
    · rcases List.mem_cons.1 h with h | h
      · exact Or.inr (h ▸ List.mem_cons_self _ _)
      · rcases ih h with h | h
        · exact Or.inl h
        · exact Or.inr (List.mem_cons_of_mem _ h)
    · rcases List.mem_cons.1 h with h | h
      · exact Or.inl h
      · exact Or.inr (List.mem_cons_of_mem _ h)

/-- An entry of a list modified at one index is an old entry or the image of one. -/
theorem mem_modify {α : Type} (f : α → α) (i : Nat) (l : List α) (x : α)
    (h : x ∈ l.modify f i) : x ∈ l ∨ ∃ y ∈ l, x = f y := by
  obtain ⟨j, hj⟩ := List.getElem?_of_mem h
  rw [List.getElem?_modify] at hj
  cases hl : l[j]? with
  | none => rw [hl] at hj; simp at hj
  | some y =>
    rw [hl] at hj
    have hy : y ∈ l := List.getElem?_mem hl
    by_cases hij : i = j
    · right
      refine ⟨y, hy, ?_⟩
      simp [hij] at hj
      exact hj.symm
    · left
      simp [hij] at hj
      rw [← hj]
      exact hy

/-! ## CombatAnalyzer: recording -/

namespace CombatAnalyzer

/-- C18.  For every analyzer, clip id, reason `r` and timestamp `t`, `StartRecording` returns
a clip with `startTime = t`, `endTime = t + clipDuration`, `triggerReason = r`,
`playerDied = false`, `enemyKilled = false`, `enemies` and `combatIntensity` copied from the
current combat state and `filename = clipId + ".mp4"`; the analyzer it leaves differs from
the old one in `isRecording = true` only, so the combat state and the list of recorded
clips are unchanged. -/
theorem C18_start_recording (a : CombatAnalyzer) (clipId reason : String) (t : ℚ) :
    (StartRecording a clipId reason t).1.clipId = clipId ∧
    (StartRecording a clipId reason t).1.startTime = t ∧
    (StartRecording a clipId reason t).1.endTime = t + a.clipDuration ∧
    (StartRecording a clipId reason t).1.triggerReason = reason ∧
    (StartRecording a clipId reason t).1.playerDied = false ∧
    (StartRecording a clipId reason t).1.enemyKilled = false ∧
    (StartRecording a clipId reason t).1.enemies = a.currentCombatState.activeEnemies ∧
    (StartRecording a clipId reason t).1.combatIntensity
      = a.currentCombatState.combatIntensity ∧
    (StartRecording a clipId reason t).1.filename = clipId ++ ".mp4" ∧
    (StartRecording a clipId reason t).2.isRecording = true ∧
    (StartRecording a clipId reason t).2.currentCombatState = a.currentCombatState ∧
    (StartRecording a clipId reason t).2.recordedClips = a.recordedClips ∧
    (StartRecording a clipId reason t).2 = { a with isRecording := true } := by
  refine ⟨rfl, rfl, rfl, rfl, rfl, rfl, rfl, rfl, rfl, rfl, rfl, rfl, rfl⟩

/-- C19.  For every analyzer, clip `c` and timestamp `t`, `StopRecording` sets
`c.endTime = t`, recaptures `c.enemies` and `c.combatIntensity` from the current combat
state and keeps `clipId`, `startTime`, `triggerReason` and `filename`; the list of recorded
clips becomes the old list followed by the sealed clip, so every earlier element stays at
its index, the sealed clip is the last element and `GetRecordedClips` grows by exactly
one; `isRecording` becomes false and the combat state is unchanged. -/
theorem C19_stop_recording (a : CombatAnalyzer) (c : CombatClip) (t : ℚ) :
    (StopRecording a c t).1.endTime = t ∧
    (StopRecording a c t).1.enemies = a.currentCombatState.activeEnemies ∧
    (StopRecording a c t).1.combatIntensity = a.currentCombatState.combatIntensity ∧
    (StopRecording a c t).1.clipId = c.clipId ∧
    (StopRecording a c t).1.startTime = c.startTime ∧
    (StopRecording a c t).1.triggerReason = c.triggerReason ∧
    (StopRecording a c t).1.filename = c.filename ∧
    GetRecordedClips (StopRecording a c t).2
      = GetRecordedClips a ++ [(StopRecording a c t).1] ∧
    (GetRecordedClips (StopRecording a c t).2).length = (GetRecordedClips a).length + 1 ∧
    (∀ i, i < (GetRecordedClips a).length →
      (GetRecordedClips (StopRecording a c t).2)[i]? = (GetRecordedClips a)[i]?) ∧
    (GetRecordedClips (StopRecording a c t).2).getLast? = some (StopRecording a c t).1 ∧
    (StopRecording a c t).2.isRecording = false ∧
    (StopRecording a c t).2.currentCombatState = a.currentCombatState := by
  have h : GetRecordedClips (StopRecording a c t).2
      = GetRecordedClips a ++ [(StopRecording a c t).1] := rfl
  refine ⟨rfl, rfl, rfl, rfl, rfl, rfl, rfl, h, ?_, ?_, ?_, rfl, rfl⟩
  · rw [h]; simp
  · intro i hi
    rw [h, List.getElem?_append_left hi]
  · rw [h]; simp

end CombatAnalyzer

/-! ## PositionTracker: queries, motion analysis, retention -/

namespace PositionTracker

/-- The inner loop of `GetEnemiesNearPosition` appends the positions that pass the test. -/
theorem nearLoop_inner (nrm : Point2f → ℚ) (p : Point2f) (radius t : ℚ) :
    ∀ (ps acc : List EnemyPosition),
      ps.foldl (fun nearbyEnemies pos =>
        if |pos.timestamp - t| < 1 then
          (if nrm (p - pos.position) ≤ radius then nearbyEnemies ++ [pos] else nearbyEnemies)
        else nearbyEnemies) acc
      = acc ++ ps.filter (fun pos =>
          decide (|pos.timestamp - t| < 1) && decide (nrm (p - pos.position) ≤ radius)) := by
  intro ps
  induction ps with
  | nil => intro acc; simp
  | cons q rest ih =>
    intro acc
    simp only [List.foldl_cons, ih, List.filter_cons]
    by_cases h1 : |q.timestamp - t| < 1
    · by_cases h2 : nrm (p - q.position) ≤ radius
      · simp [h1, h2]
      · simp [h1, h2]
    · simp [h1]

/-- The result of `GetEnemiesNearPosition` as a concatenation of filtered lists. -/
theorem getEnemiesNearPosition_eq (nrm : Point2f → ℚ) (s : PositionTracker) (p : Point2f)
    (radius t : ℚ) :
    GetEnemiesNearPosition nrm s p radius t =
      s.enemyTrajectories.flatMap (fun kv => kv.2.positions.filter (fun pos =>
        decide (|pos.timestamp - t| < 1) && decide (nrm (p - pos.position) ≤ radius))) := by
  unfold GetEnemiesNearPosition
  have key : ∀ (l : List (String × EnemyTrajectory)) (acc : List EnemyPosition),
      l.foldl (fun nearbyEnemies kv =>
        kv.2.positions.foldl (fun nearbyEnemies pos =>
          if |pos.timestamp - t| < 1 then
            let distance := nrm (p - pos.position)
            if distance ≤ radius then nearbyEnemies ++ [pos] else nearbyEnemies
          else nearbyEnemies) nearbyEnemies) acc
      = acc ++ l.flatMap (fun kv => kv.2.positions.filter (fun pos =>
          decide (|pos.timestamp - t| < 1) && decide (nrm (p - pos.position) ≤ radius))) := by
    intro l
    induction l with
    | nil => intro acc; simp
    | cons kv rest ih =>
      intro acc
      simp only [List.foldl_cons, List.flatMap_cons]
      rw [nearLoop_inner nrm p radius t kv.2.positions acc, ih, List.append_assoc]
  simpa using key s.enemyTrajectories []

/-- The result of `GetEnemiesNearPosition` is empty exactly when no position passes. -/
theorem getEnemiesNearPosition_eq_nil (nrm : Point2f → ℚ) (s : PositionTracker) (p : Point2f)
    (radius t : ℚ) :
    (∀ kv ∈ s.enemyTrajectories, ∀ pos ∈ kv.2.positions,
        ¬ (|pos.timestamp - t| < 1 ∧ nrm (p - pos.position) ≤ radius)) ↔
      GetEnemiesNearPosition nrm s p radius t = [] := by
  rw [getEnemiesNearPosition_eq]
  simp only [List.flatMap_eq_nil_iff, List.filter_eq_nil_iff, Bool.and_eq_true,
    decide_eq_true_eq]

/-- C20.  The list `GetEnemiesNearPosition p radius t` is the concatenation, over all
trajectories in iteration order, active or not, of the sublist of the retained positions
(in position order) whose timestamp differs from `t` by strictly less than 1 and whose
distance `cv::norm (p - position)` to `p` is at most `radius`: every such position occurs
once, at its place.  A position is in the result exactly when it is such a position of
some trajectory, and the result is empty exactly when there is none. -/
theorem C20_enemies_near_position (nrm : Point2f → ℚ) (s : PositionTracker) (p : Point2f)
    (radius t : ℚ) :
    GetEnemiesNearPosition nrm s p radius t =
      s.enemyTrajectories.flatMap (fun kv => kv.2.positions.filter (fun pos =>
        decide (|pos.timestamp - t| < 1) && decide (nrm (p - pos.position) ≤ radius))) ∧
    (∀ pos, pos ∈ GetEnemiesNearPosition nrm s p radius t ↔
      ∃ kv ∈ s.enemyTrajectories, pos ∈ kv.2.positions ∧
        |pos.timestamp - t| < 1 ∧ nrm (p - pos.position) ≤ radius) ∧
    (GetEnemiesNearPosition nrm s p radius t = [] ↔
      ∀ kv ∈ s.enemyTrajectories, ∀ pos ∈ kv.2.positions,
        ¬ (|pos.timestamp - t| < 1 ∧ nrm (p - pos.position) ≤ radius)) ∧
    (GetEnemiesNearPosition cvNorm exTracker3 ⟨0, 0⟩ 300 0).map (fun pos => pos.position)
      = [⟨0, 0⟩, ⟨300, 0⟩] ∧
    GetEnemiesNearPosition cvNorm exTracker3 ⟨0, 0⟩ 300 1 = [] ∧
    (GetEnemiesNearPosition cvNorm exTracker2 ⟨0, 0⟩ 299 (1 / 2)).map
      (fun pos => pos.position) = [⟨0, 0⟩] := by
  refine ⟨getEnemiesNearPosition_eq nrm s p radius t, ?_, ?_, by decide!, by decide!,
    by decide!⟩
  · intro pos
    rw [getEnemiesNearPosition_eq]
    simp only [List.mem_flatMap, List.mem_filter, Bool.and_eq_true, decide_eq_true_eq]
  · rw [getEnemiesNearPosition_eq]
    simp only [List.flatMap_eq_nil_iff, List.filter_eq_nil_iff, Bool.and_eq_true,
      decide_eq_true_eq]

/-- The loop of `CalculateMovementSpeed` adds the path length and the elapsed time. -/
theorem speedLoop_eq (nrm : Point2f → ℚ) : ∀ (ps : List EnemyPosition) (acc : ℚ × ℚ),
    speedLoop nrm ps acc = (acc.1 + pathLength nrm ps, acc.2 + elapsedTime ps) := by
  intro ps
  induction ps with
  | nil => intro acc; simp [speedLoop, pathLength, elapsedTime, timedPairs, consecutivePairs]
  | cons a rest ih =>
    intro acc
    cases rest with
    | nil => simp [speedLoop, pathLength, elapsedTime, timedPairs, consecutivePairs]
    | cons b rest =>
      rw [speedLoop, ih]
      have hz : consecutivePairs (a :: b :: rest) = (a, b) :: consecutivePairs (b :: rest) := by
        simp [consecutivePairs]
      by_cases hgap : 0 < b.timestamp - a.timestamp
      · have ht : timedPairs (a :: b :: rest) = (a, b) :: timedPairs (b :: rest) := by
          simp only [timedPairs, hz, List.filter_cons, hgap, decide_True, if_true]
        simp only [gt_iff_lt, hgap, if_true, pathLength, elapsedTime, ht, List.map_cons,
          List.sum_cons]
        ext <;> simp [add_assoc]
      · have ht : timedPairs (a :: b :: rest) = timedPairs (b :: rest) := by
          simp only [timedPairs, hz, List.filter_cons, hgap, decide_False, Bool.false_eq_true,
            if_false]
        simp only [gt_iff_lt, hgap, if_false, pathLength, elapsedTime, ht]

/-- The elapsed time is positive as soon as one pair has a positive gap. -/
theorem elapsedTime_pos (ps : List EnemyPosition) (h : timedPairs ps ≠ []) :
    0 < elapsedTime ps := by
  unfold elapsedTime
  have hall : ∀ pr ∈ timedPairs ps, 0 < pr.2.timestamp - pr.1.timestamp := by
    intro pr hpr
    have := (List.mem_filter.1 hpr).2
    simpa using this
  generalize timedPairs ps = l at h hall
  cases l with
  | nil => exact absurd rfl h
  | cons pr rest =>
    simp only [List.map_cons, List.sum_cons]
    have h1 := hall pr (List.mem_cons_self _ _)
    have h2 : 0 ≤ (rest.map (fun pr => pr.2.timestamp - pr.1.timestamp)).sum := by
      apply List.sum_nonneg
      intro x hx
      obtain ⟨q, hq, rfl⟩ := List.mem_map.1 hx
      exact le_of_lt (hall q (List.mem_cons_of_mem _ hq))
    linarith

/-- The path length is never negative for a norm that is never negative. -/
theorem pathLength_nonneg (nrm : Point2f → ℚ) (hn : ∀ p, 0 ≤ nrm p) (ps : List EnemyPosition) :
    0 ≤ pathLength nrm ps := by
  unfold pathLength
  apply List.sum_nonneg
  intro x hx
  obtain ⟨q, _, rfl⟩ := List.mem_map.1 hx
  exact hn _

/-- Closed form of the speed that `CalculateMovementSpeed` stores. -/
theorem movementSpeed_eq (nrm : Point2f → ℚ) (tr : EnemyTrajectory) :
    (CalculateMovementSpeed nrm tr).movementSpeed =
      if timedPairs tr.positions = [] then 0
      else pathLength nrm tr.positions / elapsedTime tr.positions := by
  unfold CalculateMovementSpeed
  by_cases h1 : tr.positions.length < 2
  · have hc : consecutivePairs tr.positions = [] := by
      unfold consecutivePairs
      rcases hp : tr.positions with _ | ⟨a, _ | ⟨b, rest⟩⟩
      · rfl
      · rfl
      · rw [hp] at h1
        simp only [List.length_cons] at h1
        omega
    have ht : timedPairs tr.positions = [] := by simp [timedPairs, hc]
    rw [if_pos h1, if_pos ht]
  · rw [if_neg h1]
    simp only [speedLoop_eq, zero_add]
    by_cases ht : timedPairs tr.positions = []
    · have he : elapsedTime tr.positions = 0 := by simp [elapsedTime, ht]
      rw [if_pos ht, he]
      simp
    · rw [if_neg ht, if_pos (elapsedTime_pos _ ht)]

/-- C15.  For every trajectory, `CalculateMovementSpeed` changes `movementSpeed` only and
sets it to the sum of the distances `cv::norm (curr - prev)` over the consecutive retained
position pairs with a positive time gap, divided by the sum of those gaps; to 0 when no
pair has a positive gap, in particular when there are fewer than two positions; the value
is never negative when the norm is never negative.  For positions (0,0) at `t = 0` and
(10,0) at `t = 1` the speed is 10. -/
theorem C15_movement_speed (nrm : Point2f → ℚ) (tr : EnemyTrajectory) :
    (timedPairs tr.positions ≠ [] →
      (CalculateMovementSpeed nrm tr).movementSpeed
        = pathLength nrm tr.positions / elapsedTime tr.positions) ∧
    (timedPairs tr.positions = [] → (CalculateMovementSpeed nrm tr).movementSpeed = 0) ∧
    (tr.positions.length < 2 → (CalculateMovementSpeed nrm tr).movementSpeed = 0) ∧
    ((∀ p, 0 ≤ nrm p) → 0 ≤ (CalculateMovementSpeed nrm tr).movementSpeed) ∧
    CalculateMovementSpeed nrm tr
      = { tr with movementSpeed := (CalculateMovementSpeed nrm tr).movementSpeed } ∧
    (CalculateMovementSpeed cvNorm exTrajectory).movementSpeed = 10 := by
  refine ⟨?_, ?_, ?_, ?_, ?_, by decide!⟩
  · intro h
    rw [movementSpeed_eq, if_neg h]
  · intro h
    rw [movementSpeed_eq, if_pos h]
  · intro h
    unfold CalculateMovementSpeed
    rw [if_pos h]
  · intro hn
    rw [movementSpeed_eq]
    split_ifs with h
    · exact le_rfl
    · exact div_nonneg (pathLength_nonneg nrm hn _) (le_of_lt (elapsedTime_pos _ h))
  · unfold CalculateMovementSpeed
    split_ifs <;> rfl

/-- C16.  For every trajectory, `PredictNextPosition` changes `predictedNextPosition` only
and sets it to `last + ((last - secondLast) / dt) * 0.1` when the positions end with
`secondLast, last` and `dt = last.timestamp - secondLast.timestamp > 0`; to the last
position when `dt ≤ 0` or when there is exactly one position; and to the origin (0,0) when
there is none.  For positions (0,0) at `t = 0` and (10,0) at `t = 1` the prediction is
(11,0). -/
theorem C16_predict_next_position (tr : EnemyTrajectory) :
    (∀ (front : List EnemyPosition) (secondLast last : EnemyPosition),
      tr.positions = front ++ [secondLast, last] →
      (0 < last.timestamp - secondLast.timestamp →
        (PredictNextPosition tr).predictedNextPosition =
          ⟨last.position.x + (last.position.x - secondLast.position.x)
              / (last.timestamp - secondLast.timestamp) * (1 / 10),
            last.position.y + (last.position.y - secondLast.position.y)
              / (last.timestamp - secondLast.timestamp) * (1 / 10)⟩) ∧
      (last.timestamp - secondLast.timestamp ≤ 0 →
        (PredictNextPosition tr).predictedNextPosition = last.position)) ∧
    (∀ only : EnemyPosition, tr.positions = [only] →
      (PredictNextPosition tr).predictedNextPosition = only.position) ∧
    (tr.positions = [] → (PredictNextPosition tr).predictedNextPosition = ⟨0, 0⟩) ∧
    PredictNextPosition tr
      = { tr with predictedNextPosition := (PredictNextPosition tr).predictedNextPosition } ∧
    (PredictNextPosition exTrajectory).predictedNextPosition = ⟨11, 0⟩ := by
  refine ⟨?_, ?_, ?_, ?_, by decide!⟩
  · intro front secondLast last h
    have hrev : tr.positions.reverse = last :: secondLast :: front.reverse := by
      rw [h]; simp
    constructor
    · intro hdt
      unfold PredictNextPosition
      rw [hrev]
      simp only [gt_iff_lt, hdt, if_true]
      show (last.position + ((last.position - secondLast.position).scale
        (1 / (last.timestamp - secondLast.timestamp))).scale (1 / 10)) = _
      have e : ∀ a b : Point2f, a + b = ⟨a.x + b.x, a.y + b.y⟩ := fun _ _ => rfl
      have e2 : ∀ a b : Point2f, a - b = ⟨a.x - b.x, a.y - b.y⟩ := fun _ _ => rfl
      simp only [e, e2, Point2f.scale, Point2f.mk.injEq]
      constructor <;> ring
    · intro hdt
      unfold PredictNextPosition
      rw [hrev]
      simp only [gt_iff_lt, not_lt.2 hdt, if_false]
  · intro only h
    unfold PredictNextPosition
    rw [h]
    rfl
  · intro h
    unfold PredictNextPosition
    rw [h]
    rfl
  · unfold PredictNextPosition
    split
    · rfl
    · rfl
    · simp only
      split_ifs <;> rfl

/-- The loop body of `UpdateEnemyPositions` changes neither the configuration nor the
death analyses. -/
theorem processDetection_config (nrm : Point2f → ℚ) (t : ℚ) (s : PositionTracker)
    (d : EnemyDetection) :
    (processDetection nrm t s d).maxTrackingDistance = s.maxTrackingDistance ∧
    (processDetection nrm t s d).trajectoryTimeout = s.trajectoryTimeout ∧
    (processDetection nrm t s d).minPositionsForTrajectory = s.minPositionsForTrajectory ∧
    (processDetection nrm t s d).deathAnalysisRadius = s.deathAnalysisRadius ∧
    (processDetection nrm t s d).visibilityThreshold = s.visibilityThreshold ∧
    (processDetection nrm t s d).deathAnalyses = s.deathAnalyses := by
  cases hf : (FindEnemyTrajectory nrm s d.center t).2 with
  | some i =>
    rw [processDetection_some nrm t s d i hf, find_fst]
    exact ⟨rfl, rfl, rfl, rfl, rfl, rfl⟩
  | none =>
    rw [processDetection_none nrm t s d hf, find_fst]
    exact ⟨rfl, rfl, rfl, rfl, rfl, rfl⟩

/-- The first loop of `UpdateEnemyPositions` keeps the configuration. -/
theorem foldl_processDetection_config (nrm : Point2f → ℚ) (t : ℚ) (obs : List EnemyDetection) :
    ∀ s : PositionTracker,
      (obs.foldl (processDetection nrm t) s).maxTrackingDistance = s.maxTrackingDistance ∧
      (obs.foldl (processDetection nrm t) s).trajectoryTimeout = s.trajectoryTimeout ∧
      (obs.foldl (processDetection nrm t) s).minPositionsForTrajectory
        = s.minPositionsForTrajectory := by
  induction obs with
  | nil => intro s; exact ⟨rfl, rfl, rfl⟩
  | cons d rest ih =>
    intro s
    obtain ⟨h1, h2, h3⟩ := ih (processDetection nrm t s d)
    obtain ⟨g1, g2, g3, -⟩ := processDetection_config nrm t s d
    simp only [List.foldl_cons]
    exact ⟨h1.trans g1, h2.trans g2, h3.trans g3⟩

/-- The function `UpdateEnemyPositions` keeps the configuration. -/
theorem update_config (nrm : Point2f → ℚ) (s : PositionTracker) (obs : List EnemyDetection)
    (t : ℚ) :
    (UpdateEnemyPositions nrm s obs t).maxTrackingDistance = s.maxTrackingDistance ∧
    (UpdateEnemyPositions nrm s obs t).trajectoryTimeout = s.trajectoryTimeout ∧
    (UpdateEnemyPositions nrm s obs t).minPositionsForTrajectory
      = s.minPositionsForTrajectory :=
  foldl_processDetection_config nrm t obs (CleanupOldTrajectories s t)

/-- In a run the timeout is at least 0.5 and the minimum number of positions is a
positive `int`. -/
theorem Run.config_bounds {nrm : Point2f → ℚ} {s : PositionTracker} (h : Run nrm s) :
    1 / 2 ≤ s.trajectoryTimeout ∧ 1 ≤ s.minPositionsForTrajectory ∧
      s.minPositionsForTrajectory < 2 ^ 31 := by
  induction h with
  | construct => refine ⟨?_, ?_, ?_⟩ <;> norm_num [new]
  | setTrackingDistance s v _ ih => exact ih
  | setTrajectoryTimeout s v _ ih => exact ⟨le_max_left _ _, ih.2⟩
  | setMinPositionsForTrajectory s m h1 h2 _ ih =>
    exact ⟨ih.1, le_max_left _ _, max_lt (by norm_num) h2⟩
  | setDeathAnalysisRadius s v _ ih => exact ih
  | setVisibilityThreshold s v _ ih => exact ih
  | reset s _ ih => exact ih
  | update s obs t _ ih =>
    obtain ⟨-, g2, g3⟩ := update_config nrm s obs t
    rw [g2, g3]
    exact ih
  | analyzeDeath s u p t _ ih => exact ih

/-- Every tracker of a run satisfies the invariant of the id allocation. -/
theorem Run.wellFormedIds {nrm : Point2f → ℚ} {s : PositionTracker} (h : Run nrm s) :
    IdsWellFormed s := by
  induction h with
  | construct => refine ⟨?_, ?_, ?_⟩ <;> simp [new]
  | setTrackingDistance s v _ ih => exact ih
  | setTrajectoryTimeout s v _ ih => exact ih
  | setMinPositionsForTrajectory s m _ _ _ ih => exact ih
  | setDeathAnalysisRadius s v _ ih => exact ih
  | setVisibilityThreshold s v _ ih => exact ih
  | reset s _ _ => exact idsWellFormed_reset s
  | update s obs t _ ih => exact idsWellFormed_update nrm s obs t ih
  | analyzeDeath s u p t _ ih => exact ih

/-- The first loop of `AnalyzeMovementPattern` adds up the coordinates. -/
theorem foldl_add_position (ps : List EnemyPosition) : ∀ acc : Point2f,
    ps.foldl (fun acc pos => acc + pos.position) acc =
      ⟨acc.x + (ps.map (fun pos => pos.position.x)).sum,
       acc.y + (ps.map (fun pos => pos.position.y)).sum⟩ := by
  induction ps with
  | nil => intro acc; simp
  | cons q rest ih =>
    intro acc
    simp only [List.foldl_cons, ih, List.map_cons, List.sum_cons]
    have e : ∀ a b : Point2f, a + b = ⟨a.x + b.x, a.y + b.y⟩ := fun _ _ => rfl
    simp only [e, Point2f.mk.injEq]
    constructor <;> ring

/-- The second loop of `AnalyzeMovementPattern` adds up the distances. -/
theorem foldl_add_norm (nrm : Point2f → ℚ) (c : Point2f) (ps : List EnemyPosition) :
    ∀ acc : ℚ, ps.foldl (fun acc pos => acc + nrm (pos.position - c)) acc =
      acc + (ps.map (fun pos => nrm (pos.position - c))).sum := by
  induction ps with
  | nil => intro acc; simp
  | cons q rest ih =>
    intro acc
    simp only [List.foldl_cons, ih, List.map_cons, List.sum_cons]
    ring

/-- Closed form of `AnalyzeMovementPattern`. -/
theorem analyzeMovementPattern_eq (nrm : Point2f → ℚ) (s : PositionTracker)
    (tr : EnemyTrajectory) :
    AnalyzeMovementPattern nrm s tr =
      if sizeGeInt tr.positions.length s.minPositionsForTrajectory = false then
        "insufficient_data"
      else if tr.movementSpeed < 5 then "stationary"
      else if meanDeviation nrm tr.positions < 20 then "moving_straight"
      else if meanDeviation nrm tr.positions > 50 then "erratic"
      else "moving" := by
  unfold AnalyzeMovementPattern
  have hc : (tr.positions.foldl (fun acc pos => acc + pos.position) (⟨0, 0⟩ : Point2f)).scale
      (1 / (tr.positions.length : ℚ)) = centroid tr.positions := by
    rw [foldl_add_position]
    simp only [Point2f.scale, centroid, zero_add, Point2f.mk.injEq]
    constructor <;> ring
  simp only [hc, foldl_add_norm, zero_add]
  cases sizeGeInt tr.positions.length s.minPositionsForTrajectory <;> simp [meanDeviation]

/-- C17.  In a tracker of a run (so `minPositionsForTrajectory` is a positive `int`), for
every trajectory with at least `minPositionsForTrajectory` retained positions
`AnalyzeMovementPattern` returns "stationary" if `movementSpeed < 5`; otherwise, with `m`
the mean distance `cv::norm (position - centroid)` of the retained positions from their
centroid, "moving_straight" if `m < 20`, "erratic" if `m > 50` and "moving" if
`20 ≤ m ≤ 50`; with fewer positions it returns "insufficient_data". -/
theorem C17_movement_pattern (nrm : Point2f → ℚ) (s : PositionTracker) (hr : Run nrm s)
    (tr : EnemyTrajectory) :
    ((tr.positions.length : Int) < s.minPositionsForTrajectory →
      AnalyzeMovementPattern nrm s tr = "insufficient_data") ∧
    (s.minPositionsForTrajectory ≤ (tr.positions.length : Int) →
      (tr.movementSpeed < 5 → AnalyzeMovementPattern nrm s tr = "stationary") ∧
      (5 ≤ tr.movementSpeed → meanDeviation nrm tr.positions < 20 →
        AnalyzeMovementPattern nrm s tr = "moving_straight") ∧
      (5 ≤ tr.movementSpeed → 50 < meanDeviation nrm tr.positions →
        AnalyzeMovementPattern nrm s tr = "erratic") ∧
      (5 ≤ tr.movementSpeed → 20 ≤ meanDeviation nrm tr.positions →
        meanDeviation nrm tr.positions ≤ 50 →
        AnalyzeMovementPattern nrm s tr = "moving")) := by
  obtain ⟨-, h1, h2⟩ := hr.config_bounds
  have hsz := CombatAnalyzer.sizeGeInt_of_bounds tr.positions.length
    s.minPositionsForTrajectory h1 h2
  rw [analyzeMovementPattern_eq]
  constructor
  · intro hlt
    have : sizeGeInt tr.positions.length s.minPositionsForTrajectory = false := by
      cases hb : sizeGeInt tr.positions.length s.minPositionsForTrajectory with
      | false => rfl
      | true => have := hsz.1 hb; omega
    rw [if_pos this]
  · intro hge
    have : ¬ sizeGeInt tr.positions.length s.minPositionsForTrajectory = false := by
      rw [hsz.2 hge]; simp
    rw [if_neg this]
    refine ⟨?_, ?_, ?_, ?_⟩
    · intro h; rw [if_pos h]
    · intro h g; rw [if_neg (not_lt.2 h), if_pos g]
    · intro h g
      rw [if_neg (not_lt.2 h), if_neg (not_lt.2 (by linarith)), if_pos g]
    · intro h g1 g2
      rw [if_neg (not_lt.2 h), if_neg (not_lt.2 g1), if_neg (not_lt.2 g2)]

/-- The example tracker with minimum 2 belongs to a run. -/
theorem run_exTrackerMin2 : Run cvNorm exTrackerMin2 :=
  Run.setMinPositionsForTrajectory _ 2 (by norm_num) (by norm_num) Run.construct

/-- Witness of C17: with minimum 2, the trajectory (0,0) at `t = 0`, (10,0) at `t = 1` with
its speed 10 and mean deviation 5 is "moving_straight". -/
theorem C17_witness :
    Run cvNorm exTrackerMin2 ∧
    AnalyzeMovementPattern cvNorm exTrackerMin2 (CalculateMovementSpeed cvNorm exTrajectory)
      = "moving_straight" ∧
    AnalyzeMovementPattern cvNorm PositionTracker.new exTrajectory = "insufficient_data" :=
  ⟨run_exTrackerMin2,
    ((C17_movement_pattern cvNorm exTrackerMin2 run_exTrackerMin2
      (CalculateMovementSpeed cvNorm exTrajectory)).2 (by decide!)).2.1
      (by decide!) (by decide!),
    (C17_movement_pattern cvNorm PositionTracker.new Run.construct exTrajectory).1
      (by decide!)⟩

/-- The loop of `AnalyzeDeath`: either no position is closer than the start value, or the
result is a position of minimal distance. -/
theorem closestLoop_spec (nrm : Point2f → ℚ) (p : Point2f) (l : List EnemyPosition) :
    ∀ start : ℚ × EnemyPosition,
      (closestLoop nrm p l start = start ∧ ∀ q ∈ l, start.1 ≤ nrm (p - q.position)) ∨
      (∃ pos ∈ l, closestLoop nrm p l start = (nrm (p - pos.position), pos) ∧
        nrm (p - pos.position) < start.1 ∧
        ∀ q ∈ l, nrm (p - pos.position) ≤ nrm (p - q.position)) := by
  induction l with
  | nil => intro start; left; simp [closestLoop]
  | cons e rest ih =>
    intro start
    have hstep : closestLoop nrm p (e :: rest) start =
        closestLoop nrm p rest
          (if nrm (p - e.position) < start.1 then (nrm (p - e.position), e) else start) := rfl
    rw [hstep]
    by_cases hc : nrm (p - e.position) < start.1
    · rw [if_pos hc]
      rcases ih (nrm (p - e.position), e) with ⟨h1, h2⟩ | ⟨pos, hpos, h1, h2, h3⟩
      · right
        refine ⟨e, List.mem_cons_self _ _, h1, hc, ?_⟩
        intro q hq
        rcases List.mem_cons.1 hq with rfl | hq
        · exact le_rfl
        · exact h2 q hq
      · right
        refine ⟨pos, List.mem_cons_of_mem _ hpos, h1, lt_trans h2 hc, ?_⟩
        intro q hq
        rcases List.mem_cons.1 hq with rfl | hq
        · exact le_of_lt h2
        · exact h3 q hq
    · rw [if_neg hc]
      rcases ih start with ⟨h1, h2⟩ | ⟨pos, hpos, h1, h2, h3⟩
      · left
        refine ⟨h1, ?_⟩
        intro q hq
        rcases List.mem_cons.1 hq with rfl | hq
        · exact not_lt.1 hc
        · exact h2 q hq
      · right
        refine ⟨pos, List.mem_cons_of_mem _ hpos, h1, h2, ?_⟩
        intro q hq
        rcases List.mem_cons.1 hq with rfl | hq
        · exact le_of_lt (lt_of_lt_of_le h2 (not_lt.1 hc))
        · exact h3 q hq

/-- C14.  Provided the distances of the gathered positions are below the largest `double`
(true of all distances between points with `float` coordinates), `AnalyzeDeath p t`
appends one record to the death analyses and changes nothing else; the record holds `t`,
`p` and the positions gathered by `GetEnemiesNearPosition` with `deathAnalysisRadius`.  If
no retained position lies within `deathAnalysisRadius` of `p` and within 1 s of `t`, the
cause is "unknown" (distance -1, not visible).  Otherwise the recorded distance is the
minimum of `cv::norm (p - position)` over the gathered positions, the recorded visibility
is that of a position at that distance, and the cause is "enemy_shot" if it is visible and
the distance is below 100, else "enemy_shot_unseen" if the distance is below 200, else
"unknown".  Death at (100,100) at `t = 10` with one visible position (150,100) at `t = 10`
gives distance 50 and cause "enemy_shot". -/
theorem C14_analyze_death (nrm : Point2f → ℚ) (uninit : EnemyPosition) (s : PositionTracker)
    (p : Point2f) (t : ℚ)
    (hfin : ∀ pos ∈ GetEnemiesNearPosition nrm s p s.deathAnalysisRadius t,
      nrm (p - pos.position) < dblMax) :
    (∃ a : DeathAnalysis,
      AnalyzeDeath nrm uninit s p t = { s with deathAnalyses := s.deathAnalyses ++ [a] } ∧
      a.deathTime = t ∧ a.deathPosition = p ∧
      a.nearbyEnemies = GetEnemiesNearPosition nrm s p s.deathAnalysisRadius t ∧
      ((∀ kv ∈ s.enemyTrajectories, ∀ pos ∈ kv.2.positions,
          ¬ (|pos.timestamp - t| < 1 ∧ nrm (p - pos.position) ≤ s.deathAnalysisRadius)) →
        a.deathCause = "unknown" ∧ a.enemyDistance = -1 ∧ a.enemyWasVisible = false) ∧
      ((∃ kv ∈ s.enemyTrajectories, ∃ pos ∈ kv.2.positions,
          |pos.timestamp - t| < 1 ∧ nrm (p - pos.position) ≤ s.deathAnalysisRadius) →
        (∀ pos ∈ a.nearbyEnemies, a.enemyDistance ≤ nrm (p - pos.position)) ∧
        (∃ pos ∈ a.nearbyEnemies, a.enemyDistance = nrm (p - pos.position) ∧
          a.enemyWasVisible = pos.isVisible) ∧
        a.deathCause =
          (if a.enemyWasVisible = true ∧ a.enemyDistance < 100 then "enemy_shot"
           else if a.enemyDistance < 200 then "enemy_shot_unseen" else "unknown"))) ∧
    (AnalyzeDeath cvNorm exUninit exTrackerDeath ⟨100, 100⟩ 10).deathAnalyses.map
      (fun a => (a.enemyDistance, a.enemyWasVisible, a.deathCause))
      = [(50, true, "enemy_shot")] := by
  refine ⟨?_, by decide!⟩
  by_cases hnear : GetEnemiesNearPosition nrm s p s.deathAnalysisRadius t = []
  · refine ⟨{ deathTime := t, deathPosition := p, nearbyEnemies := [],
              deathCause := "unknown", enemyDistance := -1, enemyWeapon := "unknown",
              enemyWasVisible := false }, ?_, rfl, rfl, hnear.symm, ?_, ?_⟩
    · unfold AnalyzeDeath
      simp [hnear]
    · intro _
      exact ⟨rfl, rfl, rfl⟩
    · rintro ⟨kv, hkv, pos, hpos, h1, h2⟩
      exfalso
      have := ((getEnemiesNearPosition_eq_nil nrm s p s.deathAnalysisRadius t).2 hnear) kv hkv pos hpos
      exact this ⟨h1, h2⟩
  · obtain ⟨e, he⟩ := List.exists_mem_of_ne_nil _ hnear
    rcases closestLoop_spec nrm p (GetEnemiesNearPosition nrm s p s.deathAnalysisRadius t)
      (dblMax, uninit) with ⟨-, h2⟩ | ⟨pos, hpos, h1, -, h3⟩
    · exact absurd (hfin e he) (not_lt.2 (h2 e he))
    · have hne : (GetEnemiesNearPosition nrm s p s.deathAnalysisRadius t).isEmpty = false := by
        cases hl : GetEnemiesNearPosition nrm s p s.deathAnalysisRadius t with
        | nil => exact absurd hl hnear
        | cons _ _ => rfl
      by_cases hshot : pos.isVisible = true ∧ nrm (p - pos.position) < 100
      · refine ⟨{ deathTime := t, deathPosition := p,
                  nearbyEnemies := GetEnemiesNearPosition nrm s p s.deathAnalysisRadius t,
                  deathCause := "enemy_shot", enemyDistance := nrm (p - pos.position),
                  enemyWeapon := "unknown", enemyWasVisible := pos.isVisible },
          ?_, rfl, rfl, rfl, ?_, ?_⟩
        · unfold AnalyzeDeath
          simp [hne, h1, hshot.1, hshot.2]
        · intro hnone
          exfalso
          exact hnear ((getEnemiesNearPosition_eq_nil nrm s p s.deathAnalysisRadius t).1 hnone)
        · intro _
          exact ⟨h3, ⟨pos, hpos, rfl, rfl⟩, by simp [hshot.1, hshot.2]⟩
      · by_cases hun : nrm (p - pos.position) < 200
        · refine ⟨{ deathTime := t, deathPosition := p,
                    nearbyEnemies := GetEnemiesNearPosition nrm s p s.deathAnalysisRadius t,
                    deathCause := "enemy_shot_unseen", enemyDistance := nrm (p - pos.position),
                    enemyWeapon := "unknown", enemyWasVisible := pos.isVisible },
            ?_, rfl, rfl, rfl, ?_, ?_⟩
          · unfold AnalyzeDeath
            have : ¬ (pos.isVisible = true ∧ nrm (p - pos.position) < 100) := hshot
            simp [hne, h1, this, hun]
          · intro hnone
            exfalso
            exact hnear ((getEnemiesNearPosition_eq_nil nrm s p s.deathAnalysisRadius t).1 hnone)
          · intro _
            refine ⟨h3, ⟨pos, hpos, rfl, rfl⟩, ?_⟩
            simp only
            rw [if_neg hshot, if_pos hun]
        · refine ⟨{ deathTime := t, deathPosition := p,
                    nearbyEnemies := GetEnemiesNearPosition nrm s p s.deathAnalysisRadius t,
                    deathCause := "unknown", enemyDistance := nrm (p - pos.position),
                    enemyWeapon := "unknown", enemyWasVisible := pos.isVisible },
            ?_, rfl, rfl, rfl, ?_, ?_⟩
          · unfold AnalyzeDeath
            have : ¬ (pos.isVisible = true ∧ nrm (p - pos.position) < 100) := hshot
            simp [hne, h1, this, hun]
          · intro hnone
            exfalso
            exact hnear ((getEnemiesNearPosition_eq_nil nrm s p s.deathAnalysisRadius t).1 hnone)
          · intro _
            refine ⟨h3, ⟨pos, hpos, rfl, rfl⟩, ?_⟩
            simp only
            rw [if_neg hshot, if_neg hun]

/-- A window stays valid under a later bound. -/
theorem WindowOk.mono {T T1 : ℚ} {ps : List EnemyPosition} (h : WindowOk T ps) (hT : T ≤ T1) :
    WindowOk T1 ps :=
  ⟨h.1, fun q hq => le_trans (h.2.1 q hq) hT, h.2.2⟩

/-- The positions after `UpdateTrajectory`, with the test written as `≥`. -/
theorem updateTrajectory_positions_ge (tr : EnemyTrajectory) (p : EnemyPosition) :
    (UpdateTrajectory tr p).positions =
      tr.positions.filter (fun q => decide (p.timestamp - 10 ≤ q.timestamp)) ++ [p] := by
  rw [updateTrajectory_positions]
  congr 1
  apply List.filter_congr
  intro q _
  by_cases h : q.timestamp < p.timestamp - 10
  · simp [h, not_le.2 h]
  · simp [h, not_lt.1 h]

/-- Appending a position not earlier than the old ones gives a valid window. -/
theorem windowOk_updateTrajectory (tr : EnemyTrajectory) (p : EnemyPosition) (T : ℚ)
    (h : WindowOk T tr.positions) (hT : T ≤ p.timestamp) :
    WindowOk p.timestamp (UpdateTrajectory tr p).positions := by
  rw [updateTrajectory_positions_ge]
  have hmem : ∀ q ∈ tr.positions.filter (fun q => decide (p.timestamp - 10 ≤ q.timestamp))
      ++ [p], p.timestamp - 10 ≤ q.timestamp ∧ q.timestamp ≤ p.timestamp := by
    intro q hq
    rcases List.mem_append.1 hq with hq | hq
    · obtain ⟨h1, h2⟩ := List.mem_filter.1 hq
      exact ⟨by simpa using h2, le_trans (h.2.1 q h1) hT⟩
    · rw [List.mem_singleton.1 hq]
      exact ⟨by linarith, le_rfl⟩
  refine ⟨?_, fun q hq => (hmem q hq).2, ?_⟩
  · unfold TimeSorted
    rw [List.pairwise_append]
    refine ⟨h.1.sublist (List.filter_sublist _), List.pairwise_singleton _ _, ?_⟩
    intro a ha b hb
    rw [List.mem_singleton.1 hb]
    exact le_trans (h.2.1 a (List.mem_filter.1 ha).1) hT
  · intro a ha b hb
    have := (hmem a ha).2
    have := (hmem b hb).1
    linarith

/-- The loop body of `UpdateEnemyPositions` keeps the windows valid. -/
theorem windowOk_processDetection (nrm : Point2f → ℚ) (t : ℚ) (s : PositionTracker)
    (d : EnemyDetection) (h : ∀ kv ∈ s.enemyTrajectories, WindowOk t kv.2.positions) :
    ∀ kv ∈ (processDetection nrm t s d).enemyTrajectories, WindowOk t kv.2.positions := by
  have hfind : ∀ kv ∈ (FindEnemyTrajectory nrm s d.center t).1.enemyTrajectories,
      WindowOk t kv.2.positions := by
    intro kv hkv
    rw [find_fst] at hkv
    obtain ⟨kv0, hkv0, rfl⟩ := List.mem_map.1 hkv
    rw [deactivateTimedOut_positions]
    exact h kv0 hkv0
  intro kv hkv
  cases hf : (FindEnemyTrajectory nrm s d.center t).2 with
  | some i =>
    rw [processDetection_some nrm t s d i hf] at hkv
    rcases mem_modify _ _ _ _ hkv with hkv | ⟨kv0, hkv0, rfl⟩
    · exact hfind kv hkv
    · exact windowOk_updateTrajectory kv0.2 (observed d t kv0.2.enemyId) t (hfind kv0 hkv0)
        le_rfl
  | none =>
    rw [processDetection_none nrm t s d hf] at hkv
    rcases mem_mapInsert _ _ _ _ hkv with rfl | hkv
    · refine ⟨List.pairwise_singleton _ _, ?_, ?_⟩
      · intro q hq
        rw [List.mem_singleton.1 hq]
        exact le_rfl
      · intro a ha b hb
        rw [List.mem_singleton.1 ha, List.mem_singleton.1 hb]
        norm_num
    · exact hfind kv hkv

/-- The first loop of `UpdateEnemyPositions` keeps the windows valid. -/
theorem windowOk_foldl (nrm : Point2f → ℚ) (t : ℚ) (obs : List EnemyDetection) :
    ∀ s : PositionTracker, (∀ kv ∈ s.enemyTrajectories, WindowOk t kv.2.positions) →
      ∀ kv ∈ (obs.foldl (processDetection nrm t) s).enemyTrajectories,
        WindowOk t kv.2.positions := by
  induction obs with
  | nil => intro s h; exact h
  | cons d rest ih =>
    intro s h
    exact ih _ (windowOk_processDetection nrm t s d h)

/-- The function `UpdateEnemyPositions` at a timestamp not earlier than the retained ones
keeps the windows valid. -/
theorem windowOk_update (nrm : Point2f → ℚ) (s : PositionTracker) (obs : List EnemyDetection)
    (T t : ℚ) (hT : T ≤ t) (h : ∀ kv ∈ s.enemyTrajectories, WindowOk T kv.2.positions) :
    ∀ kv ∈ (UpdateEnemyPositions nrm s obs t).enemyTrajectories,
      WindowOk t kv.2.positions := by
  have h1 : ∀ kv ∈ (CleanupOldTrajectories s t).enemyTrajectories,
      WindowOk t kv.2.positions := by
    intro kv hkv
    obtain ⟨kv0, hkv0, -, hp, -⟩ := cleanup_mem s t kv hkv
    rw [hp]
    exact (h kv0 hkv0).mono hT
  have h2 := windowOk_foldl nrm t obs _ h1
  intro kv hkv
  rw [update_trajectories] at hkv
  obtain ⟨kv0, hkv0, rfl⟩ := List.mem_map.1 hkv
  simp only [refreshTrajectory_positions]
  exact h2 kv0 hkv0

/-- A sequence of calls with non-decreasing timestamps keeps the windows valid. -/
theorem windowOk_runUpdates (nrm : Point2f → ℚ) (calls : List (List EnemyDetection × ℚ)) :
    ∀ (s : PositionTracker) (T : ℚ),
      (∀ kv ∈ s.enemyTrajectories, WindowOk T kv.2.positions) →
      (∀ c ∈ calls, T ≤ c.2) → (calls.map Prod.snd).Sorted (· ≤ ·) →
      ∃ T1, ∀ kv ∈ (runUpdates nrm s calls).enemyTrajectories, WindowOk T1 kv.2.positions := by
  induction calls with
  | nil => intro s T h _ _; exact ⟨T, h⟩
  | cons c rest ih =>
    intro s T h hT hs
    simp only [List.map_cons, List.sorted_cons] at hs
    apply ih (UpdateEnemyPositions nrm s c.1 c.2) c.2
      (windowOk_update nrm s c.1 T c.2 (hT c (List.mem_cons_self _ _)) h)
    · intro c1 hc1
      exact hs.1 c1.2 (List.mem_map_of_mem _ hc1)
    · exact hs.2

/-- After non-decreasing calls on a freshly reset tracker every window is valid. -/
theorem windowOk_of_reset (nrm : Point2f → ℚ) (s0 : PositionTracker)
    (calls : List (List EnemyDetection × ℚ)) (hs : (calls.map Prod.snd).Sorted (· ≤ ·)) :
    ∃ T1, ∀ kv ∈ (runUpdates nrm (Reset s0) calls).enemyTrajectories,
      WindowOk T1 kv.2.positions := by
  cases calls with
  | nil => exact ⟨0, by intro kv hkv; simp [runUpdates, Reset] at hkv⟩
  | cons c rest =>
    apply windowOk_runUpdates nrm (c :: rest) (Reset s0) c.2
    · intro kv hkv
      simp [Reset] at hkv
    · intro c1 hc1
      rcases List.mem_cons.1 hc1 with rfl | hc1
      · exact le_rfl
      · simp only [List.map_cons, List.sorted_cons] at hs
        exact hs.1 c1.2 (List.mem_map_of_mem _ hc1)
    · exact hs

/-- C11.  For every sequence of `UpdateEnemyPositions` calls with non-decreasing timestamps
applied to a freshly reset tracker, the retained positions of every trajectory are in
non-decreasing timestamp order. -/
theorem C11_positions_sorted (nrm : Point2f → ℚ) (s0 : PositionTracker)
    (calls : List (List EnemyDetection × ℚ))
    (hs : (calls.map Prod.snd).Sorted (· ≤ ·)) :
    ∀ kv ∈ (runUpdates nrm (Reset s0) calls).enemyTrajectories,
      (kv.2.positions.map (fun q => q.timestamp)).Sorted (· ≤ ·) := by
  obtain ⟨T1, h⟩ := windowOk_of_reset nrm s0 calls hs
  intro kv hkv
  have := (h kv hkv).1
  unfold TimeSorted at this
  unfold List.Sorted
  rw [List.pairwise_map]
  exact this

/-- C12.  For every trajectory and new position `p`, `UpdateTrajectory` leaves as retained
positions exactly the previous positions whose timestamp is at least `p.timestamp - 10`, in
their original order, followed by `p`: a previous position exactly 10 s older than `p` is
kept, an older one is dropped.  Hence, when no previous timestamp is later than
`p.timestamp`, the retained timestamps span at most 10 s; and after any sequence of
`UpdateEnemyPositions` calls with non-decreasing timestamps on a freshly reset tracker
every trajectory spans at most 10 s.  Example: with positions at `t = 0` and `t = 1`, a new
position at `t = 10` keeps both and one at `t = 10.5` drops the first. -/
theorem C12_retention (tr : EnemyTrajectory) (p : EnemyPosition) :
    (UpdateTrajectory tr p).positions =
      tr.positions.filter (fun q => decide (p.timestamp - 10 ≤ q.timestamp)) ++ [p] ∧
    (∀ q ∈ tr.positions, q.timestamp = p.timestamp - 10 →
      q ∈ (UpdateTrajectory tr p).positions) ∧
    (∀ q, q.timestamp < p.timestamp - 10 → q ∉ (UpdateTrajectory tr p).positions) ∧
    ((∀ q ∈ tr.positions, q.timestamp ≤ p.timestamp) →
      ∀ a ∈ (UpdateTrajectory tr p).positions, ∀ b ∈ (UpdateTrajectory tr p).positions,
        a.timestamp - b.timestamp ≤ 10) ∧
    (∀ (nrm : Point2f → ℚ) (s0 : PositionTracker) (calls : List (List EnemyDetection × ℚ)),
      (calls.map Prod.snd).Sorted (· ≤ ·) →
      ∀ kv ∈ (runUpdates nrm (Reset s0) calls).enemyTrajectories,
        ∀ a ∈ kv.2.positions, ∀ b ∈ kv.2.positions, a.timestamp - b.timestamp ≤ 10) ∧
    ((UpdateTrajectory exTrajectory (observed (exObs 20 0) 10 "enemy_1")).positions.map
        (fun q => q.timestamp) = [0, 1, 10]) ∧
    ((UpdateTrajectory exTrajectory (observed (exObs 20 0) (21 / 2) "enemy_1")).positions.map
        (fun q => q.timestamp) = [1, 21 / 2]) := by
  refine ⟨updateTrajectory_positions_ge tr p, ?_, ?_, ?_, ?_, by decide!, by decide!⟩
  · intro q hq he
    rw [updateTrajectory_positions_ge]
    apply List.mem_append_left
    exact List.mem_filter.2 ⟨hq, by simp [he]⟩
  · intro q hq hmem
    rw [updateTrajectory_positions_ge] at hmem
    rcases List.mem_append.1 hmem with h | h
    · have := (List.mem_filter.1 h).2
      simp only [decide_eq_true_eq] at this
      linarith
    · rw [List.mem_singleton.1 h] at hq
      linarith
  · intro hle a ha b hb
    rw [updateTrajectory_positions_ge] at ha hb
    have hmem : ∀ q ∈ tr.positions.filter (fun q => decide (p.timestamp - 10 ≤ q.timestamp))
        ++ [p], p.timestamp - 10 ≤ q.timestamp ∧ q.timestamp ≤ p.timestamp := by
      intro q hq
      rcases List.mem_append.1 hq with hq | hq
      · obtain ⟨h1, h2⟩ := List.mem_filter.1 hq
        exact ⟨by simpa using h2, hle q h1⟩
      · rw [List.mem_singleton.1 hq]
        exact ⟨by linarith, le_rfl⟩
    have := (hmem a ha).2
    have := (hmem b hb).1
    linarith
  · intro nrm s0 calls hs kv hkv
    obtain ⟨T1, h⟩ := windowOk_of_reset nrm s0 calls hs
    exact (h kv hkv).2.2

/-- The function `UpdateTrajectory` keeps the active flag and sets `lastSeen`. -/
theorem updateTrajectory_flags (tr : EnemyTrajectory) (p : EnemyPosition) :
    (UpdateTrajectory tr p).isActive = tr.isActive ∧
      (UpdateTrajectory tr p).lastSeen = p.timestamp :=
  ⟨rfl, rfl⟩

/-- The loop body of `UpdateEnemyPositions` keeps a live active trajectory active and
live. -/
theorem processDetection_keeps_live (nrm : Point2f → ℚ) (t : ℚ) (s : PositionTracker)
    (d : EnemyDetection) (hinv : IdsWellFormed s) (h0 : 0 ≤ s.trajectoryTimeout) (k : String)
    (h : ∃ kv ∈ s.enemyTrajectories, kv.1 = k ∧ kv.2.isActive = true ∧
      t - kv.2.lastSeen ≤ s.trajectoryTimeout) :
    ∃ kv ∈ (processDetection nrm t s d).enemyTrajectories, kv.1 = k ∧ kv.2.isActive = true ∧
      t - kv.2.lastSeen ≤ s.trajectoryTimeout := by
  obtain ⟨kv, hkv, hk, hact, hlive⟩ := h
  have hmem : kv ∈ (FindEnemyTrajectory nrm s d.center t).1.enemyTrajectories := by
    rw [find_fst]
    have := List.mem_map_of_mem (deactivateTimedOut s.trajectoryTimeout t) hkv
    rwa [deactivateTimedOut_of_live _ _ _ hlive] at this
  cases hf : (FindEnemyTrajectory nrm s d.center t).2 with
  | none =>
    obtain ⟨hperm, -⟩ := processDetection_none_perm nrm t s d hinv hf
    rw [find_fst] at hmem
    exact ⟨kv, hperm.mem_iff.2 (List.mem_cons_of_mem _ hmem), hk, hact, hlive⟩
  | some i =>
    obtain ⟨j, hj⟩ := List.getElem?_of_mem hmem
    rw [processDetection_some nrm t s d i hf]
    by_cases hij : i = j
    · refine ⟨(kv.1, UpdateTrajectory kv.2 (observed d t kv.2.enemyId)), ?_, hk, hact, ?_⟩
      · apply List.getElem?_mem (n := j)
        simp only
        rw [List.getElem?_modify, hj]
        simp [hij]
      · show t - t ≤ s.trajectoryTimeout
        simpa using h0
    · refine ⟨kv, ?_, hk, hact, hlive⟩
      apply List.getElem?_mem (n := j)
      simp only
      rw [List.getElem?_modify_ne _ _ hij, hj]

/-- The first loop of `UpdateEnemyPositions` keeps a live active trajectory active. -/
theorem foldl_keeps_live (nrm : Point2f → ℚ) (t τ : ℚ) (h0 : 0 ≤ τ) (k : String)
    (obs : List EnemyDetection) :
    ∀ s : PositionTracker, IdsWellFormed s → s.trajectoryTimeout = τ →
      (∃ kv ∈ s.enemyTrajectories, kv.1 = k ∧ kv.2.isActive = true ∧ t - kv.2.lastSeen ≤ τ) →
      ∃ kv ∈ (obs.foldl (processDetection nrm t) s).enemyTrajectories,
        kv.1 = k ∧ kv.2.isActive = true ∧ t - kv.2.lastSeen ≤ τ := by
  induction obs with
  | nil => intro s _ _ h; exact h
  | cons d rest ih =>
    intro s hinv hτ h
    apply ih _ (idsWellFormed_processDetection nrm t s d hinv)
      ((processDetection_config nrm t s d).2.1.trans hτ)
    have := processDetection_keeps_live nrm t s d hinv (by rw [hτ]; exact h0) k
      (by rw [hτ]; exact h)
    rw [hτ] at this
    exact this

/-- In a tracker of a run (constructor, setters, `Reset`, `UpdateEnemyPositions`,
`AnalyzeDeath`; not `LoadTrajectoryData`), after `UpdateEnemyPositions observations t`,
for any observation list: every trajectory that existed before the call with
`t - lastSeen > trajectoryTimeout` is still in the map and in `GetAllTrajectories`, with
`isActive = false` and everything else, its positions in particular, unchanged, and it is
the only entry under its id (deactivated, not deleted); and an active trajectory with
`t - lastSeen ≤ trajectoryTimeout` is still active after the call. -/
theorem lazy_deactivation (nrm : Point2f → ℚ) (s : PositionTracker) (hr : Run nrm s)
    (obs : List EnemyDetection) (t : ℚ) :
    (∀ kv ∈ s.enemyTrajectories, t - kv.2.lastSeen > s.trajectoryTimeout →
      (kv.1, { kv.2 with isActive := false })
          ∈ (UpdateEnemyPositions nrm s obs t).enemyTrajectories ∧
      { kv.2 with isActive := false } ∈ GetAllTrajectories (UpdateEnemyPositions nrm s obs t) ∧
      ∀ kv1 ∈ (UpdateEnemyPositions nrm s obs t).enemyTrajectories, kv1.1 = kv.1 →
        kv1.2.isActive = false ∧ kv1.2.positions = kv.2.positions) ∧
    (∀ kv ∈ s.enemyTrajectories, kv.2.isActive = true →
      t - kv.2.lastSeen ≤ s.trajectoryTimeout →
      (∃ kv1 ∈ (UpdateEnemyPositions nrm s obs t).enemyTrajectories,
        kv1.1 = kv.1 ∧ kv1.2.isActive = true) ∧
      ∀ kv1 ∈ (UpdateEnemyPositions nrm s obs t).enemyTrajectories, kv1.1 = kv.1 →
        kv1.2.isActive = true) := by
  have hinv := hr.wellFormedIds
  have h0 : 0 ≤ s.trajectoryTimeout := le_trans (by norm_num) hr.config_bounds.1
  have hinv1 : IdsWellFormed (CleanupOldTrajectories s t) :=
    idsWellFormed_of_keys s _ hinv rfl (cleanup_keys s t)
  have hinvU := idsWellFormed_update nrm s obs t hinv
  constructor
  · intro kv hkv hto
    have h1 : (kv.1, { kv.2 with isActive := false })
        ∈ (CleanupOldTrajectories s t).enemyTrajectories := by
      unfold CleanupOldTrajectories
      have := List.mem_map_of_mem (fun kv : String × EnemyTrajectory =>
        if t - kv.2.lastSeen > s.trajectoryTimeout then (kv.1, { kv.2 with isActive := false })
        else kv) hkv
      simp only [hto, if_true] at this
      exact this
    have h2 := foldl_keeps_inactive nrm t obs (kv.1, { kv.2 with isActive := false }) rfl
      _ hinv1 h1
    have h3 : (kv.1, { kv.2 with isActive := false })
        ∈ (UpdateEnemyPositions nrm s obs t).enemyTrajectories := by
      rw [update_trajectories]
      have := List.mem_map_of_mem (fun kv : String × EnemyTrajectory =>
        (kv.1, refreshTrajectory nrm
          (obs.foldl (processDetection nrm t) (CleanupOldTrajectories s t)) kv.2)) h2
      simp only [refreshTrajectory_of_inactive nrm _ { kv.2 with isActive := false } rfl]
        at this
      exact this
    refine ⟨h3, ?_, ?_⟩
    · unfold GetAllTrajectories
      exact List.mem_map_of_mem Prod.snd h3
    · intro kv1 hkv1 he
      have := List.inj_on_of_nodup_map hinvU.2.2 hkv1 h3 he
      rw [this]
      exact ⟨rfl, rfl⟩
  · intro kv hkv hact hlive
    have h1 : ∃ kv1 ∈ (CleanupOldTrajectories s t).enemyTrajectories,
        kv1.1 = kv.1 ∧ kv1.2.isActive = true ∧ t - kv1.2.lastSeen ≤ s.trajectoryTimeout := by
      refine ⟨kv, ?_, rfl, hact, hlive⟩
      unfold CleanupOldTrajectories
      have := List.mem_map_of_mem (fun kv : String × EnemyTrajectory =>
        if t - kv.2.lastSeen > s.trajectoryTimeout then (kv.1, { kv.2 with isActive := false })
        else kv) hkv
      simp only [not_lt.2 hlive, if_false] at this
      exact this
    obtain ⟨kv2, hkv2, hk2, hact2, -⟩ := foldl_keeps_live nrm t s.trajectoryTimeout h0 kv.1 obs
      _ hinv1 rfl h1
    have h3 : (kv2.1, refreshTrajectory nrm
          (obs.foldl (processDetection nrm t) (CleanupOldTrajectories s t)) kv2.2)
        ∈ (UpdateEnemyPositions nrm s obs t).enemyTrajectories := by
      rw [update_trajectories]
      exact List.mem_map_of_mem (fun kv : String × EnemyTrajectory =>
        (kv.1, refreshTrajectory nrm
          (obs.foldl (processDetection nrm t) (CleanupOldTrajectories s t)) kv.2)) hkv2
    have hact3 : (refreshTrajectory nrm
        (obs.foldl (processDetection nrm t) (CleanupOldTrajectories s t)) kv2.2).isActive
        = true := by
      rw [refreshTrajectory_isActive]; exact hact2
    refine ⟨⟨_, h3, hk2, hact3⟩, ?_⟩
    intro kv1 hkv1 he
    have := List.inj_on_of_nodup_map hinvU.2.2 hkv1 h3 (he.trans hk2.symm)
    rw [this]
    exact hact3

/-- Witness of C11: three calls at `t = 0, 1, 1` following one target; the single
trajectory holds the timestamps 0, 1, 1. -/
theorem C11_witness :
    (exCalls.map Prod.snd).Sorted (· ≤ ·) ∧
    (runUpdates cvNorm (Reset PositionTracker.new) exCalls).enemyTrajectories.map
      (fun kv => kv.2.positions.map (fun q => q.timestamp)) = [[0, 1, 1]] ∧
    ∀ kv ∈ (runUpdates cvNorm (Reset PositionTracker.new) exCalls).enemyTrajectories,
      (kv.2.positions.map (fun q => q.timestamp)).Sorted (· ≤ ·) :=
  ⟨by decide!, by decide!,
    C11_positions_sorted cvNorm PositionTracker.new exCalls (by decide!)⟩

/-- The tracker `exTracker1` belongs to a run. -/
theorem run_exTracker1 : Run cvNorm exTracker1 :=
  Run.update _ _ _ (Run.reset _ Run.construct)

/-- Example of `lazy_deactivation`: `enemy_1`, last seen at `t = 0`, is deactivated but kept by the call at
`t = 11`, and stays active in the call at `t = 5`. -/
theorem lazy_deactivation_example :
    Run cvNorm exTracker1 ∧ exActive ∈ exTracker1.enemyTrajectories ∧
    exInactive ∈ (UpdateEnemyPositions cvNorm exTracker1 [exObs 1 0] 11).enemyTrajectories ∧
    (∃ kv1 ∈ (UpdateEnemyPositions cvNorm exTracker1 [] 5).enemyTrajectories,
      kv1.1 = exActive.1 ∧ kv1.2.isActive = true) :=
  ⟨run_exTracker1, by decide!,
    ((lazy_deactivation cvNorm exTracker1 run_exTracker1 [exObs 1 0] 11).1 exActive
      (by decide!) (by decide!)).1,
    ((lazy_deactivation cvNorm exTracker1 run_exTracker1 [] 5).2 exActive
      (by decide!) rfl (by decide!)).1⟩

/-- Witness of C14: the death at (100,100) at `t = 10` next to the position (150,100). -/
theorem C14_witness :
    (∀ pos ∈ GetEnemiesNearPosition cvNorm exTrackerDeath ⟨100, 100⟩
        exTrackerDeath.deathAnalysisRadius 10,
      cvNorm ((⟨100, 100⟩ : Point2f) - pos.position) < dblMax) ∧
    (AnalyzeDeath cvNorm exUninit exTrackerDeath ⟨100, 100⟩ 10).deathAnalyses.length
      = exTrackerDeath.deathAnalyses.length + 1 := by
  have hfin : ∀ pos ∈ GetEnemiesNearPosition cvNorm exTrackerDeath ⟨100, 100⟩
        exTrackerDeath.deathAnalysisRadius 10,
      cvNorm ((⟨100, 100⟩ : Point2f) - pos.position) < dblMax := by decide!
  refine ⟨hfin, ?_⟩
  obtain ⟨a, ha, -⟩ := (C14_analyze_death cvNorm exUninit exTrackerDeath ⟨100, 100⟩ 10 hfin).1
  rw [ha]
  simp

end PositionTracker

namespace CombatAnalyzer

/-! ## CombatAnalyzer: recording decisions, states in operation, setters -/

/-- C30.  When no recording is in progress, `ShouldStopRecording` is false for every combat
state; hence, for every combat state and analyzer, `ShouldStartRecording` and
`ShouldStopRecording` are never both true. -/
theorem C30_start_stop_exclusive (a : CombatAnalyzer) (s : CombatState) :
    (a.isRecording = false → ShouldStopRecording a s = false) ∧
    ¬ (ShouldStartRecording a s = true ∧ ShouldStopRecording a s = true) := by
  constructor
  · intro h
    simp [ShouldStopRecording, h]
  · rintro ⟨h1, h2⟩
    cases hr : a.isRecording
    · simp [ShouldStopRecording, hr] at h2
    · simp [ShouldStartRecording, hr] at h1

/-- C26.  For every configuration with `combatTimeout < clipDuration`, while a recording is
in progress `ShouldStopRecording` is true for every state with
`lastEnemySeen = startTime`; for an active state, while recording, it is true exactly when
`lastEnemySeen - startTime < clipDuration - combatTimeout`.  In particular it is true for
the still active state produced by the frame that triggered Idle to Active, once
`StartRecording` has been called; the defaults are `combatTimeout = 3 < 10 = clipDuration`. -/
theorem C26_stop_right_after_start (a : CombatAnalyzer) (s : CombatState)
    (hrec : a.isRecording = true) (hcfg : a.combatTimeout < a.clipDuration) :
    (s.lastEnemySeen = s.startTime → ShouldStopRecording a s = true) ∧
    (s.isActive = true →
      (ShouldStopRecording a s = true ↔
        s.lastEnemySeen - s.startTime < a.clipDuration - a.combatTimeout)) ∧
    (∀ (nrm : Point2f → ℚ) (L : List EnemyDetection) (t : ℚ) (clipId reason : String),
      a.currentCombatState.isActive = false →
      (AnalyzeFrame nrm a false L t).currentCombatState.isActive = true →
      ShouldStopRecording (StartRecording (AnalyzeFrame nrm a false L t) clipId reason t).2
        (AnalyzeFrame nrm a false L t).currentCombatState = true) ∧
    (new.combatTimeout = 3 ∧ new.clipDuration = 10) := by
  have key : ∀ s : CombatState, s.lastEnemySeen = s.startTime →
      ∀ b : CombatAnalyzer, b.isRecording = true → b.combatTimeout < b.clipDuration →
      ShouldStopRecording b s = true := by
    intro s hs b hb hc
    unfold ShouldStopRecording
    have : s.lastEnemySeen + b.combatTimeout < s.startTime + b.clipDuration := by
      rw [hs]; linarith
    cases s.isActive <;> simp [hb, this]
  refine ⟨fun hs => key s hs a hrec hcfg, ?_, ?_, ?_⟩
  · intro hact
    unfold ShouldStopRecording
    simp only [hact, hrec, Bool.not_true, Bool.false_and, Bool.false_eq_true, if_false,
      Bool.true_and, decide_eq_true_eq]
    constructor
    · intro h
      split_ifs at h with h1
      · linarith
    · intro h
      rw [if_pos (by linarith)]
  · intro nrm L t clipId reason hidle hact
    have hstate : (AnalyzeFrame nrm a false L t).currentCombatState.lastEnemySeen
        = (AnalyzeFrame nrm a false L t).currentCombatState.startTime := by
      unfold AnalyzeFrame at hact ⊢
      cases L with
      | nil => simp [hidle] at hact
      | cons e rest =>
        simp only [List.isEmpty_cons, Bool.not_false, hidle, if_true, Bool.false_eq_true,
          if_false] at hact ⊢
        split_ifs at hact ⊢ with h1
        rfl
    have hconf : (AnalyzeFrame nrm a false L t).combatTimeout = a.combatTimeout ∧
        (AnalyzeFrame nrm a false L t).clipDuration = a.clipDuration := by
      unfold AnalyzeFrame
      simp only
      split_ifs <;> exact ⟨rfl, rfl⟩
    apply key _ hstate
    · rfl
    · show (AnalyzeFrame nrm a false L t).combatTimeout
        < (AnalyzeFrame nrm a false L t).clipDuration
      rw [hconf.1, hconf.2]
      exact hcfg
  · constructor <;> rfl

/-- Witness of C26: the default analyzer, recording, at the state produced by the frame
that started the combat at `t = 0`. -/
theorem C26_witness :
    (StartRecording new "combat_0" "combat_started" 0).2.isRecording = true ∧
    (StartRecording new "combat_0" "combat_started" 0).2.combatTimeout
      < (StartRecording new "combat_0" "combat_started" 0).2.clipDuration ∧
    ShouldStopRecording (StartRecording new "combat_0" "combat_started" 0).2
      (AnalyzeFrame cvNorm new false [exTarget] 0).currentCombatState = true :=
  ⟨rfl, by decide!,
    (C26_stop_right_after_start (StartRecording new "combat_0" "combat_started" 0).2
      (AnalyzeFrame cvNorm new false [exTarget] 0).currentCombatState rfl (by decide!)).1
      (by decide!)⟩

/-- A size below `2 ^ 31` converts to `int` unchanged. -/
theorem toInt32_of_lt (n : Nat) (h : (n : Int) < 2 ^ 31) : toInt32 (n : Int) = n := by
  unfold toInt32
  omega

/-- In operation `enemyCount` is the number of `activeEnemies`, and the intensity is 0
when the count is 0. -/
theorem Operating.count_spec {nrm : Point2f → ℚ} {a : CombatAnalyzer} (h : Operating nrm a) :
    a.currentCombatState.enemyCount = (a.currentCombatState.activeEnemies.length : Int) ∧
    (a.currentCombatState.enemyCount = 0 → a.currentCombatState.combatIntensity = 0) := by
  induction h with
  | resetCombatState a => exact ⟨rfl, fun _ => rfl⟩
  | analyzeFrame a frameEmpty enemies timestamp hlen _ ih =>
    unfold AnalyzeFrame
    cases frameEmpty
    · cases enemies with
      | nil =>
        simp only [Bool.false_eq_true, if_false, List.isEmpty_nil, Bool.not_true]
        split_ifs <;> exact ⟨rfl, fun _ => rfl⟩
      | cons e rest =>
        have h1 : toInt32 ((e :: rest).length : Int) = ((e :: rest).length : Int) :=
          toInt32_of_lt _ hlen
        have h2 : ((e :: rest).length : Int) ≠ 0 := by
          rw [List.length_cons]
          omega
        simp only [Bool.false_eq_true, if_false, List.isEmpty_cons, Bool.not_false, if_true]
        split_ifs <;> exact ⟨h1, fun h0 => absurd (h1 ▸ h0) h2⟩
    · simpa using ih
  | setCombatThreshold a v _ ih => exact ih
  | setClipDuration a v _ ih => exact ih
  | setEnemyDetectionCooldown a v _ ih => exact ih
  | setCombatTimeout a v _ ih => exact ih
  | setMinEnemiesForCombat a m _ _ _ ih => exact ih
  | startRecording a clipId reason timestamp _ ih => exact ih
  | stopRecording a clip timestamp _ ih => exact ih

/-- C27.  In every analyzer reached from `ResetCombatState` through `AnalyzeFrame` calls
(setter and recording calls in between included), `enemyCount` is the number of
`activeEnemies` and `enemyCount = 0` implies `combatIntensity = 0`.  Hence
`DetectEnemyKill` returns false, the clip sealed by `StopRecording` has
`enemyKilled = false`, and its `playerDied` and `enemyKilled` are not both true. -/
theorem C27_no_enemy_kill (nrm : Point2f → ℚ) (a : CombatAnalyzer) (h : Operating nrm a) :
    a.currentCombatState.enemyCount = (a.currentCombatState.activeEnemies.length : Int) ∧
    (a.currentCombatState.enemyCount = 0 → a.currentCombatState.combatIntensity = 0) ∧
    DetectEnemyKill a = false ∧
    (∀ (clip : CombatClip) (t : ℚ),
      (StopRecording a clip t).1.enemyKilled = false ∧
      ¬ ((StopRecording a clip t).1.playerDied = true ∧
         (StopRecording a clip t).1.enemyKilled = true)) := by
  obtain ⟨h1, h2⟩ := h.count_spec
  have h3 : DetectEnemyKill a = false := by
    unfold DetectEnemyKill
    by_cases hc : a.currentCombatState.enemyCount = 0
    · have := h2 hc
      simp only [this, hc, decide_True, Bool.and_true, decide_eq_false_iff_not, not_lt]
      norm_num
    · simp [hc]
  refine ⟨h1, h2, h3, fun clip t => ?_⟩
  have h4 : (StopRecording a clip t).1.enemyKilled = false := h3
  exact ⟨h4, fun hb => by rw [h4] at hb; exact Bool.false_ne_true hb.2⟩

/-- Witness of C27: the default analyzer after a frame with one close detection. -/
theorem C27_witness :
    Operating cvNorm (AnalyzeFrame cvNorm (ResetCombatState new) false [exTarget] 0) ∧
    DetectEnemyKill (AnalyzeFrame cvNorm (ResetCombatState new) false [exTarget] 0) = false :=
  ⟨Operating.analyzeFrame _ _ _ _ (by decide) (Operating.resetCombatState new),
   (C27_no_enemy_kill cvNorm _
      (Operating.analyzeFrame _ _ _ _ (by decide) (Operating.resetCombatState new))).2.2.1⟩

/-- C23.  For every input value, each threshold setter stores the value clamped to its
valid range: `combatThreshold` to `[0, 1]`, `clipDuration` to at least 1, `combatTimeout`
to at least 0.5, `minEnemiesForCombat` to at least 1, `maxTrackingDistance` to at least 10,
`trajectoryTimeout` to at least 0.5, `minPositionsForTrajectory` to at least 1.  The stored
value is the bound when the input is beyond it and the input otherwise; hence it lies in
the range, a value already in the range is stored unchanged, and calling a setter twice
with the same argument equals calling it once. -/
theorem C23_setters_clamp (a : CombatAnalyzer) (s : PositionTracker) (v : ℚ) (m : Int) :
    ((SetCombatThreshold a v).combatThreshold = (if v < 0 then 0 else if 1 < v then 1 else v) ∧
      0 ≤ (SetCombatThreshold a v).combatThreshold ∧
      (SetCombatThreshold a v).combatThreshold ≤ 1 ∧
      (0 ≤ v → v ≤ 1 → (SetCombatThreshold a v).combatThreshold = v) ∧
      SetCombatThreshold (SetCombatThreshold a v) v = SetCombatThreshold a v) ∧
    ((SetClipDuration a v).clipDuration = (if v < 1 then 1 else v) ∧
      1 ≤ (SetClipDuration a v).clipDuration ∧
      (1 ≤ v → (SetClipDuration a v).clipDuration = v) ∧
      SetClipDuration (SetClipDuration a v) v = SetClipDuration a v) ∧
    ((SetCombatTimeout a v).combatTimeout = (if v < 1 / 2 then 1 / 2 else v) ∧
      1 / 2 ≤ (SetCombatTimeout a v).combatTimeout ∧
      (1 / 2 ≤ v → (SetCombatTimeout a v).combatTimeout = v) ∧
      SetCombatTimeout (SetCombatTimeout a v) v = SetCombatTimeout a v) ∧
    ((SetMinEnemiesForCombat a m).minEnemiesForCombat = (if m < 1 then 1 else m) ∧
      1 ≤ (SetMinEnemiesForCombat a m).minEnemiesForCombat ∧
      (1 ≤ m → (SetMinEnemiesForCombat a m).minEnemiesForCombat = m) ∧
      SetMinEnemiesForCombat (SetMinEnemiesForCombat a m) m = SetMinEnemiesForCombat a m) ∧
    ((PositionTracker.SetTrackingDistance s v).maxTrackingDistance
        = (if v < 10 then 10 else v) ∧
      10 ≤ (PositionTracker.SetTrackingDistance s v).maxTrackingDistance ∧
      (10 ≤ v → (PositionTracker.SetTrackingDistance s v).maxTrackingDistance = v) ∧
      PositionTracker.SetTrackingDistance (PositionTracker.SetTrackingDistance s v) v
        = PositionTracker.SetTrackingDistance s v) ∧
    ((PositionTracker.SetTrajectoryTimeout s v).trajectoryTimeout
        = (if v < 1 / 2 then 1 / 2 else v) ∧
      1 / 2 ≤ (PositionTracker.SetTrajectoryTimeout s v).trajectoryTimeout ∧
      (1 / 2 ≤ v → (PositionTracker.SetTrajectoryTimeout s v).trajectoryTimeout = v) ∧
      PositionTracker.SetTrajectoryTimeout (PositionTracker.SetTrajectoryTimeout s v) v
        = PositionTracker.SetTrajectoryTimeout s v) ∧
    ((PositionTracker.SetMinPositionsForTrajectory s m).minPositionsForTrajectory
        = (if m < 1 then 1 else m) ∧
      1 ≤ (PositionTracker.SetMinPositionsForTrajectory s m).minPositionsForTrajectory ∧
      (1 ≤ m → (PositionTracker.SetMinPositionsForTrajectory s m).minPositionsForTrajectory
        = m) ∧
      PositionTracker.SetMinPositionsForTrajectory
          (PositionTracker.SetMinPositionsForTrajectory s m) m
        = PositionTracker.SetMinPositionsForTrajectory s m) := by
  have hq : ∀ (L x : ℚ), max L x = if x < L then L else x := by
    intro L x
    split_ifs with h
    · exact max_eq_left (le_of_lt h)
    · exact max_eq_right (not_lt.1 h)
  have hz : ∀ (L x : Int), max L x = if x < L then L else x := by
    intro L x
    split_ifs with h
    · exact max_eq_left (le_of_lt h)
    · exact max_eq_right (not_lt.1 h)
  refine ⟨⟨?_, le_max_left _ _, max_le (by norm_num) (min_le_left _ _), fun h0 h1 => ?_, rfl⟩,
    ⟨hq 1 v, le_max_left _ _, fun h => max_eq_right h, rfl⟩,
    ⟨hq (1 / 2) v, le_max_left _ _, fun h => max_eq_right h, rfl⟩,
    ⟨hz 1 m, le_max_left _ _, fun h => max_eq_right h, rfl⟩,
    ⟨hq 10 v, le_max_left _ _, fun h => max_eq_right h, rfl⟩,
    ⟨hq (1 / 2) v, le_max_left _ _, fun h => max_eq_right h, rfl⟩,
    ⟨hz 1 m, le_max_left _ _, fun h => max_eq_right h, rfl⟩⟩
  · show max 0 (min 1 v) = _
    split_ifs with h1 h2
    · rw [max_eq_left]
      exact le_trans (min_le_right _ _) (le_of_lt h1)
    · rw [min_eq_left (le_of_lt h2), max_eq_right (by norm_num)]
    · rw [min_eq_right (not_lt.1 h2), max_eq_right (not_lt.1 h1)]
  · show max 0 (min 1 v) = v
    rw [min_eq_right h1, max_eq_right h0]

end CombatAnalyzer

namespace PositionTracker

/-! ## PositionTracker: lookup of death analyses -/

/-- The loop of `FindDeathAnalysis` ends without a result exactly when no record is within
the tolerance. -/
theorem findDeathLoop_none (t : ℚ) (l : List DeathAnalysis) (k : Nat) :
    findDeathLoop t k l = none ↔ ∀ a ∈ l, ¬ |a.deathTime - t| < 1 := by
  induction l generalizing k with
  | nil => simp [findDeathLoop]
  | cons a rest ih =>
    unfold findDeathLoop
    by_cases h : |a.deathTime - t| < 1
    · simp [h]
    · simp only [h, if_false, ih, List.mem_cons, forall_eq_or_imp, not_false_eq_true, true_and]

/-- The result of the loop of `FindDeathAnalysis` is the first record within the tolerance. -/
theorem findDeathLoop_some (t : ℚ) (l : List DeathAnalysis) (k i : Nat)
    (h : findDeathLoop t k l = some i) :
    ∃ j a, i = k + j ∧ l[j]? = some a ∧ |a.deathTime - t| < 1 ∧
      ∀ j2 b, j2 < j → l[j2]? = some b → ¬ |b.deathTime - t| < 1 := by
  induction l generalizing k with
  | nil => simp [findDeathLoop] at h
  | cons a rest ih =>
    unfold findDeathLoop at h
    by_cases hc : |a.deathTime - t| < 1
    · simp only [hc, if_true, Option.some.injEq] at h
      exact ⟨0, a, by omega, List.getElem?_cons_zero, hc, fun j2 b hj => absurd hj (Nat.not_lt_zero _)⟩
    · simp only [hc, if_false] at h
      obtain ⟨j, b, hi, hb, hok, hmin⟩ := ih (k + 1) h
      refine ⟨j + 1, b, by omega, by simpa using hb, hok, ?_⟩
      intro j2 c hj hc2
      cases j2 with
      | zero =>
        simp only [List.getElem?_cons_zero, Option.some.injEq] at hc2
        rw [← hc2]; exact hc
      | succ j3 =>
        exact hmin j3 c (by omega) (by simpa using hc2)

/-- The function `AnalyzeDeath` appends one record, with the given death time. -/
theorem analyzeDeath_deathAnalyses (nrm : Point2f → ℚ) (uninit : EnemyPosition)
    (s : PositionTracker) (p : Point2f) (t : ℚ) :
    ∃ a : DeathAnalysis, (AnalyzeDeath nrm uninit s p t).deathAnalyses = s.deathAnalyses ++ [a] ∧
      a.deathTime = t := by
  unfold AnalyzeDeath
  simp only
  split_ifs <;> exact ⟨_, rfl, rfl⟩

/-- C21.  `FindDeathAnalysis t` returns `nullptr` exactly when no stored analysis has
`|deathTime - t| < 1.0`; otherwise it returns the earliest-appended analysis within that
bound.  After `AnalyzeDeath p t` it finds a record, and on an empty list it returns
`nullptr`. -/
theorem C21_find_death_analysis (s : PositionTracker) (t : ℚ) :
    (FindDeathAnalysis s t = none ↔ ∀ a ∈ s.deathAnalyses, ¬ |a.deathTime - t| < 1) ∧
    (∀ i, FindDeathAnalysis s t = some i →
      ∃ a, s.deathAnalyses[i]? = some a ∧ |a.deathTime - t| < 1 ∧
        ∀ j b, j < i → s.deathAnalyses[j]? = some b → ¬ |b.deathTime - t| < 1) ∧
    (∀ (nrm : Point2f → ℚ) (uninit : EnemyPosition) (p : Point2f),
      ∃ i a, FindDeathAnalysis (AnalyzeDeath nrm uninit s p t) t = some i ∧
        (AnalyzeDeath nrm uninit s p t).deathAnalyses[i]? = some a ∧
        |a.deathTime - t| < 1) ∧
    (s.deathAnalyses = [] → FindDeathAnalysis s t = none) := by
  refine ⟨findDeathLoop_none t _ 0, ?_, ?_, ?_⟩
  · intro i h
    obtain ⟨j, a, hi, ha, hok, hmin⟩ := findDeathLoop_some t _ 0 i h
    have : i = j := by omega
    subst this
    exact ⟨a, ha, hok, hmin⟩
  · intro nrm uninit p
    obtain ⟨a, ha, hat⟩ := analyzeDeath_deathAnalyses nrm uninit s p t
    cases hf : FindDeathAnalysis (AnalyzeDeath nrm uninit s p t) t with
    | none =>
      have := (findDeathLoop_none t _ 0).1 hf a (by rw [ha]; simp)
      rw [hat] at this
      simp at this
    | some i =>
      obtain ⟨j, b, hi, hb, hok, -⟩ := findDeathLoop_some t _ 0 i hf
      have : i = j := by omega
      subst this
      exact ⟨i, b, rfl, hb, hok⟩
  · intro h
    unfold FindDeathAnalysis
    rw [h]
    rfl

/-! ## PositionTracker: invariants of the update loop -/

/-- An induction principle for the loop body of `UpdateEnemyPositions`: a property of map
entries that survives deactivation, `UpdateTrajectory` with the detection, and holds of the
created trajectory, holds of every entry afterwards. -/
theorem processDetection_induct (nrm : Point2f → ℚ) (t : ℚ) (s : PositionTracker)
    (d : EnemyDetection) (P : String × EnemyTrajectory → Prop)
    (hd : ∀ kv, P kv → P (kv.1, { kv.2 with isActive := false }))
    (hu : ∀ kv, P kv → P (kv.1, UpdateTrajectory kv.2 (observed d t kv.2.enemyId)))
    (hc : P ("enemy_" ++ toString s.nextEnemyId,
      created d t ("enemy_" ++ toString s.nextEnemyId)))
    (h : ∀ kv ∈ s.enemyTrajectories, P kv) :
    ∀ kv ∈ (processDetection nrm t s d).enemyTrajectories, P kv := by
  have hfind : ∀ kv ∈ (FindEnemyTrajectory nrm s d.center t).1.enemyTrajectories, P kv := by
    intro kv hkv
    rw [find_fst] at hkv
    obtain ⟨kv0, hkv0, rfl⟩ := List.mem_map.1 hkv
    unfold deactivateTimedOut
    split_ifs
    · exact hd kv0 (h kv0 hkv0)
    · exact h kv0 hkv0
  intro kv hkv
  cases hf : (FindEnemyTrajectory nrm s d.center t).2 with
  | some i =>
    rw [processDetection_some nrm t s d i hf] at hkv
    rcases mem_modify _ _ _ _ hkv with hkv | ⟨kv0, hkv0, rfl⟩
    · exact hfind kv hkv
    · exact hu kv0 (hfind kv0 hkv0)
  | none =>
    rw [processDetection_none nrm t s d hf] at hkv
    rcases mem_mapInsert _ _ _ _ hkv with rfl | hkv
    · exact hc
    · exact hfind kv hkv

/-- The induction principle for the first loop of `UpdateEnemyPositions`. -/
theorem foldl_processDetection_induct (nrm : Point2f → ℚ) (t : ℚ)
    (P : String × EnemyTrajectory → Prop)
    (hd : ∀ kv, P kv → P (kv.1, { kv.2 with isActive := false }))
    (hu : ∀ (d : EnemyDetection) kv, P kv →
      P (kv.1, UpdateTrajectory kv.2 (observed d t kv.2.enemyId)))
    (hc : ∀ (d : EnemyDetection) (id : String), P (id, created d t id))
    (obs : List EnemyDetection) :
    ∀ s : PositionTracker, (∀ kv ∈ s.enemyTrajectories, P kv) →
      ∀ kv ∈ (obs.foldl (processDetection nrm t) s).enemyTrajectories, P kv := by
  induction obs with
  | nil => intro s h; exact h
  | cons d rest ih =>
    intro s h
    exact ih _ (processDetection_induct nrm t s d P hd (hu d) (hc d _) h)

/-- The induction principle for `UpdateEnemyPositions`: a property of map entries that
survives deactivation, `UpdateTrajectory` with a detection of the frame and the
recomputation of the derived fields, and holds of created trajectories, holds of every
entry after the call. -/
theorem update_induct (nrm : Point2f → ℚ) (t : ℚ) (P : String × EnemyTrajectory → Prop)
    (hd : ∀ kv, P kv → P (kv.1, { kv.2 with isActive := false }))
    (hu : ∀ (d : EnemyDetection) kv, P kv →
      P (kv.1, UpdateTrajectory kv.2 (observed d t kv.2.enemyId)))
    (hc : ∀ (d : EnemyDetection) (id : String), P (id, created d t id))
    (hr : ∀ (s1 : PositionTracker) kv, P kv → P (kv.1, refreshTrajectory nrm s1 kv.2))
    (s : PositionTracker) (obs : List EnemyDetection)
    (h : ∀ kv ∈ s.enemyTrajectories, P kv) :
    ∀ kv ∈ (UpdateEnemyPositions nrm s obs t).enemyTrajectories, P kv := by
  have h1 : ∀ kv ∈ (CleanupOldTrajectories s t).enemyTrajectories, P kv := by
    intro kv hkv
    unfold CleanupOldTrajectories at hkv
    obtain ⟨kv0, hkv0, rfl⟩ := List.mem_map.1 hkv
    split_ifs
    · exact hd kv0 (h kv0 hkv0)
    · exact h kv0 hkv0
  have h2 := foldl_processDetection_induct nrm t P hd hu hc obs _ h1
  intro kv hkv
  rw [update_trajectories] at hkv
  obtain ⟨kv0, hkv0, rfl⟩ := List.mem_map.1 hkv
  exact hr _ kv0 (h2 kv0 hkv0)

/-- The function `PredictNextPosition` writes `predictedNextPosition` only. -/
theorem predictNextPosition_fields (tr : EnemyTrajectory) :
    (PredictNextPosition tr).firstSeen = tr.firstSeen ∧
    (PredictNextPosition tr).lastSeen = tr.lastSeen ∧
    (PredictNextPosition tr).enemyId = tr.enemyId ∧
    (PredictNextPosition tr).movementSpeed = tr.movementSpeed ∧
    (PredictNextPosition tr).movementPattern = tr.movementPattern := by
  unfold PredictNextPosition
  split
  · exact ⟨rfl, rfl, rfl, rfl, rfl⟩
  · exact ⟨rfl, rfl, rfl, rfl, rfl⟩
  · simp only
    split_ifs <;> exact ⟨rfl, rfl, rfl, rfl, rfl⟩

/-- The function `CalculateMovementSpeed` writes `movementSpeed` only. -/
theorem calculateMovementSpeed_fields (nrm : Point2f → ℚ) (tr : EnemyTrajectory) :
    (CalculateMovementSpeed nrm tr).firstSeen = tr.firstSeen ∧
    (CalculateMovementSpeed nrm tr).lastSeen = tr.lastSeen ∧
    (CalculateMovementSpeed nrm tr).enemyId = tr.enemyId ∧
    (CalculateMovementSpeed nrm tr).movementPattern = tr.movementPattern := by
  unfold CalculateMovementSpeed
  split_ifs <;> exact ⟨rfl, rfl, rfl, rfl⟩

/-- The second loop of `UpdateEnemyPositions` keeps `firstSeen`, `lastSeen` and the id. -/
theorem refreshTrajectory_fields (nrm : Point2f → ℚ) (s : PositionTracker)
    (tr : EnemyTrajectory) :
    (refreshTrajectory nrm s tr).firstSeen = tr.firstSeen ∧
    (refreshTrajectory nrm s tr).lastSeen = tr.lastSeen ∧
    (refreshTrajectory nrm s tr).enemyId = tr.enemyId := by
  unfold refreshTrajectory
  split_ifs
  · obtain ⟨h1, h2, h3, -⟩ := predictNextPosition_fields
      { CalculateMovementSpeed nrm tr with
        movementPattern := AnalyzeMovementPattern nrm s (CalculateMovementSpeed nrm tr) }
    obtain ⟨g1, g2, g3, -⟩ := calculateMovementSpeed_fields nrm tr
    exact ⟨h1.trans g1, h2.trans g2, h3.trans g3⟩
  · exact ⟨rfl, rfl, rfl⟩

/-- The consistency of the times survives a larger bound. -/
theorem SeenOk.weaken {T T1 : ℚ} {tr : EnemyTrajectory} (h : SeenOk T tr) (hT : T ≤ T1) :
    SeenOk T1 tr :=
  ⟨h.1, fun q hq => ⟨(h.2 q hq).1, le_trans (h.2 q hq).2 hT⟩⟩

/-- Appending a position at the bound keeps the times consistent. -/
theorem seenOk_updateTrajectory (tr : EnemyTrajectory) (p : EnemyPosition)
    (h : SeenOk p.timestamp tr) : SeenOk p.timestamp (UpdateTrajectory tr p) := by
  have hp := updateTrajectory_positions_ge tr p
  have hf : (UpdateTrajectory tr p).firstSeen = tr.firstSeen := rfl
  have hl : (UpdateTrajectory tr p).lastSeen = p.timestamp := rfl
  refine ⟨⟨p, ?_, hl⟩, ?_⟩
  · rw [hp]; simp
  · intro q hq
    rw [hp] at hq
    rw [hf]
    rcases List.mem_append.1 hq with hq | hq
    · exact h.2 q (List.mem_filter.1 hq).1
    · rw [List.mem_singleton.1 hq]
      obtain ⟨q0, hq0, -⟩ := h.1
      have hq0m : q0 ∈ tr.positions := List.mem_of_getLast?_eq_some hq0
      exact ⟨le_trans (h.2 q0 hq0m).1 (h.2 q0 hq0m).2, le_rfl⟩

/-- The function `UpdateEnemyPositions` at a timestamp not earlier than the retained ones
keeps the times of every trajectory consistent. -/
theorem seenOk_update (nrm : Point2f → ℚ) (s : PositionTracker) (obs : List EnemyDetection)
    (T t : ℚ) (hT : T ≤ t) (h : ∀ kv ∈ s.enemyTrajectories, SeenOk T kv.2) :
    ∀ kv ∈ (UpdateEnemyPositions nrm s obs t).enemyTrajectories, SeenOk t kv.2 := by
  apply update_induct nrm t (fun kv => SeenOk t kv.2)
  · intro kv hkv; exact hkv
  · intro d kv hkv
    exact seenOk_updateTrajectory kv.2 (observed d t kv.2.enemyId) hkv
  · intro d id
    refine ⟨⟨observed d t id, rfl, rfl⟩, ?_⟩
    intro q hq
    rw [List.mem_singleton.1 hq]
    exact ⟨le_rfl, le_rfl⟩
  · intro s1 kv hkv
    obtain ⟨h1, h2, -⟩ := refreshTrajectory_fields nrm s1 kv.2
    unfold SeenOk
    simp only [refreshTrajectory_positions, h1, h2]
    exact hkv
  · intro kv hkv
    exact (h kv hkv).weaken hT

/-- A sequence of calls with non-decreasing timestamps keeps the times consistent. -/
theorem seenOk_runUpdates (nrm : Point2f → ℚ) (calls : List (List EnemyDetection × ℚ)) :
    ∀ (s : PositionTracker) (T : ℚ),
      (∀ kv ∈ s.enemyTrajectories, SeenOk T kv.2) →
      (∀ c ∈ calls, T ≤ c.2) → (calls.map Prod.snd).Sorted (· ≤ ·) →
      ∃ T1, ∀ kv ∈ (runUpdates nrm s calls).enemyTrajectories, SeenOk T1 kv.2 := by
  induction calls with
  | nil => intro s T h _ _; exact ⟨T, h⟩
  | cons c rest ih =>
    intro s T h hT hs
    simp only [List.map_cons, List.sorted_cons] at hs
    apply ih (UpdateEnemyPositions nrm s c.1 c.2) c.2
      (seenOk_update nrm s c.1 T c.2 (hT c (List.mem_cons_self _ _)) h)
    · intro c1 hc1
      exact hs.1 c1.2 (List.mem_map_of_mem _ hc1)
    · exact hs.2

/-- After non-decreasing calls on a freshly reset tracker the times are consistent. -/
theorem seenOk_of_reset (nrm : Point2f → ℚ) (s0 : PositionTracker)
    (calls : List (List EnemyDetection × ℚ)) (hs : (calls.map Prod.snd).Sorted (· ≤ ·)) :
    ∃ T1, ∀ kv ∈ (runUpdates nrm (Reset s0) calls).enemyTrajectories, SeenOk T1 kv.2 := by
  cases calls with
  | nil => exact ⟨0, by intro kv hkv; simp [runUpdates, Reset] at hkv⟩
  | cons c rest =>
    apply seenOk_runUpdates nrm (c :: rest) (Reset s0) c.2
    · intro kv hkv
      simp [Reset] at hkv
    · intro c1 hc1
      rcases List.mem_cons.1 hc1 with rfl | hc1
      · exact le_rfl
      · simp only [List.map_cons, List.sorted_cons] at hs
        exact hs.1 c1.2 (List.mem_map_of_mem _ hc1)
    · exact hs

/-- The states after a sequence of calls on a freshly reset tracker are reachable. -/
theorem reachable_runUpdates (nrm : Point2f → ℚ) (calls : List (List EnemyDetection × ℚ)) :
    ∀ s : PositionTracker, Reachable nrm s → Reachable nrm (runUpdates nrm s calls) := by
  induction calls with
  | nil => intro s h; exact h
  | cons c rest ih =>
    intro s h
    exact ih _ (Reachable.update s c.1 c.2 h)

/-- The loop body of `UpdateEnemyPositions` keeps every entry, with its `firstSeen`. -/
theorem processDetection_keeps_firstSeen (nrm : Point2f → ℚ) (t : ℚ) (s : PositionTracker)
    (d : EnemyDetection) (hinv : IdsWellFormed s) (k : String) (f : ℚ)
    (h : ∃ kv ∈ s.enemyTrajectories, kv.1 = k ∧ kv.2.firstSeen = f) :
    ∃ kv ∈ (processDetection nrm t s d).enemyTrajectories, kv.1 = k ∧ kv.2.firstSeen = f := by
  obtain ⟨kv0, hkv0, hk, hfs⟩ := h
  have hmem : ∃ kv ∈ (FindEnemyTrajectory nrm s d.center t).1.enemyTrajectories,
      kv.1 = k ∧ kv.2.firstSeen = f := by
    rw [find_fst]
    refine ⟨deactivateTimedOut s.trajectoryTimeout t kv0, List.mem_map_of_mem _ hkv0, ?_, ?_⟩
    · rw [deactivateTimedOut_fst]; exact hk
    · unfold deactivateTimedOut
      split_ifs <;> exact hfs
  obtain ⟨kv, hkv, hk1, hf1⟩ := hmem
  cases hf : (FindEnemyTrajectory nrm s d.center t).2 with
  | none =>
    obtain ⟨hperm, -⟩ := processDetection_none_perm nrm t s d hinv hf
    rw [find_fst] at hkv
    exact ⟨kv, hperm.mem_iff.2 (List.mem_cons_of_mem _ hkv), hk1, hf1⟩
  | some i =>
    obtain ⟨j, hj⟩ := List.getElem?_of_mem hkv
    rw [processDetection_some nrm t s d i hf]
    by_cases hij : i = j
    · refine ⟨(kv.1, UpdateTrajectory kv.2 (observed d t kv.2.enemyId)), ?_, hk1, hf1⟩
      apply List.getElem?_mem (n := j)
      simp only
      rw [List.getElem?_modify, hj]
      simp [hij]
    · refine ⟨kv, ?_, hk1, hf1⟩
      apply List.getElem?_mem (n := j)
      simp only
      rw [List.getElem?_modify_ne _ _ hij, hj]

/-- The first loop of `UpdateEnemyPositions` keeps every entry, with its `firstSeen`. -/
theorem foldl_keeps_firstSeen (nrm : Point2f → ℚ) (t : ℚ) (k : String) (f : ℚ)
    (obs : List EnemyDetection) :
    ∀ s : PositionTracker, IdsWellFormed s →
      (∃ kv ∈ s.enemyTrajectories, kv.1 = k ∧ kv.2.firstSeen = f) →
      ∃ kv ∈ (obs.foldl (processDetection nrm t) s).enemyTrajectories,
        kv.1 = k ∧ kv.2.firstSeen = f := by
  induction obs with
  | nil => intro s _ h; exact h
  | cons d rest ih =>
    intro s hinv h
    exact ih _ (idsWellFormed_processDetection nrm t s d hinv)
      (processDetection_keeps_firstSeen nrm t s d hinv k f h)

/-- The function `CleanupOldTrajectories` keeps the well-formedness of the ids. -/
theorem idsWellFormed_cleanup (s : PositionTracker) (t : ℚ) (h : IdsWellFormed s) :
    IdsWellFormed (CleanupOldTrajectories s t) :=
  idsWellFormed_of_keys s _ h rfl (cleanup_keys s t)

/-- The function `UpdateEnemyPositions` keeps every entry, with its `firstSeen`. -/
theorem update_keeps_firstSeen (nrm : Point2f → ℚ) (s : PositionTracker)
    (obs : List EnemyDetection) (t : ℚ) (hinv : IdsWellFormed s)
    (kv : String × EnemyTrajectory) (hkv : kv ∈ s.enemyTrajectories) :
    ∃ kv1 ∈ (UpdateEnemyPositions nrm s obs t).enemyTrajectories,
      kv1.1 = kv.1 ∧ kv1.2.firstSeen = kv.2.firstSeen := by
  have h1 : ∃ kv1 ∈ (CleanupOldTrajectories s t).enemyTrajectories,
      kv1.1 = kv.1 ∧ kv1.2.firstSeen = kv.2.firstSeen := by
    unfold CleanupOldTrajectories
    refine ⟨_, List.mem_map_of_mem _ hkv, ?_⟩
    split_ifs <;> exact ⟨rfl, rfl⟩
  obtain ⟨kv2, hkv2, hk2, hf2⟩ := foldl_keeps_firstSeen nrm t kv.1 kv.2.firstSeen obs _
    (idsWellFormed_cleanup s t hinv) h1
  rw [update_trajectories]
  refine ⟨_, List.mem_map_of_mem _ hkv2, hk2, ?_⟩
  rw [(refreshTrajectory_fields nrm _ kv2.2).1]
  exact hf2

/-- C22.  After any sequence of `UpdateEnemyPositions` calls with non-decreasing timestamps
on a freshly reset tracker, every trajectory in the map has at least one retained
position, `lastSeen` is the timestamp of its last retained position, and `firstSeen` is at
most every retained timestamp.  In a further call at `t`, a trajectory under an id that was
not in the map before has `firstSeen = t`, the timestamp of its creation position, which
is its first retained position; and every trajectory already in the map is still there
under its id with the same `firstSeen`. -/
theorem C22_seen_times (nrm : Point2f → ℚ) (s0 : PositionTracker)
    (calls : List (List EnemyDetection × ℚ))
    (hs : (calls.map Prod.snd).Sorted (· ≤ ·)) :
    (∀ kv ∈ (runUpdates nrm (Reset s0) calls).enemyTrajectories,
      1 ≤ kv.2.positions.length ∧
      (∃ q, kv.2.positions.getLast? = some q ∧ kv.2.lastSeen = q.timestamp) ∧
      ∀ q ∈ kv.2.positions, kv.2.firstSeen ≤ q.timestamp) ∧
    (∀ (obs : List EnemyDetection) (t : ℚ),
      ∀ kv ∈ (UpdateEnemyPositions nrm (runUpdates nrm (Reset s0) calls) obs t).enemyTrajectories,
        kv.1 ∉ (runUpdates nrm (Reset s0) calls).enemyTrajectories.map Prod.fst →
        kv.2.firstSeen = t ∧ ∃ q, kv.2.positions.head? = some q ∧ q.timestamp = t) ∧
    (∀ (obs : List EnemyDetection) (t : ℚ),
      ∀ kv ∈ (runUpdates nrm (Reset s0) calls).enemyTrajectories,
        ∃ kv1 ∈ (UpdateEnemyPositions nrm (runUpdates nrm (Reset s0) calls) obs
            t).enemyTrajectories,
          kv1.1 = kv.1 ∧ kv1.2.firstSeen = kv.2.firstSeen) := by
  refine ⟨?_, ?_, ?_⟩
  · obtain ⟨T1, h⟩ := seenOk_of_reset nrm s0 calls hs
    intro kv hkv
    obtain ⟨⟨q, hq, hl⟩, h2⟩ := h kv hkv
    refine ⟨?_, ⟨q, hq, hl⟩, fun q hq => (h2 q hq).1⟩
    have := List.mem_of_getLast?_eq_some hq
    exact List.length_pos_of_mem this
  · intro obs t
    apply update_induct nrm t (fun kv =>
      kv.1 ∉ (runUpdates nrm (Reset s0) calls).enemyTrajectories.map Prod.fst →
        kv.2.firstSeen = t ∧ ∃ q, kv.2.positions.head? = some q ∧ q.timestamp = t)
    · intro kv hkv hn
      exact hkv hn
    · intro d kv hkv hn
      obtain ⟨h1, q, hq, hqt⟩ := hkv hn
      refine ⟨h1, q, ?_, hqt⟩
      rw [updateTrajectory_positions_ge]
      rcases hp : kv.2.positions with _ | ⟨a, rest⟩
      · rw [hp] at hq; simp at hq
      · rw [hp] at hq
        simp only [List.head?_cons, Option.some.injEq] at hq
        subst hq
        have : (observed d t kv.2.enemyId).timestamp - 10 ≤ a.timestamp := by
          show t - 10 ≤ a.timestamp
          rw [hqt]; linarith
        rw [List.filter_cons, if_pos (by simpa using this)]
        rfl
    · intro d id _
      exact ⟨rfl, observed d t id, rfl, rfl⟩
    · intro s1 kv hkv hn
      rw [(refreshTrajectory_fields nrm s1 kv.2).1, refreshTrajectory_positions]
      exact hkv hn
    · intro kv hkv hn
      exact absurd (List.mem_map_of_mem Prod.fst hkv) hn
  · intro obs t kv hkv
    exact update_keeps_firstSeen nrm _ obs t
      (reachable_runUpdates nrm calls _ (Reachable.reset s0)).idsWellFormed kv hkv

/-- Witness of C22: three calls at `t = 0, 1, 1` on the default tracker. -/
theorem C22_witness :
    (exCalls.map Prod.snd).Sorted (· ≤ ·) ∧
    ∀ kv ∈ (runUpdates cvNorm (Reset new) exCalls).enemyTrajectories,
      1 ≤ kv.2.positions.length :=
  ⟨by decide!, fun kv hkv => ((C22_seen_times cvNorm new exCalls (by decide!)).1 kv hkv).1⟩

/-! ## PositionTracker: when the derived fields are recomputed -/

/-- C28 (counterexample).  The tracker holds `enemy_1` with the position (0,0).  In the frame
at `t = 1` the observation at (160,0) matches no trajectory, and the later observation at
(80,0) is at distance 80 < 100 from it and not closer to the position of `enemy_1` (the
distance is 80 as well); yet the later observation is appended to `enemy_1`, which comes
first in the map, and the trajectory `enemy_2` created for the earlier observation holds
one position. -/
theorem C28_counterexample :
    (FindEnemyTrajectory cvNorm (CleanupOldTrajectories exTracker1 1) (exObs 160 0).center 1).2
      = none ∧
    cvNorm ((exObs 80 0).center - (exObs 160 0).center) < exTracker1.maxTrackingDistance ∧
    (∀ kv ∈ exTracker1.enemyTrajectories, kv.2.isActive = true → ∀ pos ∈ kv.2.positions,
      ¬ cvNorm ((exObs 80 0).center - pos.position)
        < cvNorm ((exObs 80 0).center - (exObs 160 0).center)) ∧
    (UpdateEnemyPositions cvNorm exTracker1 [exObs 160 0, exObs 80 0] 1).enemyTrajectories.map
      (fun kv => (kv.1, kv.2.positions.map (fun q => (q.position, q.timestamp))))
      = [("enemy_1", [(⟨0, 0⟩, 0), (⟨80, 0⟩, 1)]), ("enemy_2", [(⟨160, 0⟩, 1)])] := by
  refine ⟨by decide!, by decide!, by decide!, by decide!⟩

end PositionTracker

namespace EnemyDetector

/-! ## EnemyDetector: FilterDetections -/

/-- The rectangle model has the properties of an intersection: its area is not negative,
not larger than a non-negative area of the first rectangle, and symmetric. -/
theorem rectInter_spec (a b : Rect) :
    0 ≤ rectArea (rectInter a b) ∧ (0 ≤ rectArea a → rectArea (rectInter a b) ≤ rectArea a) ∧
    rectArea (rectInter a b) = rectArea (rectInter b a) := by
  refine ⟨?_, ?_, ?_⟩
  · unfold rectInter rectArea
    simp only
    split_ifs with h
    · simp
    · push_neg at h
      exact le_of_lt (mul_pos h.1 h.2)
  · intro ha
    unfold rectInter
    simp only
    split_ifs with h
    · simpa [rectArea] using ha
    · push_neg at h
      unfold rectArea at ha ⊢
      simp only
      have hw : min (a.x + a.width) (b.x + b.width) - max a.x b.x ≤ a.width := by
        have h1 := min_le_left (a.x + a.width) (b.x + b.width)
        have h2 := le_max_left a.x b.x
        omega
      have hh : min (a.y + a.height) (b.y + b.height) - max a.y b.y ≤ a.height := by
        have h1 := min_le_left (a.y + a.height) (b.y + b.height)
        have h2 := le_max_left a.y b.y
        omega
      exact mul_le_mul hw hh (le_of_lt h.2) (le_trans (le_of_lt h.1) hw)
  · unfold rectInter
    simp only [min_comm (a.x + a.width), max_comm a.x, min_comm (a.y + a.height),
      max_comm a.y]

/-- The sort model returns a permutation in descending confidence order. -/
theorem confidenceSort_spec (l : List EnemyDetection) :
    (confidenceSort l).Perm l ∧
    (confidenceSort l).Pairwise (fun a b => b.confidence ≤ a.confidence) := by
  haveI : IsTotal EnemyDetection (fun a b => b.confidence ≤ a.confidence) :=
    ⟨fun a b => le_total _ _⟩
  haveI : IsTrans EnemyDetection (fun a b => b.confidence ≤ a.confidence) :=
    ⟨fun a b c hab hbc => le_trans hbc hab⟩
  exact ⟨List.perm_insertionSort _ l, List.sorted_insertionSort _ l⟩

/-- The inner loop of `FilterDetections` finds a duplicate exactly when some kept detection
overlaps by more than 0.5. -/
theorem isDuplicate_eq_false (area : Rect → Int) (inter : Rect → Rect → Rect)
    (d : EnemyDetection) (l : List EnemyDetection) :
    isDuplicate area inter d l = false ↔ ∀ e ∈ l, ¬ overlap area inter d e > 1 / 2 := by
  induction l with
  | nil => simp [isDuplicate]
  | cons e rest ih =>
    unfold isDuplicate
    by_cases h : overlap area inter d e > 1 / 2
    · rw [if_pos h]
      constructor
      · intro hc
        exact absurd hc (by decide)
      · intro hall
        exact absurd h (hall e (List.mem_cons_self _ _))
    · rw [if_neg h, ih]
      constructor
      · intro hall a ha
        rcases List.mem_cons.1 ha with rfl | ha
        · exact h
        · exact hall a ha
      · intro hall a ha
        exact hall a (List.mem_cons_of_mem _ ha)

/-- The overlap is symmetric when the area of the intersection is. -/
theorem overlap_comm (area : Rect → Int) (inter : Rect → Rect → Rect)
    (hsymm : ∀ a b, area (inter a b) = area (inter b a)) (d e : EnemyDetection) :
    overlap area inter d e = overlap area inter e d := by
  unfold overlap
  simp only
  rw [hsymm d.boundingBox e.boundingBox, add_comm (area d.boundingBox)]

/-- Invariant of the outer loop of `FilterDetections`. -/
theorem foldl_filterStep_spec (area : Rect → Int) (inter : Rect → Rect → Rect)
    (hsymm : ∀ a b, area (inter a b) = area (inter b a)) (det : EnemyDetector)
    (P : EnemyDetection → Prop) (l : List EnemyDetection) :
    ∀ acc : List EnemyDetection, (∀ d ∈ l, P d) →
      (∀ d ∈ acc, P d ∧ det.minDetectionConfidence ≤ d.confidence ∧
        1000 ≤ area d.boundingBox ∧ area d.boundingBox ≤ 50000) →
      acc.Pairwise (fun a b => ¬ overlap area inter a b > 1 / 2 ∧
        ¬ overlap area inter b a > 1 / 2) →
      (∀ d ∈ l.foldl (filterStep area inter det) acc,
        P d ∧ det.minDetectionConfidence ≤ d.confidence ∧
        1000 ≤ area d.boundingBox ∧ area d.boundingBox ≤ 50000) ∧
      (l.foldl (filterStep area inter det) acc).Pairwise
        (fun a b => ¬ overlap area inter a b > 1 / 2 ∧ ¬ overlap area inter b a > 1 / 2) := by
  induction l with
  | nil => intro acc _ h1 h2; exact ⟨h1, h2⟩
  | cons d rest ih =>
    intro acc hP h1 h2
    simp only [List.foldl_cons]
    apply ih _ (fun e he => hP e (List.mem_cons_of_mem _ he))
    · intro e he
      unfold filterStep at he
      split_ifs at he with hc ha hd
      · exact h1 e he
      · exact h1 e he
      · exact h1 e he
      · rcases List.mem_append.1 he with he | he
        · exact h1 e he
        · rw [List.mem_singleton.1 he]
          push_neg at ha
          exact ⟨hP d (List.mem_cons_self _ _), not_lt.1 hc, ha.1, ha.2⟩
    · unfold filterStep
      split_ifs with hc ha hd
      · exact h2
      · exact h2
      · exact h2
      · rw [List.pairwise_append]
        refine ⟨h2, List.pairwise_singleton _ _, ?_⟩
        intro a ha1 b hb
        rw [List.mem_singleton.1 hb]
        have hd1 : isDuplicate area inter d acc = false := by simpa using hd
        have := (isDuplicate_eq_false area inter d acc).1 hd1 a ha1
        exact ⟨by rw [overlap_comm area inter hsymm]; exact this, this⟩

/-- In a reachable detector the cap `maxDetectionsPerFrame` is a positive `int`. -/
theorem Reachable.max_bounds {det : EnemyDetector} (h : Reachable det) :
    1 ≤ det.maxDetectionsPerFrame ∧ det.maxDetectionsPerFrame < 2 ^ 31 := by
  induction h with
  | construct => exact ⟨by decide, by decide⟩
  | ready det _ ih => exact ih
  | reset det _ ih => exact ih
  | setDetectionThreshold det v _ ih => exact ih
  | setMinConfidence det v _ ih => exact ih
  | setMaxDetections det m h1 h2 _ ih =>
    show 1 ≤ max 1 m ∧ max 1 m < 2 ^ 31
    exact ⟨le_max_left _ _, max_lt (by norm_num) h2⟩
  | detectEnemies det l _ ih => exact ih

/-- C25.  Let `area` and `&` of `cv::Rect` be such that the area of an intersection is not
negative, not larger than a non-negative area of either rectangle and symmetric, and let
`std::sort` return a permutation in descending confidence order.  For every reachable
detector and every detection list, `FilterDetections` returns at most
`maxDetectionsPerFrame` detections, each of which occurs in the input, has confidence at
least `minDetectionConfidence` and a bounding-box area in [1000, 50000], and no two of
which overlap (intersection over union) by more than 0.5; the denominator of the overlap
is positive for boxes passing the area check.  When more than `maxDetectionsPerFrame`
detections survive the de-duplication, the result and the dropped survivors together are
the survivors, and no dropped survivor has a higher confidence than a kept one; otherwise
the result is the list of survivors. -/
theorem C25_filter_detections (area : Rect → Int) (inter : Rect → Rect → Rect)
    (sortFn : List EnemyDetection → List EnemyDetection) (det : EnemyDetector)
    (hinter : ∀ a b, 0 ≤ area (inter a b) ∧ (0 ≤ area a → area (inter a b) ≤ area a) ∧
      area (inter a b) = area (inter b a))
    (hsort : ∀ l, (sortFn l).Perm l ∧
      (sortFn l).Pairwise (fun a b => b.confidence ≤ a.confidence))
    (hdet : Reachable det) (detections : List EnemyDetection) :
    ((FilterDetections area inter sortFn det detections).length : Int)
      ≤ det.maxDetectionsPerFrame ∧
    (∀ d ∈ FilterDetections area inter sortFn det detections,
      d ∈ detections ∧ det.minDetectionConfidence ≤ d.confidence ∧
      1000 ≤ area d.boundingBox ∧ area d.boundingBox ≤ 50000) ∧
    (FilterDetections area inter sortFn det detections).Pairwise
      (fun a b => ¬ overlap area inter a b > 1 / 2 ∧ ¬ overlap area inter b a > 1 / 2) ∧
    (∀ a b : Rect, 1000 ≤ area a → 1000 ≤ area b →
      0 < area a + area b - area (inter a b)) ∧
    (det.maxDetectionsPerFrame < ((filterLoop area inter det detections).length : Int) →
      ∃ dropped, (FilterDetections area inter sortFn det detections ++ dropped).Perm
          (filterLoop area inter det detections) ∧
        ∀ k ∈ FilterDetections area inter sortFn det detections, ∀ d ∈ dropped,
          d.confidence ≤ k.confidence) ∧
    (((filterLoop area inter det detections).length : Int) ≤ det.maxDetectionsPerFrame →
      FilterDetections area inter sortFn det detections
        = filterLoop area inter det detections) := by
  obtain ⟨hm1, hm2⟩ := hdet.max_bounds
  have hconv : (det.maxDetectionsPerFrame % 2 ^ 64).toNat = det.maxDetectionsPerFrame.toNat := by
    rw [Int.emod_eq_of_lt (by omega) (by omega)]
  have hgt : ∀ n : Nat, sizeGtInt n det.maxDetectionsPerFrame = true ↔
      det.maxDetectionsPerFrame < (n : Int) := by
    intro n
    unfold sizeGtInt
    rw [decide_eq_true_iff, hconv]
    omega
  have hsymm : ∀ a b, area (inter a b) = area (inter b a) := fun a b => (hinter a b).2.2
  obtain ⟨hF1, hF2⟩ := foldl_filterStep_spec area inter hsymm det (fun d => d ∈ detections)
    detections [] (fun d hd => hd) (by intro d hd; simp at hd) List.Pairwise.nil
  have hsymR : ∀ {x y : EnemyDetection},
      (¬ overlap area inter x y > 1 / 2 ∧ ¬ overlap area inter y x > 1 / 2) →
      (¬ overlap area inter y x > 1 / 2 ∧ ¬ overlap area inter x y > 1 / 2) :=
    fun h => ⟨h.2, h.1⟩
  by_cases hbig : det.maxDetectionsPerFrame < ((filterLoop area inter det detections).length : Int)
  · have hval : FilterDetections area inter sortFn det detections
        = (sortFn (filterLoop area inter det detections)).take
            det.maxDetectionsPerFrame.toNat := by
      unfold FilterDetections
      simp only [(hgt _).2 hbig, if_true, hconv]
    obtain ⟨hperm, hsorted⟩ := hsort (filterLoop area inter det detections)
    rw [hval]
    refine ⟨?_, ?_, ?_, ?_, ?_, ?_⟩
    · rw [List.length_take]
      have := min_le_left det.maxDetectionsPerFrame.toNat
        (sortFn (filterLoop area inter det detections)).length
      omega
    · intro d hd
      exact hF1 d (hperm.mem_iff.1 (List.mem_of_mem_take hd))
    · exact ((hperm.pairwise_iff hsymR).2 hF2).sublist (List.take_sublist _ _)
    · intro a b ha hb
      have h1 := (hinter a b).2.1 (by omega)
      omega
    · intro _
      refine ⟨(sortFn (filterLoop area inter det detections)).drop
        det.maxDetectionsPerFrame.toNat, ?_, ?_⟩
      · rw [List.take_append_drop]
        exact hperm
      · intro k hk d hd
        have := hsorted
        rw [← List.take_append_drop det.maxDetectionsPerFrame.toNat
          (sortFn (filterLoop area inter det detections)), List.pairwise_append] at this
        exact this.2.2 k hk d hd
    · intro hle
      exact absurd hbig (not_lt.2 hle)
  · have hval : FilterDetections area inter sortFn det detections
        = filterLoop area inter det detections := by
      unfold FilterDetections
      have : sizeGtInt (filterLoop area inter det detections).length
          det.maxDetectionsPerFrame = false := by
        cases h : sizeGtInt (filterLoop area inter det detections).length
          det.maxDetectionsPerFrame
        · rfl
        · exact absurd ((hgt _).1 h) hbig
      simp only [this, Bool.false_eq_true, if_false]
    rw [hval]
    refine ⟨not_lt.1 hbig, hF1, hF2, ?_, fun h => absurd h hbig, fun _ => rfl⟩
    intro a b ha hb
    have h1 := (hinter a b).2.1 (by omega)
    omega

/-- Witness of C25: the detector with cap 2 on a frame of six detections, of which three
survive the filters and the two with the highest confidence are returned. -/
theorem C25_witness :
    (∀ a b, 0 ≤ rectArea (rectInter a b) ∧
      (0 ≤ rectArea a → rectArea (rectInter a b) ≤ rectArea a) ∧
      rectArea (rectInter a b) = rectArea (rectInter b a)) ∧
    (∀ l, (confidenceSort l).Perm l ∧
      (confidenceSort l).Pairwise (fun a b => b.confidence ≤ a.confidence)) ∧
    Reachable exDetector ∧
    ((FilterDetections rectArea rectInter confidenceSort exDetector exFrame).length : Int)
      ≤ exDetector.maxDetectionsPerFrame ∧
    filterLoop rectArea rectInter exDetector exFrame
      = [exBox 0 (1 / 2), exBox 700 (8 / 10), exBox 900 (6 / 10)] ∧
    FilterDetections rectArea rectInter confidenceSort exDetector exFrame
      = [exBox 700 (8 / 10), exBox 900 (6 / 10)] :=
  ⟨rectInter_spec, confidenceSort_spec,
    Reachable.setMaxDetections _ 2 (by norm_num) (by norm_num) Reachable.construct,
    (C25_filter_detections rectArea rectInter confidenceSort exDetector rectInter_spec
      confidenceSort_spec
      (Reachable.setMaxDetections _ 2 (by norm_num) (by norm_num) Reachable.construct)
      exFrame).1,
    by decide!, by decide!⟩

end EnemyDetector

namespace PositionTracker

/-! ## PositionTracker: saving and loading -/

/-- The characters of a joined list of strings. -/
theorem foldl_append_data (l : List String) : ∀ acc : String,
    (l.foldl (fun r s => r ++ s) acc).data = acc.data ++ l.flatMap String.data := by
  induction l with
  | nil => intro acc; simp
  | cons a rest ih =>
    intro acc
    simp only [List.foldl_cons, ih, String.data_append, List.flatMap_cons, List.append_assoc]

/-- The characters of `String.join`. -/
theorem join_data (l : List String) : (String.join l).data = l.flatMap String.data := by
  unfold String.join
  rw [foldl_append_data]
  rfl

/-- Reading a line that ends with a newline. -/
theorem fileLines_line (body : List Char) (hb : '\n' ∉ body) (rest : List Char) :
    ∀ cur : List Char,
      fileLines (body ++ '\n' :: rest) cur = (cur.reverse ++ body) :: fileLines rest [] := by
  induction body with
  | nil =>
    intro cur
    simp [fileLines]
  | cons b bs ih =>
    intro cur
    have hne : b ≠ '\n' := fun h => hb (by rw [h]; exact List.mem_cons_self _ _)
    have hbs : '\n' ∉ bs := fun h => hb (List.mem_cons_of_mem _ h)
    have hstep : fileLines (b :: (bs ++ '\n' :: rest)) cur
        = fileLines (bs ++ '\n' :: rest) (b :: cur) := by
      simp [fileLines, hne]
    rw [List.cons_append, hstep, ih hbs]
    simp

/-- Reading the lines of a file made of lines that each end with a newline. -/
theorem fileLines_rows (rows : List (List Char)) (h : ∀ r ∈ rows, '\n' ∉ r) :
    fileLines (rows.flatMap (fun r => r ++ ['\n'])) [] = rows := by
  induction rows with
  | nil => rfl
  | cons r rest ih =>
    simp only [List.flatMap_cons, List.append_assoc, List.singleton_append]
    rw [fileLines_line r (h r (List.mem_cons_self _ _)),
      ih (fun r1 hr1 => h r1 (List.mem_cons_of_mem _ hr1))]
    simp

/-- Reading a field that ends with the delimiter. -/
theorem getline_field (delim : Char) (field : List Char) (hf : delim ∉ field)
    (rest : List Char) : getline delim (field ++ delim :: rest) = some (field, rest) := by
  have h1 : ∀ f : List Char, delim ∉ f →
      (f ++ delim :: rest).takeWhile (fun ch => ch != delim) = f ∧
      (f ++ delim :: rest).dropWhile (fun ch => ch != delim) = delim :: rest := by
    intro f
    induction f with
    | nil => intro _; simp
    | cons c cs ih =>
      intro hc
      have hne : c ≠ delim := fun h => hc (by rw [h]; exact List.mem_cons_self _ _)
      have := ih (fun h => hc (List.mem_cons_of_mem _ h))
      simp [List.takeWhile_cons, List.dropWhile_cons, hne, this.1, this.2]
  obtain ⟨h2, h3⟩ := h1 field hf
  cases hfield : field ++ delim :: rest with
  | nil => simp at hfield
  | cons c cs =>
    show some ((c :: cs).takeWhile (fun ch => ch != delim),
      ((c :: cs).dropWhile (fun ch => ch != delim)).tail) = some (field, rest)
    rw [← hfield, h2, h3]
    rfl

/-- The characters of a row written by `SaveTrajectoryData`. -/
theorem trajectoryRow_data (put : ℚ → String) (k : String) (q : EnemyPosition) :
    (trajectoryRow put k q).data =
      (k.data ++ ',' :: ((put q.timestamp).data ++ ',' :: ((put q.position.x).data ++ ',' ::
        ((put q.position.y).data ++ ',' :: ((put q.confidence).data ++ ',' ::
          (if q.isVisible then "true" else "false").data))))) ++ ['\n'] := by
  unfold trajectoryRow
  have hc : (",").data = [','] := rfl
  have hn : ("\n").data = ['\n'] := rfl
  simp only [String.data_append, hc, hn, List.append_assoc, List.singleton_append,
    List.cons_append, List.nil_append]

/-- The fields read back from a row written by `SaveTrajectoryData`. -/
theorem rowFields_row (put : ℚ → String) (k : String) (q : EnemyPosition)
    (hk : ',' ∉ k.data)
    (hput : ',' ∉ (put q.timestamp).data ∧ ',' ∉ (put q.position.x).data ∧
      ',' ∉ (put q.position.y).data ∧ ',' ∉ (put q.confidence).data) :
    rowFields (k.data ++ ',' :: ((put q.timestamp).data ++ ',' :: ((put q.position.x).data
        ++ ',' :: ((put q.position.y).data ++ ',' :: ((put q.confidence).data ++ ',' ::
          (if q.isVisible then "true" else "false").data)))))
      = some (k, put q.timestamp, put q.position.x, put q.position.y, put q.confidence,
          if q.isVisible then "true" else "false") := by
  unfold rowFields
  rw [getline_field ',' _ hk]
  simp only
  rw [getline_field ',' _ hput.1]
  simp only
  rw [getline_field ',' _ hput.2.1]
  simp only
  rw [getline_field ',' _ hput.2.2.1]
  simp only
  rw [getline_field ',' _ hput.2.2.2]
  simp only
  cases q.isVisible <;> rfl

/-- The loop body of `LoadTrajectoryData` on a row written by `SaveTrajectoryData`, when
the numbers are read back as they were. -/
theorem loadRow_row (put : ℚ → String) (stod stof : String → Option ℚ) (uninit : ℚ)
    (st : PositionTracker) (k : String) (q : EnemyPosition) (hk : ',' ∉ k.data)
    (hput : ',' ∉ (put q.timestamp).data ∧ ',' ∉ (put q.position.x).data ∧
      ',' ∉ (put q.position.y).data ∧ ',' ∉ (put q.confidence).data)
    (hrt : stod (put q.timestamp) = some q.timestamp ∧
      stof (put q.position.x) = some q.position.x ∧
      stof (put q.position.y) = some q.position.y ∧
      stod (put q.confidence) = some q.confidence) :
    loadRow stod stof uninit st
      (k.data ++ ',' :: ((put q.timestamp).data ++ ',' :: ((put q.position.x).data
        ++ ',' :: ((put q.position.y).data ++ ',' :: ((put q.confidence).data ++ ',' ::
          (if q.isVisible then "true" else "false").data)))))
      = some (storePosition uninit st (reloaded k q)) := by
  unfold loadRow
  rw [rowFields_row put k q hk hput]
  simp only [hrt.1, hrt.2.1, hrt.2.2.1, hrt.2.2.2]
  congr 2
  unfold reloaded
  cases q with
  | mk position timestamp confidence enemyId isVisible =>
    cases isVisible <;> simp

/-- Looking up the key of the first entry. -/
theorem lookup_cons_self {V : Type} (k : String) (v : V) (l : List (String × V)) :
    ((k, v) :: l).lookup k = some v := by
  simp [List.lookup_cons]

/-- Looking up a key other than that of the first entry. -/
theorem lookup_cons_ne {V : Type} (k k0 : String) (v0 : V) (l : List (String × V))
    (h : k ≠ k0) : ((k0, v0) :: l).lookup k = l.lookup k := by
  have hb : (k == k0) = false := by simpa using h
  rw [List.lookup_cons]
  simp only [hb]

/-- Looking up a key after the assignment `m[k] = v`. -/
theorem lookup_mapInsert {V : Type} (k : String) (v : V) (k1 : String) :
    ∀ l : List (String × V),
      (mapInsert k v l).lookup k1 = if k1 = k then some v else l.lookup k1 := by
  intro l
  induction l with
  | nil =>
    unfold mapInsert
    by_cases h : k1 = k
    · rw [if_pos h, h, lookup_cons_self]
    · rw [if_neg h, lookup_cons_ne _ _ _ _ h]
  | cons kv rest ih =>
    obtain ⟨k0, v0⟩ := kv
    unfold mapInsert
    by_cases h1 : k < k0
    · rw [if_pos h1]
      by_cases h : k1 = k
      · rw [if_pos h, h, lookup_cons_self]
      · rw [if_neg h, lookup_cons_ne _ _ _ _ h]
    · rw [if_neg h1]
      by_cases h2 : k0 < k
      · rw [if_pos h2]
        have hne : k ≠ k0 := fun h => by rw [h] at h2; exact lt_irrefl _ h2
        by_cases h0 : k1 = k0
        · have hk : ¬ k1 = k := by rw [h0]; exact fun e => hne e.symm
          rw [if_neg hk, h0, lookup_cons_self, lookup_cons_self]
        · rw [lookup_cons_ne _ _ _ _ h0, lookup_cons_ne _ _ _ _ h0, ih]
      · rw [if_neg h2]
        have heq : k = k0 := by
          rcases lt_trichotomy k k0 with h | h | h
          · exact absurd h h1
          · exact h
          · exact absurd h h2
        subst heq
        by_cases h : k1 = k
        · rw [if_pos h, h, lookup_cons_self]
        · rw [if_neg h, lookup_cons_ne _ _ _ _ h, lookup_cons_ne _ _ _ _ h]

/-- Looking up a key after the positions under one key have been changed. -/
theorem lookup_map_key (k : String) (g : EnemyTrajectory → EnemyTrajectory) (k1 : String) :
    ∀ l : List (String × EnemyTrajectory),
      (l.map (fun kv => if kv.1 = k then (kv.1, g kv.2) else kv)).lookup k1
        = if k1 = k then (l.lookup k1).map g else l.lookup k1 := by
  intro l
  induction l with
  | nil => simp
  | cons kv rest ih =>
    obtain ⟨k0, v0⟩ := kv
    rw [List.map_cons]
    by_cases h2 : k1 = k0
    · subst h2
      by_cases h0 : k1 = k
      · simp only [h0, if_true, lookup_cons_self, Option.map_some']
      · simp only [h0, if_false, lookup_cons_self]
    · have hfst : (if (k0, v0).1 = k then ((k0, v0).1, g (k0, v0).2) else (k0, v0))
          = (k0, if k0 = k then g v0 else v0) := by
        by_cases h0 : k0 = k
        · simp [h0]
        · simp [h0]
      rw [hfst, lookup_cons_ne _ _ _ _ h2, lookup_cons_ne _ _ _ _ h2, ih]

/-- The test `find(enemyId) == end()` in terms of the lookup. -/
theorem all_ne_iff_lookup (k : String) :
    ∀ l : List (String × EnemyTrajectory),
      l.all (fun kv => kv.1 != k) = true ↔ l.lookup k = none := by
  intro l
  induction l with
  | nil => simp
  | cons kv rest ih =>
    obtain ⟨k0, v0⟩ := kv
    by_cases h : k = k0
    · subst h
      rw [lookup_cons_self]
      simp
    · have h2 : ¬ k0 = k := fun e => h e.symm
      rw [lookup_cons_ne _ _ _ _ h, ← ih]
      simp [h2]

/-- An entry found by the lookup is in the map. -/
theorem mem_of_lookup (k : String) (v : EnemyTrajectory) :
    ∀ l : List (String × EnemyTrajectory), l.lookup k = some v → (k, v) ∈ l := by
  intro l
  induction l with
  | nil => simp
  | cons kv rest ih =>
    obtain ⟨k0, v0⟩ := kv
    by_cases h : k = k0
    · subst h
      rw [lookup_cons_self]
      intro h1
      rw [Option.some.injEq] at h1
      rw [h1]
      exact List.mem_cons_self _ _
    · rw [lookup_cons_ne _ _ _ _ h]
      intro h1
      exact List.mem_cons_of_mem _ (ih h1)

/-- The positions under every id after a position has been stored. -/
theorem positionsOf_storePosition (uninit : ℚ) (st : PositionTracker) (pos : EnemyPosition)
    (k : String) :
    positionsOf (storePosition uninit st pos) k =
      if k = pos.enemyId then positionsOf st k ++ [pos] else positionsOf st k := by
  unfold positionsOf storePosition
  simp only
  by_cases habs : st.enemyTrajectories.all (fun kv => kv.1 != pos.enemyId) = true
  · have hnone := (all_ne_iff_lookup pos.enemyId _).1 habs
    rw [if_pos habs]
    simp only
    have hmap := lookup_map_key pos.enemyId
      (fun tr => { tr with positions := tr.positions ++ [pos] }) k
      (mapInsert pos.enemyId
        ({ enemyId := pos.enemyId, positions := [], firstSeen := pos.timestamp,
           lastSeen := pos.timestamp, isActive := false, predictedNextPosition := ⟨0, 0⟩,
           movementSpeed := uninit, movementPattern := "" } : EnemyTrajectory)
        st.enemyTrajectories)
    simp only at hmap
    rw [hmap, lookup_mapInsert]
    by_cases h : k = pos.enemyId
    · simp [h, hnone]
    · simp [h]
  · rw [if_neg habs]
    have hmap := lookup_map_key pos.enemyId
      (fun tr => { tr with positions := tr.positions ++ [pos] }) k st.enemyTrajectories
    simp only at hmap
    rw [hmap]
    have hsome : st.enemyTrajectories.lookup pos.enemyId ≠ none :=
      fun h => habs ((all_ne_iff_lookup pos.enemyId _).2 h)
    by_cases h : k = pos.enemyId
    · subst h
      cases hl : st.enemyTrajectories.lookup pos.enemyId with
      | none => exact absurd hl hsome
      | some tr => simp
    · simp [h]

/-- The positions under every id after a list of positions has been stored. -/
theorem positionsOf_foldl (uninit : ℚ) (k : String) (poses : List EnemyPosition) :
    ∀ st : PositionTracker,
      positionsOf (poses.foldl (storePosition uninit) st) k =
        positionsOf st k ++ poses.filter (fun pos => decide (pos.enemyId = k)) := by
  induction poses with
  | nil => intro st; simp
  | cons pos rest ih =>
    intro st
    simp only [List.foldl_cons]
    rw [ih, positionsOf_storePosition]
    by_cases h : k = pos.enemyId
    · simp [h, List.filter_cons]
    · have : ¬ pos.enemyId = k := fun e => h e.symm
      simp [h, this, List.filter_cons]

/-- The loop of `LoadTrajectoryData` over the rows written for a list of positions, when
the numbers are read back as they were, stores the positions one after the other. -/
theorem loadLoop_rows (put : ℚ → String) (stod stof : String → Option ℚ) (uninit : ℚ)
    (rows : List (String × EnemyPosition))
    (hk : ∀ r ∈ rows, ',' ∉ r.1.data)
    (hput : ∀ r ∈ rows, ',' ∉ (put r.2.timestamp).data ∧ ',' ∉ (put r.2.position.x).data ∧
      ',' ∉ (put r.2.position.y).data ∧ ',' ∉ (put r.2.confidence).data)
    (hrt : ∀ r ∈ rows, stod (put r.2.timestamp) = some r.2.timestamp ∧
      stof (put r.2.position.x) = some r.2.position.x ∧
      stof (put r.2.position.y) = some r.2.position.y ∧
      stod (put r.2.confidence) = some r.2.confidence) :
    ∀ st : PositionTracker,
      loadLoop stod stof uninit st (rows.map (fun r =>
        r.1.data ++ ',' :: ((put r.2.timestamp).data ++ ',' :: ((put r.2.position.x).data
          ++ ',' :: ((put r.2.position.y).data ++ ',' :: ((put r.2.confidence).data ++ ',' ::
            (if r.2.isVisible then "true" else "false").data))))))
      = some ((rows.map (fun r => reloaded r.1 r.2)).foldl (storePosition uninit) st) := by
  induction rows with
  | nil => intro st; rfl
  | cons r rest ih =>
    intro st
    simp only [List.map_cons, List.foldl_cons]
    unfold loadLoop
    rw [loadRow_row put stod stof uninit st r.1 r.2 (hk r (List.mem_cons_self _ _))
      (hput r (List.mem_cons_self _ _)) (hrt r (List.mem_cons_self _ _))]
    simp only
    exact ih (fun r1 h => hk r1 (List.mem_cons_of_mem _ h))
      (fun r1 h => hput r1 (List.mem_cons_of_mem _ h))
      (fun r1 h => hrt r1 (List.mem_cons_of_mem _ h)) _

/-- The rows written for the entries of a map, filtered by the id of an entry whose key
occurs once: the positions of that entry. -/
theorem filter_rows_of_nodup (k : String) (tr : EnemyTrajectory) :
    ∀ l : List (String × EnemyTrajectory), (l.map Prod.fst).Nodup → (k, tr) ∈ l →
      ((l.flatMap (fun kv => kv.2.positions.map (fun q => (kv.1, q)))).map
          (fun r => reloaded r.1 r.2)).filter (fun pos => decide (pos.enemyId = k))
        = tr.positions.map (reloaded k) := by
  have hnone : ∀ l : List (String × EnemyTrajectory), k ∉ l.map Prod.fst →
      ((l.flatMap (fun kv => kv.2.positions.map (fun q => (kv.1, q)))).map
          (fun r => reloaded r.1 r.2)).filter (fun pos => decide (pos.enemyId = k)) = [] := by
    intro l hl
    rw [List.filter_eq_nil_iff]
    intro pos hpos
    obtain ⟨r, hr, rfl⟩ := List.mem_map.1 hpos
    obtain ⟨kv, hkv, hr2⟩ := List.mem_flatMap.1 hr
    obtain ⟨q, -, rfl⟩ := List.mem_map.1 hr2
    have : kv.1 ≠ k := fun e => hl (by rw [← e]; exact List.mem_map_of_mem Prod.fst hkv)
    simpa [reloaded] using this
  intro l
  induction l with
  | nil => intro _ h; simp at h
  | cons kv rest ih =>
    intro hnd hmem
    rw [List.map_cons, List.nodup_cons] at hnd
    simp only [List.flatMap_cons, List.map_append, List.filter_append, List.map_map]
    rcases List.mem_cons.1 hmem with h | h
    · subst h
      have h1 := hnone rest hnd.1
      simp only [List.map_map] at h1
      rw [h1, List.append_nil, List.filter_eq_self.2]
      · rfl
      · intro pos hpos
        obtain ⟨q, -, rfl⟩ := List.mem_map.1 hpos
        simp [reloaded]
    · have hne : kv.1 ≠ k := fun e => hnd.1 (by
        rw [e]; exact List.mem_map_of_mem Prod.fst h)
      have h2 := ih hnd.2 h
      simp only [List.map_map] at h2
      rw [h2, List.filter_eq_nil_iff.2, List.nil_append]
      intro pos hpos
      obtain ⟨q, -, rfl⟩ := List.mem_map.1 hpos
      simpa [reloaded] using hne

/-- The round trip of `SaveTrajectoryData` and `LoadTrajectoryData` when the library
functions read every saved number back as it was.  Let the ids of the tracker be distinct
and free of commas and newlines, let the text written for the numbers of the retained
positions be free of commas and newlines, and let `stod` and `stof` return each of these
numbers from the text written for it.  Then loading the saved file into the reset tracker
succeeds, and every trajectory with a retained position is found under its id with the
same sequence of timestamps, positions, confidences and visible flags. -/
theorem saveLoad_round_trip (put : ℚ → String) (stod stof : String → Option ℚ) (uninit : ℚ)
    (s : PositionTracker)
    (hkeys : (s.enemyTrajectories.map Prod.fst).Nodup)
    (hsep : ∀ kv ∈ s.enemyTrajectories, ',' ∉ kv.1.data ∧ '\n' ∉ kv.1.data)
    (hput : ∀ kv ∈ s.enemyTrajectories, ∀ q ∈ kv.2.positions,
      ∀ v ∈ [q.timestamp, q.position.x, q.position.y, q.confidence],
        ',' ∉ (put v).data ∧ '\n' ∉ (put v).data)
    (hrt : ∀ kv ∈ s.enemyTrajectories, ∀ q ∈ kv.2.positions,
      stod (put q.timestamp) = some q.timestamp ∧
      stof (put q.position.x) = some q.position.x ∧
      stof (put q.position.y) = some q.position.y ∧
      stod (put q.confidence) = some q.confidence) :
    ∃ s1, LoadTrajectoryData stod stof uninit (Reset s) (SaveTrajectoryData put s) = some s1 ∧
      ∀ kv ∈ s.enemyTrajectories, kv.2.positions ≠ [] →
        ∃ kv1 ∈ s1.enemyTrajectories, kv1.1 = kv.1 ∧
          kv1.2.positions.map
              (fun q => (q.timestamp, q.position, q.confidence, q.isVisible))
            = kv.2.positions.map
              (fun q => (q.timestamp, q.position, q.confidence, q.isVisible)) := by
  set rows : List (String × EnemyPosition) :=
    s.enemyTrajectories.flatMap (fun kv => kv.2.positions.map (fun q => (kv.1, q))) with hrows
  have hrow : ∀ r ∈ rows, ∃ kv ∈ s.enemyTrajectories, r.1 = kv.1 ∧ r.2 ∈ kv.2.positions := by
    intro r hr
    obtain ⟨kv, hkv, hr2⟩ := List.mem_flatMap.1 hr
    obtain ⟨q, hq, rfl⟩ := List.mem_map.1 hr2
    exact ⟨kv, hkv, rfl, hq⟩
  set body : String × EnemyPosition → List Char := fun r =>
    r.1.data ++ ',' :: ((put r.2.timestamp).data ++ ',' :: ((put r.2.position.x).data
      ++ ',' :: ((put r.2.position.y).data ++ ',' :: ((put r.2.confidence).data ++ ',' ::
        (if r.2.isVisible then "true" else "false").data)))) with hbody
  have hdata : (SaveTrajectoryData put s).toList
      = "enemy_id,timestamp,x,y,confidence,is_visible".data ++ '\n' ::
          (rows.map body).flatMap (fun r => r ++ ['\n']) := by
    unfold SaveTrajectoryData
    show (_ ++ _ : String).data = _
    rw [String.data_append, join_data]
    have h1 : ("enemy_id,timestamp,x,y,confidence,is_visible\n").data
        = "enemy_id,timestamp,x,y,confidence,is_visible".data ++ ['\n'] := by decide
    rw [h1, List.append_assoc, List.singleton_append]
    congr 2
    rw [hrows]
    simp only [List.flatMap_map, List.map_flatMap, List.flatMap_assoc, List.map_map]
    congr 1
    funext kv
    induction kv.2.positions with
    | nil => rfl
    | cons q rest ih =>
      simp only [List.map_cons, List.flatMap_cons, ih]
      congr 1
      exact trajectoryRow_data put kv.1 q
  have hnl : ∀ r ∈ rows.map body, '\n' ∉ r := by
    intro b hb
    obtain ⟨r, hr, rfl⟩ := List.mem_map.1 hb
    obtain ⟨kv, hkv, hk, hq⟩ := hrow r hr
    have hp := hput kv hkv r.2 hq
    have hvis : '\n' ∉ (if r.2.isVisible then "true" else "false").data := by
      cases r.2.isVisible <;> decide
    simp only [hbody, List.mem_append, List.mem_cons, not_or]
    refine ⟨by rw [hk]; exact (hsep kv hkv).2, by decide,
      (hp _ (by simp)).2, by decide, (hp _ (by simp)).2, by decide, (hp _ (by simp)).2,
      by decide, (hp _ (by simp)).2, by decide, hvis⟩
  have hload : LoadTrajectoryData stod stof uninit (Reset s) (SaveTrajectoryData put s)
      = some ((rows.map (fun r => reloaded r.1 r.2)).foldl (storePosition uninit) (Reset s)) := by
    unfold LoadTrajectoryData
    rw [hdata, fileLines_line _ (by decide), fileLines_rows _ hnl]
    simp only [List.drop_succ_cons, List.drop_zero]
    apply loadLoop_rows put stod stof uninit rows
    · intro r hr
      obtain ⟨kv, hkv, hk, -⟩ := hrow r hr
      rw [hk]
      exact (hsep kv hkv).1
    · intro r hr
      obtain ⟨kv, hkv, -, hq⟩ := hrow r hr
      have hp := hput kv hkv r.2 hq
      exact ⟨(hp _ (by simp)).1, (hp _ (by simp)).1, (hp _ (by simp)).1, (hp _ (by simp)).1⟩
    · intro r hr
      obtain ⟨kv, hkv, -, hq⟩ := hrow r hr
      exact hrt kv hkv r.2 hq
  refine ⟨_, hload, ?_⟩
  intro kv hkv hne
  have hpos := positionsOf_foldl uninit kv.1 (rows.map (fun r => reloaded r.1 r.2)) (Reset s)
  rw [hrows, filter_rows_of_nodup kv.1 kv.2 _ hkeys hkv] at hpos
  have hreset : positionsOf (Reset s) kv.1 = [] := rfl
  rw [hreset, List.nil_append] at hpos
  unfold positionsOf at hpos
  cases hl : List.lookup kv.1
      ((List.map (fun r => reloaded r.1 r.2)
        (s.enemyTrajectories.flatMap
          (fun kv => kv.2.positions.map (fun q => (kv.1, q))))).foldl
        (storePosition uninit) (Reset s)).enemyTrajectories with
  | none =>
    rw [hl] at hpos
    simp only [Option.map_none', Option.getD_none] at hpos
    exact absurd (List.map_eq_nil_iff.1 hpos.symm) hne
  | some tr1 =>
    rw [hl] at hpos
    simp only [Option.map_some', Option.getD_some] at hpos
    refine ⟨(kv.1, tr1), mem_of_lookup _ _ _ hl, rfl, ?_⟩
    simp only [hpos, List.map_map]
    rfl

/-- The round trip on the tracker `exTrackerDeath`, whose numbers 10, 150, 100 and 0.9 have
fewer than six significant digits: the hypotheses of `saveLoad_round_trip` hold. -/
theorem saveLoad_round_trip_example :
    ∃ s1, LoadTrajectoryData stodDecimal stodDecimal 0 (Reset exTrackerDeath)
        (SaveTrajectoryData putDefault exTrackerDeath) = some s1 ∧
      ∀ kv ∈ exTrackerDeath.enemyTrajectories, kv.2.positions ≠ [] →
        ∃ kv1 ∈ s1.enemyTrajectories, kv1.1 = kv.1 ∧
          kv1.2.positions.map
              (fun q => (q.timestamp, q.position, q.confidence, q.isVisible))
            = kv.2.positions.map
              (fun q => (q.timestamp, q.position, q.confidence, q.isVisible)) :=
  saveLoad_round_trip putDefault stodDecimal stodDecimal 0 exTrackerDeath (by decide!)
    (by decide!) (by decide!) (by decide!)

/-- C24 (divergence).  The tracker holds `enemy_1` with one position: (640,360) at
`t = 12.345678`, confidence 0.9, visible.  `SaveTrajectoryData` writes the timestamp with
the six significant digits of the default stream format, as `12.3457`, and
`LoadTrajectoryData` on a reset tracker succeeds and reads back the timestamp 12.3457: x,
y, confidence and the visible flag are reproduced, the timestamp is not. -/
theorem C24_round_trip_divergence :
    trajectoryRows exTrackerSaved = [("enemy_1", 12345678 / 1000000, 640, 360, 9 / 10, true)] ∧
    SaveTrajectoryData putDefault exTrackerSaved
      = "enemy_id,timestamp,x,y,confidence,is_visible\nenemy_1,12.3457,640,360,0.9,true\n" ∧
    (LoadTrajectoryData stodDecimal stodDecimal 0 (Reset exTrackerSaved)
        (SaveTrajectoryData putDefault exTrackerSaved)).isSome = true ∧
    (LoadTrajectoryData stodDecimal stodDecimal 0 (Reset exTrackerSaved)
        (SaveTrajectoryData putDefault exTrackerSaved)).toList.flatMap trajectoryRows
      = [("enemy_1", 123457 / 10000, 640, 360, 9 / 10, true)] ∧
    (123457 / 10000 : ℚ) ≠ 12345678 / 1000000 := by
  refine ⟨by decide!, by decide!, by decide!, by decide!, by norm_num⟩

end PositionTracker

/-! ## Lists and maps: ordered keys -/

/-- The entry assigned is in the map. -/
theorem mapInsert_mem_self {V : Type} (k : String) (v : V) :
    ∀ l : List (String × V), (k, v) ∈ mapInsert k v l := by
  intro l
  induction l with
  | nil => simp [mapInsert]
  | cons e rest ih =>
    obtain ⟨k1, v1⟩ := e
    unfold mapInsert
    split_ifs
    · exact List.mem_cons_self _ _
    · exact List.mem_cons_of_mem _ ih
    · exact List.mem_cons_self _ _

/-- An assignment keeps the entries under the other keys. -/
theorem mem_mapInsert_of_ne {V : Type} (k : String) (v : V) (kv : String × V) :
    ∀ l : List (String × V), kv ∈ l → kv.1 ≠ k → kv ∈ mapInsert k v l := by
  intro l
  induction l with
  | nil => intro h; simp at h
  | cons e rest ih =>
    obtain ⟨k1, v1⟩ := e
    intro h hne
    unfold mapInsert
    split_ifs with h1 h2
    · exact List.mem_cons_of_mem _ h
    · rcases List.mem_cons.1 h with h | h
      · rw [h]; exact List.mem_cons_self _ _
      · exact List.mem_cons_of_mem _ (ih h hne)
    · have heq : k = k1 := by
        rcases lt_trichotomy k k1 with h3 | h3 | h3
        · exact absurd h3 h1
        · exact h3
        · exact absurd h3 h2
      rcases List.mem_cons.1 h with h | h
      · rw [h] at hne
        exact absurd heq.symm hne
      · exact List.mem_cons_of_mem _ h

/-- An assignment keeps the keys in strictly increasing order. -/
theorem mapInsert_sorted {V : Type} (k : String) (v : V) :
    ∀ l : List (String × V), (l.map Prod.fst).Sorted (· < ·) →
      ((mapInsert k v l).map Prod.fst).Sorted (· < ·) := by
  intro l
  induction l with
  | nil => intro _; simp [mapInsert]
  | cons e rest ih =>
    obtain ⟨k1, v1⟩ := e
    intro hs
    rw [List.map_cons, List.sorted_cons] at hs
    unfold mapInsert
    split_ifs with h1 h2
    · simp only [List.map_cons, List.sorted_cons, List.mem_cons, forall_eq_or_imp]
      exact ⟨⟨h1, fun b hb => lt_trans h1 (hs.1 b hb)⟩, hs.1, hs.2⟩
    · rw [List.map_cons, List.sorted_cons]
      refine ⟨?_, ih hs.2⟩
      intro b hb
      obtain ⟨kv, hkv, rfl⟩ := List.mem_map.1 hb
      rcases mem_mapInsert k v kv rest hkv with h | h
      · rw [h]; exact h2
      · exact hs.1 _ (List.mem_map_of_mem Prod.fst h)
    · have heq : k = k1 := by
        rcases lt_trichotomy k k1 with h3 | h3 | h3
        · exact absurd h3 h1
        · exact h3
        · exact absurd h3 h2
      rw [List.map_cons, List.sorted_cons]
      exact ⟨fun b hb => by rw [heq]; exact hs.1 b hb, hs.2⟩

/-- In a map with strictly increasing keys an id has one entry. -/
theorem entry_unique {V : Type} (l : List (String × V)) (hs : (l.map Prod.fst).Sorted (· < ·))
    (a b : String × V) (ha : a ∈ l) (hb : b ∈ l) (h : a.1 = b.1) : a = b :=
  List.inj_on_of_nodup_map hs.nodup ha hb h

namespace PositionTracker

/-! ## PositionTracker: trackers built by the member functions -/

/-- The loop body of `UpdateEnemyPositions` keeps the keys in strictly increasing order. -/
theorem sortedKeys_processDetection (nrm : Point2f → ℚ) (t : ℚ) (s : PositionTracker)
    (d : EnemyDetection) (h : SortedKeys s) : SortedKeys (processDetection nrm t s d) := by
  have hf : ((FindEnemyTrajectory nrm s d.center t).1.enemyTrajectories.map Prod.fst).Sorted
      (· < ·) := by
    rw [find_keys]
    exact h
  unfold SortedKeys
  cases hr : (FindEnemyTrajectory nrm s d.center t).2 with
  | some i =>
    rw [processDetection_some nrm t s d i hr]
    simp only
    rw [map_fst_modify_of_fst
      (fun kv => (kv.1, UpdateTrajectory kv.2 (observed d t kv.2.enemyId))) (fun kv => rfl)]
    exact hf
  | none =>
    rw [processDetection_none nrm t s d hr]
    exact mapInsert_sorted _ _ _ hf

/-- The first loop of `UpdateEnemyPositions` keeps the keys in strictly increasing
order. -/
theorem sortedKeys_loopState (nrm : Point2f → ℚ) (s : PositionTracker) (t : ℚ)
    (h : SortedKeys s) (obs : List EnemyDetection) : SortedKeys (loopState nrm s t obs) := by
  have h1 : SortedKeys (CleanupOldTrajectories s t) := by
    unfold SortedKeys
    rw [cleanup_keys]
    exact h
  unfold loopState
  generalize CleanupOldTrajectories s t = st at h1
  induction obs generalizing st with
  | nil => exact h1
  | cons d rest ih => exact ih _ (sortedKeys_processDetection nrm t st d h1)

/-- The function `UpdateEnemyPositions` keeps the keys in strictly increasing order. -/
theorem sortedKeys_update (nrm : Point2f → ℚ) (s : PositionTracker) (obs : List EnemyDetection)
    (t : ℚ) (h : SortedKeys s) : SortedKeys (UpdateEnemyPositions nrm s obs t) := by
  have h1 := sortedKeys_loopState nrm s t h obs
  unfold SortedKeys at h1 ⊢
  rw [update_trajectories, map_fst_map_of_fst
    (fun kv => (kv.1, refreshTrajectory nrm
      (obs.foldl (processDetection nrm t) (CleanupOldTrajectories s t)) kv.2)) (fun kv => rfl)]
  exact h1

/-- Storing a loaded position keeps the keys in strictly increasing order. -/
theorem sortedKeys_storePosition (uninit : ℚ) (s : PositionTracker) (pos : EnemyPosition)
    (h : SortedKeys s) : SortedKeys (storePosition uninit s pos) := by
  have hkeys : ∀ l : List (String × EnemyTrajectory),
      (l.map (fun kv => if kv.1 = pos.enemyId then
        (kv.1, ({ kv.2 with positions := kv.2.positions ++ [pos] } : EnemyTrajectory))
        else kv)).map Prod.fst = l.map Prod.fst := by
    intro l
    apply map_fst_map_of_fst
    intro kv
    split_ifs <;> rfl
  unfold SortedKeys storePosition
  simp only
  rw [hkeys]
  split_ifs
  · exact mapInsert_sorted _ _ _ h
  · exact h

/-- Every tracker that the member functions can build has its keys in strictly increasing
order and a timeout of at least 0.5. -/
theorem Built.valid {nrm : Point2f → ℚ} {s : PositionTracker} (h : Built nrm s) :
    SortedKeys s ∧ 1 / 2 ≤ s.trajectoryTimeout := by
  induction h with
  | construct => exact ⟨by simp [SortedKeys, new], by norm_num [new]⟩
  | setTrackingDistance s v _ ih => exact ih
  | setTrajectoryTimeout s v _ ih => exact ⟨ih.1, le_max_left _ _⟩
  | setMinPositionsForTrajectory s m _ _ _ ih => exact ih
  | setDeathAnalysisRadius s v _ ih => exact ih
  | setVisibilityThreshold s v _ ih => exact ih
  | reset s _ ih => exact ⟨by simp [SortedKeys, Reset], ih.2⟩
  | update s obs t _ ih =>
    exact ⟨sortedKeys_update nrm s obs t ih.1, by rw [(update_config nrm s obs t).2.1]; exact ih.2⟩
  | analyzeDeath s u p t _ ih => exact ih
  | loadTrajectoryData s u pos _ ih =>
    refine ⟨sortedKeys_storePosition u s pos ih.1, ?_⟩
    have : (storePosition u s pos).trajectoryTimeout = s.trajectoryTimeout := by
      unfold storePosition
      simp only
      split_ifs <;> rfl
    rw [this]
    exact ih.2

/-- Every tracker of a run is one that the member functions can build. -/
theorem Run.built {nrm : Point2f → ℚ} {s : PositionTracker} (h : Run nrm s) : Built nrm s := by
  induction h with
  | construct => exact Built.construct
  | setTrackingDistance s v _ ih => exact Built.setTrackingDistance s v ih
  | setTrajectoryTimeout s v _ ih => exact Built.setTrajectoryTimeout s v ih
  | setMinPositionsForTrajectory s m h1 h2 _ ih =>
    exact Built.setMinPositionsForTrajectory s m h1 h2 ih
  | setDeathAnalysisRadius s v _ ih => exact Built.setDeathAnalysisRadius s v ih
  | setVisibilityThreshold s v _ ih => exact Built.setVisibilityThreshold s v ih
  | reset s _ ih => exact Built.reset s ih
  | update s obs t _ ih => exact Built.update s obs t ih
  | analyzeDeath s u p t _ ih => exact Built.analyzeDeath s u p t ih

/-- The loop body of `UpdateEnemyPositions` allocates an id exactly when no trajectory is
found. -/
theorem processDetection_nextEnemyId (nrm : Point2f → ℚ) (t : ℚ) (s : PositionTracker)
    (d : EnemyDetection) :
    ((∃ i, (FindEnemyTrajectory nrm s d.center t).2 = some i) →
      (processDetection nrm t s d).nextEnemyId = s.nextEnemyId) ∧
    ((FindEnemyTrajectory nrm s d.center t).2 = none →
      (processDetection nrm t s d).nextEnemyId = s.nextEnemyId + 1) ∧
    s.nextEnemyId ≤ (processDetection nrm t s d).nextEnemyId := by
  cases hf : (FindEnemyTrajectory nrm s d.center t).2 with
  | some i =>
    have h : (processDetection nrm t s d).nextEnemyId = s.nextEnemyId := by
      rw [processDetection_some nrm t s d i hf, find_fst]
    exact ⟨fun _ => h, fun h1 => by simp at h1, le_of_eq h.symm⟩
  | none =>
    have h : (processDetection nrm t s d).nextEnemyId = s.nextEnemyId + 1 := by
      rw [processDetection_none nrm t s d hf]
    exact ⟨fun ⟨i, hi⟩ => by simp at hi, fun _ => h, by rw [h]; omega⟩

/-- The first loop of `UpdateEnemyPositions` never lowers the counter. -/
theorem foldl_nextEnemyId_le (nrm : Point2f → ℚ) (t : ℚ) (obs : List EnemyDetection) :
    ∀ s : PositionTracker,
      s.nextEnemyId ≤ (obs.foldl (processDetection nrm t) s).nextEnemyId := by
  induction obs with
  | nil => intro s; exact le_rfl
  | cons d rest ih =>
    intro s
    exact le_trans (processDetection_nextEnemyId nrm t s d).2.2 (ih _)

/-- Every tracker that the member functions can build has a positive counter. -/
theorem Built.counter_pos {nrm : Point2f → ℚ} {s : PositionTracker} (h : Built nrm s) :
    1 ≤ s.nextEnemyId := by
  induction h with
  | construct => exact le_rfl
  | setTrackingDistance s v _ ih => exact ih
  | setTrajectoryTimeout s v _ ih => exact ih
  | setMinPositionsForTrajectory s m _ _ _ ih => exact ih
  | setDeathAnalysisRadius s v _ ih => exact ih
  | setVisibilityThreshold s v _ ih => exact ih
  | reset s _ _ => exact le_rfl
  | update s obs t _ ih =>
    rw [update_nextEnemyId]
    exact le_trans ih (foldl_nextEnemyId_le nrm t obs (CleanupOldTrajectories s t))
  | analyzeDeath s u p t _ ih =>
    have : (AnalyzeDeath nrm u s p t).nextEnemyId = s.nextEnemyId := by
      unfold AnalyzeDeath
      rfl
    rw [this]
    exact ih
  | loadTrajectoryData s u pos _ ih =>
    have : (storePosition u s pos).nextEnemyId = s.nextEnemyId := by
      unfold storePosition
      simp only
      split_ifs <;> rfl
    rw [this]
    exact ih

/-- The loop body of `UpdateEnemyPositions` on an active trajectory last seen in this
frame, held under an id other than the next one to be allocated: the entry is kept as it
is, or the observation is appended to it, and then the observation is within
`maxTrackingDistance` of one of its positions. -/
theorem processDetection_keeps_entry (nrm : Point2f → ℚ) (t : ℚ) (s : PositionTracker)
    (d : EnemyDetection) (h0 : 0 ≤ s.trajectoryTimeout) (id : String) (tr : EnemyTrajectory)
    (hmem : (id, tr) ∈ s.enemyTrajectories) (hlast : tr.lastSeen = t)
    (hfresh : "enemy_" ++ toString s.nextEnemyId ≠ id) :
    (id, tr) ∈ (processDetection nrm t s d).enemyTrajectories ∨
    ((id, UpdateTrajectory tr (observed d t tr.enemyId))
        ∈ (processDetection nrm t s d).enemyTrajectories ∧
      ∃ pos ∈ tr.positions, nrm (d.center - pos.position) < s.maxTrackingDistance) := by
  have hlive : t - tr.lastSeen ≤ s.trajectoryTimeout := by
    rw [hlast]
    simpa using h0
  have hmem1 : (id, tr) ∈ (FindEnemyTrajectory nrm s d.center t).1.enemyTrajectories := by
    rw [find_fst]
    have := List.mem_map_of_mem (deactivateTimedOut s.trajectoryTimeout t) hmem
    rwa [deactivateTimedOut_of_live _ _ _ hlive] at this
  cases hf : (FindEnemyTrajectory nrm s d.center t).2 with
  | none =>
    left
    rw [processDetection_none nrm t s d hf]
    exact mem_mapInsert_of_ne _ _ _ _ hmem1 (fun e => hfresh e.symm)
  | some i =>
    obtain ⟨j, hj⟩ := List.getElem?_of_mem hmem1
    rw [processDetection_some nrm t s d i hf]
    by_cases hij : i = j
    · right
      constructor
      · apply List.getElem?_mem (n := j)
        simp only
        rw [List.getElem?_modify, hj]
        simp [hij]
      · obtain ⟨kv, -, h2, -, -, pos, hpos, hd, -⟩ := find_some_spec nrm s d.center t i hf
        rw [hij, hj, Option.some.injEq] at h2
        rw [← h2] at hpos
        exact ⟨pos, hpos, hd⟩
    · left
      apply List.getElem?_mem (n := j)
      simp only
      rw [List.getElem?_modify_ne _ _ hij, hj]

/-- Appending a position to a trajectory whose positions all have its timestamp drops
none of them. -/
theorem updateTrajectory_same_time (tr : EnemyTrajectory) (p : EnemyPosition)
    (h : ∀ q ∈ tr.positions, q.timestamp = p.timestamp) :
    (UpdateTrajectory tr p).positions = tr.positions ++ [p] := by
  rw [updateTrajectory_positions_ge, List.filter_eq_self.2]
  intro q hq
  rw [h q hq]
  simp

/-- The first loop of `UpdateEnemyPositions` on a trajectory created in this frame, for
the observations that follow: the trajectory stays in the map under its id, active, and
its positions are extended by some of these observations. -/
theorem foldl_extends (nrm : Point2f → ℚ) (t : ℚ) (n0 : Int) (hn0 : 0 ≤ n0)
    (obs : List EnemyDetection) :
    ∀ (s : PositionTracker) (tr : EnemyTrajectory), 0 ≤ s.trajectoryTimeout →
      n0 < s.nextEnemyId → ("enemy_" ++ toString n0, tr) ∈ s.enemyTrajectories →
      tr.isActive = true → tr.lastSeen = t → tr.enemyId = "enemy_" ++ toString n0 →
      (∀ q ∈ tr.positions, q.timestamp = t) →
      ∃ tr1 : EnemyTrajectory,
        ("enemy_" ++ toString n0, tr1) ∈ (obs.foldl (processDetection nrm t) s).enemyTrajectories ∧
        tr1.isActive = true ∧ tr1.lastSeen = t ∧ tr1.enemyId = "enemy_" ++ toString n0 ∧
        ∃ ps, tr1.positions = tr.positions ++ ps ∧
          ∀ q ∈ ps, ∃ d ∈ obs, q = observed d t ("enemy_" ++ toString n0) := by
  induction obs with
  | nil =>
    intro s tr _ _ hmem hact hlast hid _
    exact ⟨tr, hmem, hact, hlast, hid, [], by simp, by simp⟩
  | cons d rest ih =>
    intro s tr h0 hn hmem hact hlast hid htime
    have hfresh : "enemy_" ++ toString s.nextEnemyId ≠ "enemy_" ++ toString n0 := by
      intro e
      have := enemyId_inj _ _ (by omega) hn0 e
      omega
    have h0' : 0 ≤ (processDetection nrm t s d).trajectoryTimeout := by
      rw [(processDetection_config nrm t s d).2.1]; exact h0
    have hn' : n0 < (processDetection nrm t s d).nextEnemyId :=
      lt_of_lt_of_le hn (processDetection_nextEnemyId nrm t s d).2.2
    rcases processDetection_keeps_entry nrm t s d h0 _ tr hmem hlast hfresh with h | ⟨h, -⟩
    · obtain ⟨tr1, h1, h2, h3, h4, ps, h5, h6⟩ := ih _ tr h0' hn' h hact hlast hid htime
      refine ⟨tr1, h1, h2, h3, h4, ps, h5, ?_⟩
      intro q hq
      obtain ⟨d1, hd1, he⟩ := h6 q hq
      exact ⟨d1, List.mem_cons_of_mem _ hd1, he⟩
    · have hpos := updateTrajectory_same_time tr (observed d t tr.enemyId) htime
      obtain ⟨tr1, h1, h2, h3, h4, ps, h5, h6⟩ := ih _
        (UpdateTrajectory tr (observed d t tr.enemyId)) h0' hn' h hact rfl hid (by
          intro q hq
          rw [hpos] at hq
          rcases List.mem_append.1 hq with hq | hq
          · exact htime q hq
          · rw [List.mem_singleton.1 hq]; rfl)
      refine ⟨tr1, h1, h2, h3, h4, observed d t ("enemy_" ++ toString n0) :: ps, ?_, ?_⟩
      · rw [h5, hpos, hid]
        simp
      · intro q hq
        rcases List.mem_cons.1 hq with hq | hq
        · exact ⟨d, List.mem_cons_self _ _, hq⟩
        · obtain ⟨d1, hd1, he⟩ := h6 q hq
          exact ⟨d1, List.mem_cons_of_mem _ hd1, he⟩

/-- The first loop of `UpdateEnemyPositions` leaves a trajectory created in this frame as
it is when none of the observations that follow is within `maxTrackingDistance` of one of
its positions. -/
theorem foldl_untouched (nrm : Point2f → ℚ) (t : ℚ) (n0 : Int) (hn0 : 0 ≤ n0)
    (tr : EnemyTrajectory) (hlast : tr.lastSeen = t) (obs : List EnemyDetection) :
    ∀ s : PositionTracker, 0 ≤ s.trajectoryTimeout → n0 < s.nextEnemyId →
      ("enemy_" ++ toString n0, tr) ∈ s.enemyTrajectories →
      (∀ d ∈ obs, ∀ pos ∈ tr.positions, s.maxTrackingDistance ≤ nrm (d.center - pos.position)) →
      ("enemy_" ++ toString n0, tr) ∈ (obs.foldl (processDetection nrm t) s).enemyTrajectories := by
  induction obs with
  | nil => intro s _ _ hmem _; exact hmem
  | cons d rest ih =>
    intro s h0 hn hmem hfar
    have hfresh : "enemy_" ++ toString s.nextEnemyId ≠ "enemy_" ++ toString n0 := by
      intro e
      have := enemyId_inj _ _ (by omega) hn0 e
      omega
    have h0' : 0 ≤ (processDetection nrm t s d).trajectoryTimeout := by
      rw [(processDetection_config nrm t s d).2.1]; exact h0
    have hn' : n0 < (processDetection nrm t s d).nextEnemyId :=
      lt_of_lt_of_le hn (processDetection_nextEnemyId nrm t s d).2.2
    rcases processDetection_keeps_entry nrm t s d h0 _ tr hmem hlast hfresh with
      h | ⟨-, pos, hpos, hd⟩
    · apply ih _ h0' hn' h
      intro d1 hd1 pos hpos
      rw [(processDetection_config nrm t s d).1]
      exact hfar d1 (List.mem_cons_of_mem _ hd1) pos hpos
    · exact absurd hd (not_lt.2 (hfar d (List.mem_cons_self _ _) pos hpos))

/-- The loop body of `UpdateEnemyPositions` on an observation that is within
`maxTrackingDistance` of a position of an active trajectory last seen in this frame, and
strictly closer to that position than to every position of every other active trajectory
that has not timed out: the observation is appended to that trajectory and no id is
allocated. -/
theorem processDetection_appends (nrm : Point2f → ℚ) (t : ℚ) (s : PositionTracker)
    (d : EnemyDetection) (hs : SortedKeys s) (h0 : 0 ≤ s.trajectoryTimeout) (id : String)
    (tr : EnemyTrajectory) (hmem : (id, tr) ∈ s.enemyTrajectories) (hact : tr.isActive = true)
    (hlast : tr.lastSeen = t) (p0 : EnemyPosition) (hp0 : p0 ∈ tr.positions)
    (hclose : nrm (d.center - p0.position) < s.maxTrackingDistance)
    (hother : ∀ kv ∈ s.enemyTrajectories, kv.1 ≠ id → kv.2.isActive = true →
      t - kv.2.lastSeen ≤ s.trajectoryTimeout →
      ∀ pos ∈ kv.2.positions, nrm (d.center - p0.position) < nrm (d.center - pos.position)) :
    (id, UpdateTrajectory tr (observed d t tr.enemyId))
      ∈ (processDetection nrm t s d).enemyTrajectories ∧
    (processDetection nrm t s d).nextEnemyId = s.nextEnemyId := by
  have hlive : t - tr.lastSeen ≤ s.trajectoryTimeout := by
    rw [hlast]
    simpa using h0
  obtain ⟨i0, hi0⟩ := List.getElem?_of_mem hmem
  have hcand : (i0, nrm (d.center - p0.position))
      ∈ candidates nrm s.trajectoryTimeout d.center t 0 s.enemyTrajectories :=
    (mem_candidates nrm _ _ _ _ 0 i0 _).2
      ⟨Nat.zero_le _, (id, tr), by simpa using hi0, hact, hlive, p0, hp0, rfl⟩
  have hfound : ∃ j, (FindEnemyTrajectory nrm s d.center t).2 = some j ∧
      s.enemyTrajectories[j]? = some (id, tr) := by
    rcases find_result nrm s d.center t with ⟨-, hall⟩ | ⟨pre, j, dist, post, hc, hj, -, hpre, hpost⟩
    · exact absurd hclose (not_lt.2 (hall _ hcand))
    · refine ⟨j, hj, ?_⟩
      have hle : dist ≤ nrm (d.center - p0.position) := by
        rw [hc] at hcand
        rcases List.mem_append.1 hcand with h | h
        · exact le_of_lt (hpre _ h)
        · rcases List.mem_cons.1 h with h | h
          · rw [Prod.mk.injEq] at h
            rw [h.2]
          · exact hpost _ h
      have hjd : (j, dist)
          ∈ candidates nrm s.trajectoryTimeout d.center t 0 s.enemyTrajectories := by
        rw [hc]
        exact List.mem_append_right _ (List.mem_cons_self _ _)
      obtain ⟨-, kv, hkv, hact1, hlive1, pos, hpos, hd⟩ :=
        (mem_candidates nrm _ _ _ _ 0 j dist).1 hjd
      have hkv1 : s.enemyTrajectories[j]? = some kv := by simpa using hkv
      by_cases hne : kv.1 = id
      · rw [hkv1, entry_unique _ hs kv (id, tr) (List.getElem?_mem hkv1) hmem hne]
      · have := hother kv (List.getElem?_mem hkv1) hne hact1 hlive1 pos hpos
        rw [← hd] at this
        exact absurd this (not_lt.2 hle)
  obtain ⟨j, hj, hjnew⟩ := hfound
  have hjfind : (FindEnemyTrajectory nrm s d.center t).1.enemyTrajectories[j]?
      = some (id, tr) := by
    obtain ⟨kv, h1, h2, -⟩ := find_some_spec nrm s d.center t j hj
    rw [hjnew] at h1
    rw [h2, ← h1]
  refine ⟨?_, (processDetection_nextEnemyId nrm t s d).1 ⟨j, hj⟩⟩
  rw [processDetection_some nrm t s d j hj]
  apply List.getElem?_mem (n := j)
  simp only
  rw [List.getElem?_modify, hjfind]
  simp

/-- The first loop of `UpdateEnemyPositions` keeps the configuration of the tracker. -/
theorem loopState_config (nrm : Point2f → ℚ) (s : PositionTracker) (t : ℚ)
    (obs : List EnemyDetection) :
    (loopState nrm s t obs).maxTrackingDistance = s.maxTrackingDistance ∧
    (loopState nrm s t obs).trajectoryTimeout = s.trajectoryTimeout :=
  ⟨(foldl_processDetection_config nrm t obs (CleanupOldTrajectories s t)).1,
    (foldl_processDetection_config nrm t obs (CleanupOldTrajectories s t)).2.1⟩

/-- The state of the first loop after more observations. -/
theorem loopState_append (nrm : Point2f → ℚ) (s : PositionTracker) (t : ℚ)
    (obs more : List EnemyDetection) :
    loopState nrm s t (obs ++ more) = more.foldl (processDetection nrm t) (loopState nrm s t obs) := by
  unfold loopState
  rw [List.foldl_append]

/-- C28 (amended).  In every tracker that the member functions can build, within one
`UpdateEnemyPositions` call with the frame `before ++ d1 :: between ++ d2 :: rest`: let `d1`
match no trajectory when it is reached, and let the later observation `d2` lie at distance
strictly less than `maxTrackingDistance` from `d1` and be strictly closer to `d1` than to
every position of every other active trajectory that has not timed out, as they are when
`d2` is reached.  Then `d2` is appended to the trajectory created for `d1` instead of
receiving its own id: once `d2` has been processed the map holds, under the id allocated
for `d1` and under no other entry of that id, a trajectory whose first position is `d1`
and whose last position is `d2`, the positions in between being observations of `between`;
it holds exactly the two positions when no observation of `between` is within
`maxTrackingDistance` of `d1`, in particular when `d2` follows `d1` directly.  One id is
allocated for `d1` and none for `d2`.  When the call returns, the trajectory still holds
`d1` first and `d2` after it, every position with the timestamp of the frame, and exactly
the two if moreover `d2` is the last observation of the frame. -/
theorem C28_same_frame_append (nrm : Point2f → ℚ) (s : PositionTracker) (hb : Built nrm s)
    (before between rest : List EnemyDetection) (d1 d2 : EnemyDetection) (t : ℚ)
    (hnone : (FindEnemyTrajectory nrm (loopState nrm s t before) d1.center t).2 = none)
    (hclose : nrm (d2.center - d1.center) < s.maxTrackingDistance)
    (hother : ∀ kv ∈ (loopState nrm s t (before ++ d1 :: between)).enemyTrajectories,
      kv.1 ≠ "enemy_" ++ toString (loopState nrm s t before).nextEnemyId →
      kv.2.isActive = true → t - kv.2.lastSeen ≤ s.trajectoryTimeout →
      ∀ pos ∈ kv.2.positions, nrm (d2.center - d1.center) < nrm (d2.center - pos.position)) :
    (∃ kv ∈ (loopState nrm s t ((before ++ d1 :: between) ++ [d2])).enemyTrajectories,
      kv.1 = "enemy_" ++ toString (loopState nrm s t before).nextEnemyId ∧
      (∀ kv1 ∈ (loopState nrm s t ((before ++ d1 :: between) ++ [d2])).enemyTrajectories,
        kv1.1 = kv.1 → kv1 = kv) ∧
      ∃ ps, kv.2.positions = observed d1 t kv.1 :: (ps ++ [observed d2 t kv.1]) ∧
        (∀ q ∈ ps, ∃ d ∈ between, q = observed d t kv.1) ∧
        ((∀ d ∈ between, s.maxTrackingDistance ≤ nrm (d.center - d1.center)) → ps = [])) ∧
    (loopState nrm s t (before ++ [d1])).nextEnemyId
      = (loopState nrm s t before).nextEnemyId + 1 ∧
    (loopState nrm s t ((before ++ d1 :: between) ++ [d2])).nextEnemyId
      = (loopState nrm s t (before ++ d1 :: between)).nextEnemyId ∧
    (∃ kv ∈ (UpdateEnemyPositions nrm s ((before ++ d1 :: between) ++ d2 :: rest)
        t).enemyTrajectories,
      kv.1 = "enemy_" ++ toString (loopState nrm s t before).nextEnemyId ∧
      (∃ ps ps2, kv.2.positions
        = observed d1 t kv.1 :: (ps ++ observed d2 t kv.1 :: ps2)) ∧
      (∀ q ∈ kv.2.positions, q.timestamp = t) ∧
      ((∀ d ∈ between, s.maxTrackingDistance ≤ nrm (d.center - d1.center)) → rest = [] →
        kv.2.positions = [observed d1 t kv.1, observed d2 t kv.1])) := by
  obtain ⟨hsorted, htmo⟩ := hb.valid
  have hcount := hb.counter_pos
  have h0 : (0 : ℚ) ≤ s.trajectoryTimeout := le_trans (by norm_num) htmo
  have hcfg := loopState_config nrm s t
  -- the state when `d1` is reached
  have hn0 : 1 ≤ (loopState nrm s t before).nextEnemyId :=
    le_trans hcount (foldl_nextEnemyId_le nrm t before (CleanupOldTrajectories s t))
  generalize hN : (loopState nrm s t before).nextEnemyId = n0 at hn0 hother ⊢
  -- after `d1`
  have hm1 : loopState nrm s t (before ++ [d1])
      = processDetection nrm t (loopState nrm s t before) d1 := by
    rw [loopState_append]; rfl
  have hnext1 : (loopState nrm s t (before ++ [d1])).nextEnemyId = n0 + 1 := by
    rw [hm1, (processDetection_nextEnemyId nrm t _ d1).2.1 hnone, hN]
  have hmem1 : ("enemy_" ++ toString n0, created d1 t ("enemy_" ++ toString n0))
      ∈ (loopState nrm s t (before ++ [d1])).enemyTrajectories := by
    rw [hm1, processDetection_none nrm t _ d1 hnone, hN]
    exact mapInsert_mem_self _ _ _
  -- when `d2` is reached
  have hm2 : loopState nrm s t (before ++ d1 :: between)
      = between.foldl (processDetection nrm t) (loopState nrm s t (before ++ [d1])) := by
    rw [show before ++ d1 :: between = (before ++ [d1]) ++ between by simp, loopState_append]
  have h0m1 : 0 ≤ (loopState nrm s t (before ++ [d1])).trajectoryTimeout := by
    rw [(hcfg _).2]; exact h0
  obtain ⟨tr1, hmem2, hact2, hlast2, hid2, ps, hps, hpsD⟩ := foldl_extends nrm t n0 (by omega)
    between (loopState nrm s t (before ++ [d1])) (created d1 t ("enemy_" ++ toString n0)) h0m1
    (by rw [hnext1]; omega) hmem1 rfl rfl rfl (by
      intro q hq
      rw [List.mem_singleton.1 hq]
      rfl)
  rw [← hm2] at hmem2
  have hsorted2 := sortedKeys_loopState nrm s t hsorted (before ++ d1 :: between)
  have hps0 : (∀ d ∈ between, s.maxTrackingDistance ≤ nrm (d.center - d1.center)) → ps = [] := by
    intro hfar
    have hun := foldl_untouched nrm t n0 (by omega) (created d1 t ("enemy_" ++ toString n0)) rfl
      between (loopState nrm s t (before ++ [d1])) h0m1 (by rw [hnext1]; omega) hmem1 (by
        intro d hd pos hpos
        rw [List.mem_singleton.1 hpos, (hcfg _).1]
        exact hfar d hd)
    rw [← hm2] at hun
    have heq := entry_unique _ hsorted2 _ _ hmem2 hun rfl
    rw [Prod.mk.injEq] at heq
    rw [heq.2] at hps
    have hcancel : [observed d1 t ("enemy_" ++ toString n0)] ++ ([] : List EnemyPosition)
        = [observed d1 t ("enemy_" ++ toString n0)] ++ ps := by
      simpa [created] using hps
    exact (List.append_cancel_left hcancel).symm
  have htime2 : ∀ q ∈ tr1.positions, q.timestamp = t := by
    intro q hq
    rw [hps] at hq
    rcases List.mem_append.1 hq with hq | hq
    · rw [List.mem_singleton.1 hq]; rfl
    · obtain ⟨d, -, he⟩ := hpsD q hq
      rw [he]; rfl
  -- after `d2`
  have hm3 : loopState nrm s t ((before ++ d1 :: between) ++ [d2])
      = processDetection nrm t (loopState nrm s t (before ++ d1 :: between)) d2 := by
    rw [loopState_append]; rfl
  obtain ⟨hmem3, hnext3⟩ := processDetection_appends nrm t
    (loopState nrm s t (before ++ d1 :: between)) d2 hsorted2
    (by rw [(hcfg _).2]; exact h0) ("enemy_" ++ toString n0) tr1 hmem2 hact2 hlast2
    (observed d1 t ("enemy_" ++ toString n0)) (by rw [hps]; simp [created])
    (by rw [(hcfg _).1]; exact hclose)
    (by
      intro kv hkv hne hact hlive pos hpos
      rw [(hcfg _).2] at hlive
      exact hother kv hkv hne hact hlive pos hpos)
  rw [← hm3] at hmem3 hnext3
  have hpos3 : (UpdateTrajectory tr1 (observed d2 t tr1.enemyId)).positions
      = observed d1 t ("enemy_" ++ toString n0)
          :: (ps ++ [observed d2 t ("enemy_" ++ toString n0)]) := by
    rw [updateTrajectory_same_time tr1 _ htime2, hps, hid2]
    simp [created]
  have hsorted3 := sortedKeys_loopState nrm s t hsorted ((before ++ d1 :: between) ++ [d2])
  refine ⟨⟨_, hmem3, rfl, ?_, ps, hpos3, hpsD, hps0⟩, hnext1, hnext3, ?_⟩
  · intro kv1 hkv1 he
    exact entry_unique _ hsorted3 _ _ hkv1 hmem3 he
  -- when the call returns
  · have hm4 : loopState nrm s t ((before ++ d1 :: between) ++ d2 :: rest)
        = rest.foldl (processDetection nrm t)
            (loopState nrm s t ((before ++ d1 :: between) ++ [d2])) := by
      rw [show (before ++ d1 :: between) ++ d2 :: rest
        = ((before ++ d1 :: between) ++ [d2]) ++ rest by simp, loopState_append]
    have hn3 : n0 < (loopState nrm s t ((before ++ d1 :: between) ++ [d2])).nextEnemyId := by
      rw [hnext3, hm2]
      exact lt_of_lt_of_le (by rw [hnext1]; omega) (foldl_nextEnemyId_le nrm t between _)
    have htime3 : ∀ q ∈ (UpdateTrajectory tr1 (observed d2 t tr1.enemyId)).positions,
        q.timestamp = t := by
      intro q hq
      rw [updateTrajectory_same_time tr1 _ htime2] at hq
      rcases List.mem_append.1 hq with hq | hq
      · exact htime2 q hq
      · rw [List.mem_singleton.1 hq]; rfl
    obtain ⟨tr4, hmem4, -, -, -, ps2, hps2, hps2D⟩ := foldl_extends nrm t n0 (by omega) rest
      (loopState nrm s t ((before ++ d1 :: between) ++ [d2]))
      (UpdateTrajectory tr1 (observed d2 t tr1.enemyId)) (by rw [(hcfg _).2]; exact h0) hn3
      hmem3 hact2 rfl hid2 htime3
    rw [← hm4] at hmem4
    have hres : (UpdateEnemyPositions nrm s ((before ++ d1 :: between) ++ d2 :: rest)
        t).enemyTrajectories
        = (loopState nrm s t ((before ++ d1 :: between) ++ d2 :: rest)).enemyTrajectories.map
            (fun kv => (kv.1, refreshTrajectory nrm
              (loopState nrm s t ((before ++ d1 :: between) ++ d2 :: rest)) kv.2)) := rfl
    rw [hres]
    refine ⟨_, List.mem_map_of_mem _ hmem4, rfl, ?_, ?_, ?_⟩
    · refine ⟨ps, ps2, ?_⟩
      simp only [refreshTrajectory_positions]
      rw [hps2, hpos3]
      simp
    · intro q hq
      simp only [refreshTrajectory_positions] at hq
      rw [hps2] at hq
      rcases List.mem_append.1 hq with hq | hq
      · exact htime3 q hq
      · obtain ⟨d, -, he⟩ := hps2D q hq
        rw [he]; rfl
    · intro hfar hrest
      simp only [refreshTrajectory_positions]
      have hps2nil : ps2 = [] := by
        cases ps2 with
        | nil => rfl
        | cons q _ =>
          obtain ⟨d, hd, -⟩ := hps2D q (List.mem_cons_self _ _)
          rw [hrest] at hd
          simp at hd
      rw [hps2, hpos3, hps2nil, hps0 hfar]
      simp

/-- Witness of C28: `enemy_1` at (0,0), then the frame at `t = 1` with observations at
(160,0), (1000,0) and (90,0): the third is at 70 from the first, at 90 from `enemy_1` and at
910 from the second, and the trajectory created for the first ends with the two positions
(160,0) and (90,0). -/
theorem C28_witness :
    Built cvNorm exTracker1 ∧
    (∃ kv ∈ (UpdateEnemyPositions cvNorm exTracker1
        (([] ++ exObs 160 0 :: [exObs 1000 0]) ++ exObs 90 0 :: []) 1).enemyTrajectories,
      kv.1 = "enemy_" ++ toString (loopState cvNorm exTracker1 1 []).nextEnemyId ∧
      (∃ ps ps2, kv.2.positions
        = observed (exObs 160 0) 1 kv.1 :: (ps ++ observed (exObs 90 0) 1 kv.1 :: ps2)) ∧
      (∀ q ∈ kv.2.positions, q.timestamp = 1) ∧
      ((∀ d ∈ [exObs 1000 0],
          exTracker1.maxTrackingDistance ≤ cvNorm (d.center - (exObs 160 0).center)) →
        ([] : List EnemyDetection) = [] →
        kv.2.positions = [observed (exObs 160 0) 1 kv.1, observed (exObs 90 0) 1 kv.1])) :=
  ⟨Built.update _ _ _ (Built.reset _ Built.construct),
    (C28_same_frame_append cvNorm exTracker1 (Built.update _ _ _ (Built.reset _ Built.construct))
      [] [exObs 1000 0] [] (exObs 160 0) (exObs 90 0) 1
      (by decide!) (by decide!) (by decide!)).2.2.2⟩

/-! ## PositionTracker: ids after loading -/

/-- C10 (divergence).  `LoadTrajectoryData` reads the file saved from a tracker that held
`enemy_1` with the position (0,0): the new tracker then holds `enemy_1`, inactive, and its
counter `nextEnemyId` is still 1.  The observation at (1,0) at `t = 1`, within
`maxTrackingDistance` of the last position of that trajectory, matches no active
trajectory; `UpdateEnemyPositions` gives it the id `enemy_1` again and overwrites the
entry: the map then holds under `enemy_1` an active trajectory with the new position only,
and the inactive trajectory is gone. -/
theorem C10_reactivation_after_load :
    SaveTrajectoryData putDefault exTracker1
      = "enemy_id,timestamp,x,y,confidence,is_visible\nenemy_1,0,0,0,0.9,true\n" ∧
    (LoadTrajectoryData stodDecimal stodDecimal 0 new
      "enemy_id,timestamp,x,y,confidence,is_visible\nenemy_1,0,0,0,0.9,true\n").isSome = true ∧
    exTrackerLoaded.nextEnemyId = 1 ∧
    exTrackerLoaded.enemyTrajectories.map
        (fun kv => (kv.1, kv.2.isActive, kv.2.positions.map (fun q => (q.position, q.timestamp))))
      = [("enemy_1", false, [(⟨0, 0⟩, 0)])] ∧
    (FindEnemyTrajectory cvNorm (CleanupOldTrajectories exTrackerLoaded 1)
      (exObs 1 0).center 1).2 = none ∧
    cvNorm ((exObs 1 0).center - (⟨0, 0⟩ : Point2f)) < exTrackerLoaded.maxTrackingDistance ∧
    (UpdateEnemyPositions cvNorm exTrackerLoaded [exObs 1 0] 1).enemyTrajectories.map
        (fun kv => (kv.1, kv.2.isActive, kv.2.positions.map (fun q => (q.position, q.timestamp))))
      = [("enemy_1", true, [(⟨1, 0⟩, 1)])] := by
  refine ⟨by decide!, by decide!, by decide!, by decide!, by decide!, by decide!, by decide!⟩

/-- C13 (divergence).  The tracker holds the loaded trajectory `enemy_1`, last seen at
`t = 0`, and its counter `nextEnemyId` is 1.  At `t = 100` the trajectory is past the
timeout of 5 s.  `UpdateEnemyPositions` with the observation at (500,0) at `t = 100` gives
the observation the id `enemy_1` and overwrites the entry: `GetAllTrajectories` then holds
one trajectory, `enemy_1`, active, with the position (500,0) only; the trajectory that
existed before the call is not present any more. -/
theorem C13_deleted_after_load :
    (∀ kv ∈ exTrackerLoaded.enemyTrajectories, kv.1 = "enemy_1" ∧ kv.2.lastSeen = 0 ∧
      100 - kv.2.lastSeen > exTrackerLoaded.trajectoryTimeout ∧
      kv.2.positions.map (fun q => (q.position, q.timestamp)) = [(⟨0, 0⟩, 0)]) ∧
    exTrackerLoaded.enemyTrajectories.length = 1 ∧
    exTrackerLoaded.nextEnemyId = 1 ∧
    (GetAllTrajectories (UpdateEnemyPositions cvNorm exTrackerLoaded [exObs 500 0] 100)).map
        (fun tr => (tr.enemyId, tr.isActive, tr.positions.map (fun q => (q.position, q.timestamp))))
      = [("enemy_1", true, [(⟨500, 0⟩, 100)])] := by
  refine ⟨by decide!, by decide!, by decide!, by decide!⟩

end PositionTracker

end GameTrainer
